import Mathlib

/-!
FormaJS/bind: the error-tree transforms of `src/utils.js` and the binders built
on them.

A shallow embedding of `flattenMoldErrorsToRHF` and `transformMoldErrorsToFormik`
over a model of the JavaScript values the two functions can inspect, and of the
binders (`rhf.js`, `formik.js`, `tanstack.js`, `veevalidate.js`, `felte.js`,
`mantine.js`, `solid.js`, `svelte5.js`, `vue.js`) over the outcome of the engine's
`validate`, followed by theorems about them.

Modelling conventions:

* `JSValue` covers `undefined`, `null`, booleans, numbers, strings, plain objects
  and arrays; an array may carry an own `items` property (the "items side-channel"
  built in the repository with `Object.assign([...], { items })`).
* A plain object is the list of its own enumerable properties in `Object.keys`
  order.  A JavaScript object holds a key at most once; `JSValue.wellFormed`
  states that representation invariant for whole trees, and theorems that depend
  on it take the absence of repeated keys as a hypothesis.
* The recursive closures `walk` and `convert` are defined by recursion on a fuel
  parameter; the exported functions supply `height + 1`, which is enough
  (`walk_fuel_stable`, `convert_fuel_stable`: any larger fuel gives the
  same result, so `walkNode` and `mirror` obey the recursive equations of
  the closures, `walkNode_eq` and `mirror_eq`).
* The mutable accumulator `out` of `walk` is passed explicitly; an assignment
  `out[path] = v` keeps insertion order (`setProp`).
* Property reads are total: a missing property reads as `undefined`.  A read on
  `null`/`undefined` would throw in JavaScript; each read in `utils.js` follows a
  truthiness test of its receiver, so no such read is ever evaluated.  This is
  proved, not assumed: `walkChecked` and `convertChecked` repeat the two closures
  with every read checked, and `transforms_never_throw` shows that they return
  the results of the unchecked functions.
-/

namespace FormaBind

/-- JavaScript values reachable in an error tree. Numbers are integers: the
transforms only look at the truthiness of a number, and `NaN` behaves like `0`
there. -/
inductive JSValue where
  | undefined
  | null
  | bool (b : Bool)
  | num (n : Int)
  | str (s : String)
  | obj (props : List (String × JSValue))
  | arr (elems : List JSValue) (items : Option JSValue)
  deriving Repr

/-- Own enumerable properties of an object, in `Object.keys` order. -/
abbrev Props := List (String × JSValue)

namespace JSValue

/-- Truthiness (`if (v)`, `!v`, `a && b`). -/
def truthy : JSValue → Bool
  | undefined => false
  | null => false
  | bool b => b
  | num n => n != 0
  | str s => s != ""
  | obj _ => true
  | arr _ _ => true

/-- Test `Array.isArray(v)`. -/
def isArray : JSValue → Bool
  | arr _ _ => true
  | _ => false

/-- Test `typeof v === "object"` (true of `null` as well). -/
def isObjectType : JSValue → Bool
  | null => true
  | obj _ => true
  | arr _ _ => true
  | _ => false

/-- Test `v != null` (loose): neither `null` nor `undefined`. -/
def neNull : JSValue → Bool
  | undefined => false
  | null => false
  | _ => true

/-- Elements of an array (empty for other values). -/
def elems : JSValue → List JSValue
  | arr es _ => es
  | _ => []

/-- Property `a.length` of an array. -/
def length (v : JSValue) : Nat := v.elems.length

/-- Index-keyed properties `"i", "i+1", ...` of a sequence of elements. -/
def indexed : Nat → List JSValue → Props
  | _, [] => []
  | i, e :: es => (toString i, e) :: indexed (i + 1) es

/-- Own enumerable string-keyed properties, in `Object.keys` order: the
properties of an object; the indices of an array followed by `items` when
present; the indices of a string (by character); nothing for other values. -/
def ownProps : JSValue → Props
  | obj props => props
  | arr es items =>
      indexed 0 es ++ (match items with
        | some v => [("items", v)]
        | none => [])
  | str s => indexed 0 (s.toList.map fun c => str (String.singleton c))
  | _ => []

/-- Result of `Object.keys(v)`. -/
def keys (v : JSValue) : List String := v.ownProps.map Prod.fst

/-- Property read `v[k]` / `v.k`: an own property of an object; `items`,
`length` or an element of an array; `length` or a character of a string;
`undefined` when the property is missing.  (On `null`/`undefined` JavaScript
throws; every read in `utils.js` is guarded by a truthiness test of the
receiver.) -/
def get (v : JSValue) (k : String) : JSValue :=
  match v with
  | obj props => (props.lookup k).getD undefined
  | arr es items =>
      if k = "items" then items.getD undefined
      else if k = "length" then num es.length
      else ((indexed 0 es).lookup k).getD undefined
  | str s =>
      if k = "length" then num s.length
      else ((indexed 0 (s.toList.map fun c => str (String.singleton c))).lookup k).getD undefined
  | _ => undefined

/-- Numeric index read `v[i]`. -/
def index (v : JSValue) (i : Nat) : JSValue :=
  match v with
  | arr es _ => es.getD i undefined
  | _ => v.get (toString i)

mutual
/-- Nesting depth: `0` for primitives, one more than the deepest child for
objects and arrays. -/
def height : JSValue → Nat
  | obj props => heightProps props + 1
  | arr es items => max (heightElems es) (heightItems items) + 1
  | _ => 0
/-- Largest height among property values. -/
def heightProps : List (String × JSValue) → Nat
  | [] => 0
  | (_, v) :: rest => max (height v) (heightProps rest)
/-- Largest height among array elements. -/
def heightElems : List JSValue → Nat
  | [] => 0
  | v :: rest => max (height v) (heightElems rest)
/-- Height of the optional `items` property. -/
def heightItems : Option JSValue → Nat
  | none => 0
  | some v => height v
end

mutual
/-- Representation invariant: no object anywhere in the value lists a key twice. -/
def wellFormed : JSValue → Bool
  | obj props => decide (props.map Prod.fst).Nodup && wellFormedProps props
  | arr es items => wellFormedElems es && wellFormedItems items
  | _ => true
/-- Every property value is well formed. -/
def wellFormedProps : List (String × JSValue) → Bool
  | [] => true
  | (_, v) :: rest => wellFormed v && wellFormedProps rest
/-- Every element is well formed. -/
def wellFormedElems : List JSValue → Bool
  | [] => true
  | v :: rest => wellFormed v && wellFormedElems rest
/-- The `items` property, when present, is well formed. -/
def wellFormedItems : Option JSValue → Bool
  | none => true
  | some v => wellFormed v
end

end JSValue

open JSValue

/-- Assignment `o[k] = v` on a plain object: overwrite in place when `k` is
already a key, else add `k` last. -/
def setProp : Props → String → JSValue → Props
  | [], k, v => [(k, v)]
  | (k', v') :: rest, k, v =>
      if k' = k then (k, v) :: rest else (k', v') :: setProp rest k v

/-- Path of a child: `basePath ? basePath + "." + key : key`. -/
def joinPath (basePath key : String) : String :=
  if basePath ≠ "" then basePath ++ "." ++ key else key

/-- Record `{ type: e.rule, message: e.message }`. -/
def leafRecord (e : JSValue) : JSValue :=
  obj [("type", e.get "rule"), ("message", e.get "message")]

/-- The loop `Object.keys(items).forEach((idx) => ...)` of `walk`
(`utils.js` lines 23-41 and, verbatim again, 82-101). -/
def walkItems (walk : JSValue → String → Props → Props)
    (items : JSValue) (basePath : String) (out : Props) : Props :=
  items.keys.foldl (fun out idx =>
    let arrErr := items.get idx
    if arrErr.isArray && (arrErr.index 0).truthy && ((arrErr.index 0).get "rule").truthy then
      setProp out (joinPath basePath idx) (leafRecord (arrErr.index 0))
    else if arrErr.isArray && arrErr.length == 1 && (arrErr.index 0).truthy
        && (arrErr.index 0).isObjectType && !((arrErr.index 0).get "rule").truthy then
      walk (arrErr.index 0) (joinPath basePath idx) out
    else if arrErr.truthy && arrErr.isObjectType then
      walk arrErr (joinPath basePath idx) out
    else out) out

/-- The loop `for (let i = 0; i < node.length; i++)` of `walk`
(`utils.js` lines 64-79). -/
def walkElements (walk : JSValue → String → Props → Props)
    (node : JSValue) (basePath : String) (out : Props) : Props :=
  (List.range node.length).foldl (fun out i =>
    let item := node.index i
    if item.truthy && (item.get "rule").truthy && (item.get "message").truthy then
      setProp out (joinPath basePath (toString i)) (leafRecord item)
    else if item.truthy && item.isObjectType && !item.isArray
        && !(item.get "rule").truthy then
      walk item (joinPath basePath (toString i)) out
    else out) out

/-- Body of the closure `walk(node, basePath)` of `flattenMoldErrorsToRHF`, with
the recursive calls going to the parameter `walk`. -/
def walkStep (walk : JSValue → String → Props → Props)
    (node : JSValue) (basePath : String) (out : Props) : Props :=
  if !node.truthy then out
  else if node.isArray then
    if node.length == 0 then
      if (node.get "items").truthy then walkItems walk (node.get "items") basePath out
      else out
    else if (node.index 0).truthy && ((node.index 0).get "rule").truthy
        && ((node.index 0).get "message").truthy then
      setProp out basePath (leafRecord (node.index 0))
    else if node.length == 1 && (node.index 0).truthy && (node.index 0).isObjectType
        && !((node.index 0).get "rule").truthy then
      walk (node.index 0) basePath out
    else
      let out1 := walkElements walk node basePath out
      if (node.get "items").truthy then walkItems walk (node.get "items") basePath out1
      else out1
  else if node.isObjectType then
    node.keys.foldl (fun out key => walk (node.get key) (joinPath basePath key) out) out
  else out

/-- The closure `walk` of `flattenMoldErrorsToRHF`, unfolded `fuel` levels deep. -/
def walk : Nat → JSValue → String → Props → Props
  | 0 => fun _ _ out => out
  | fuel + 1 => walkStep (walk fuel)

/-- Effect of the call `walk(node, basePath)` on the accumulator `out`: the
recursion run with enough fuel for `node`. -/
def walkNode (node : JSValue) (basePath : String) (out : Props) : Props :=
  walk (node.height + 1) node basePath out

/-- Function `flattenMoldErrorsToRHF(moldErrors)`. -/
def flattenMoldErrorsToRHF (moldErrors : JSValue) : JSValue :=
  if !moldErrors.truthy then obj []
  else obj (walkNode moldErrors "" [])

/-- The loop building `itemsObj` in `convert` (`utils.js` lines 133-137 and
160-164). -/
def convertItems (convert : JSValue → JSValue) (items : JSValue) : Props :=
  items.keys.foldl (fun itemsObj i =>
    let sub := convert (items.get i)
    if sub.neNull then setProp itemsObj i sub else itemsObj) []

/-- Body of the closure `convert(node)` of `transformMoldErrorsToFormik`, with
the recursive calls going to the parameter `convert`. -/
def convertStep (convert : JSValue → JSValue) (node : JSValue) : JSValue :=
  if !node.truthy then undefined
  else if node.isArray then
    if node.length == 0 then
      if (node.get "items").truthy then
        let itemsObj := convertItems convert (node.get "items")
        if itemsObj.length > 0 then obj itemsObj else undefined
      else undefined
    else if (node.index 0).truthy && ((node.index 0).get "rule").truthy
        && ((node.index 0).get "message").truthy then
      (node.index 0).get "message"
    else if node.length == 1 && (node.index 0).truthy && (node.index 0).isObjectType
        && !((node.index 0).get "rule").truthy then
      convert (node.index 0)
    else
      let baseMessages :=
        (node.elems.filter fun e => e.truthy && (e.get "message").truthy).map
          fun e => e.get "message"
      let outArr := if baseMessages.length != 0 then baseMessages.getD 0 undefined else undefined
      if (node.get "items").truthy then
        let itemsObj := convertItems convert (node.get "items")
        if itemsObj.length > 0 then obj itemsObj else outArr
      else outArr
  else if node.isObjectType then
    obj (node.keys.foldl (fun out k =>
      let sub := convert (node.get k)
      if sub.neNull then setProp out k sub else out) [])
  else undefined

/-- The closure `convert` of `transformMoldErrorsToFormik`, unfolded `fuel`
levels deep. -/
def convert : Nat → JSValue → JSValue
  | 0 => fun _ => undefined
  | fuel + 1 => convertStep (convert fuel)

/-- Value of `convert(node)`: the recursion run with enough fuel for `node`. -/
def mirror (node : JSValue) : JSValue := convert (node.height + 1) node

/-- Function `transformMoldErrorsToFormik(moldErrors)`:
`convert(moldErrors) || {}`, and `{}` for a falsy argument. -/
def transformMoldErrorsToFormik (moldErrors : JSValue) : JSValue :=
  if !moldErrors.truthy then obj []
  else if (mirror moldErrors).truthy then mirror moldErrors else obj []


/-! ## Shapes named by the specification -/

/-- Leaf group: an array whose first element has truthy `rule` and `message`. -/
def isLeafGroup : JSValue → Bool
  | arr (e :: _) _ => e.truthy && (e.get "rule").truthy && (e.get "message").truthy
  | _ => false

/-- Nested field maps `{k1: {k2: ... {kn: g}}}`. -/
def nestFields : List String → JSValue → JSValue
  | [], g => g
  | k :: ks, g => obj [(k, nestFields ks g)]

mutual
/-- Trees built only from field maps (plain objects) and leaf groups. -/
def isFieldTree : JSValue → Bool
  | obj props => isFieldTreeProps props
  | arr (e :: _) _ => e.truthy && (e.get "rule").truthy && (e.get "message").truthy
  | _ => false
/-- Every property value is a tree of field maps and leaf groups. -/
def isFieldTreeProps : List (String × JSValue) → Bool
  | [] => true
  | (_, v) :: rest => isFieldTree v && isFieldTreeProps rest
end

mutual
/-- The mirrored shape described by the specification: the same keys at every
level, each leaf group replaced by the `message` of its first element. -/
def mirrorShape : JSValue → JSValue
  | obj props => obj (mirrorShapeProps props)
  | arr (e :: _) _ => e.get "message"
  | v => v
/-- Mirrored shape of each property, keys kept. -/
def mirrorShapeProps : List (String × JSValue) → List (String × JSValue)
  | [] => []
  | (k, v) :: rest => (k, mirrorShape v) :: mirrorShapeProps rest
end

/-- Leaf test of the code: `e && e.rule && e.message`. -/
def isLeaf (e : JSValue) : Bool :=
  e.truthy && (e.get "rule").truthy && (e.get "message").truthy

/-- Object-wrapper test of the code: `node.length === 1 && node[0] &&
typeof node[0] === "object" && !node[0].rule`. -/
def isObjectWrapper (node : JSValue) : Bool :=
  node.length == 1 && (node.index 0).truthy && (node.index 0).isObjectType
    && !((node.index 0).get "rule").truthy

/-- The mapping `{index: mirror(child), ...}` of an `items` object, without the
entries whose child reduces to `null`/`undefined`. -/
def mirrorItems (its : Props) : Props :=
  (its.filter fun q => (mirror q.2).neNull).map fun q => (q.1, mirror q.2)

/-! ## Predicates over whole trees -/

/-- Primitive values: everything but plain objects and arrays. -/
def isPrimitive : JSValue → Bool
  | obj _ => false
  | arr _ _ => false
  | _ => true

mutual
/-- The test `p` holds of the value and of every value nested inside it
(property values, array elements, the `items` property). -/
def everywhere (p : JSValue → Bool) : JSValue → Bool
  | obj props => p (obj props) && everywhereProps p props
  | arr es items => p (arr es items) && everywhereElems p es && everywhereItems p items
  | v => p v
/-- The test holds throughout every property value. -/
def everywhereProps (p : JSValue → Bool) : List (String × JSValue) → Bool
  | [] => true
  | (_, v) :: rest => everywhere p v && everywhereProps p rest
/-- The test holds throughout every element. -/
def everywhereElems (p : JSValue → Bool) : List JSValue → Bool
  | [] => true
  | v :: rest => everywhere p v && everywhereElems p rest
/-- The test holds throughout the `items` property, when present. -/
def everywhereItems (p : JSValue → Bool) : Option JSValue → Bool
  | none => true
  | some v => everywhere p v
end

/-- No value inside carries a truthy `rule` property: an opaque subtree. -/
def noRuleInside (v : JSValue) : Bool :=
  everywhere (fun w => !(w.get "rule").truthy) v

/-- No mapping, at the root or nested at any depth, holds a key whose value is
`undefined` or `null`. -/
def noNullEntries (v : JSValue) : Bool :=
  everywhere (fun w => match w with
    | obj props => props.all fun q => q.2.neNull
    | _ => true) v

/-- The message that `convert` copies out of an array node as it is: the
`message` of the first element when that element is a leaf (`utils.js` lines
142-144); nothing for a single-element object wrapper; otherwise the first truthy
`message` among the elements (`baseMessages[0]`, lines 155-158). -/
def copiedMessage (node : JSValue) : JSValue :=
  if isLeaf (node.index 0) then (node.index 0).get "message"
  else if isObjectWrapper node then undefined
  else ((node.elems.filter fun e => e.truthy && (e.get "message").truthy).map
      fun e => e.get "message").getD 0 undefined

/-- Every message that `convert` can copy out of an array of the tree holds no
mapping with a `null` or `undefined` entry; a string, as in the typed data model
`MoldErrorsLeaf`, never does. Field maps are not constrained. -/
def cleanMessages (v : JSValue) : Bool :=
  everywhere (fun w => !w.isArray || noNullEntries (copiedMessage w)) v

/-! ## `ValidationError` -/

/-- A JavaScript error object: its class chain (what `instanceof` sees), the
properties `name` and `message`, and the own property `errors`. -/
structure ErrorObject where
  classes : List String
  name : String
  message : String
  errors : JSValue

/-- Built-in constructor `new Error(message)`. -/
def newError (message : String) : ErrorObject :=
  ErrorObject.mk ["Error"] "Error" message JSValue.undefined

/-- Class `ValidationError extends Error` (`utils.js` lines 187-193), as its
constructor: `super("Validation failed"); this.name = "ValidationError";
this.errors = errors`. -/
def ValidationError (errors : JSValue) : ErrorObject :=
  let self0 := newError "Validation failed"
  let self1 := ErrorObject.mk ("ValidationError" :: self0.classes) self0.name self0.message
    self0.errors
  let self2 := ErrorObject.mk self1.classes "ValidationError" self1.message self1.errors
  ErrorObject.mk self2.classes self2.name self2.message errors

/-! ## Paths -/

/-- The key lies at or below the path: it is the path itself, or the path
followed by `"."` and further segments. -/
def underPath (base key : String) : Prop :=
  key = base ∨ ∃ rest : String, key = base ++ "." ++ rest

/-! ## Leaf groups of a tree of field maps -/

mutual
/-- The leaf groups of a tree of field maps, in visiting order, each given by
the field names on the path to it and by its first element. -/
def leafPaths : JSValue → List (List String × JSValue)
  | obj props => leafPathsProps props
  | arr (e :: _) _ => [([], e)]
  | _ => []
/-- Leaf groups below each property, the property name put in front. -/
def leafPathsProps : List (String × JSValue) → List (List String × JSValue)
  | [] => []
  | (k, v) :: rest => (leafPaths v).map (fun q => (k :: q.1, q.2)) ++ leafPathsProps rest
end

mutual
/-- Number of leaf groups in a tree of field maps. -/
def countLeafGroups : JSValue → Nat
  | obj props => countLeafGroupsProps props
  | arr (_ :: _) _ => 1
  | _ => 0
/-- Number of leaf groups below the properties. -/
def countLeafGroupsProps : List (String × JSValue) → Nat
  | [] => 0
  | (_, v) :: rest => countLeafGroups v + countLeafGroupsProps rest
end

/-- A field name that is non-empty and contains no `'.'`. -/
def plainName (k : String) : Bool := k != "" && !k.data.contains '.'

mutual
/-- Every field name in the field maps of the tree is non-empty and free of
`'.'`. -/
def plainNames : JSValue → Bool
  | obj props => plainNamesProps props
  | _ => true
/-- Every name in and below the properties is plain. -/
def plainNamesProps : List (String × JSValue) → Bool
  | [] => true
  | (k, v) :: rest => plainName k && plainNames v && plainNamesProps rest
end

/-! ## Checked evaluation: the same code with reads that can throw

In JavaScript a property read on `null`/`undefined` and `Object.keys` of
`null`/`undefined` raise a TypeError.  The definitions below repeat `walk` and
`convert` with every read, element access and key enumeration checked; `none`
means that the call did not return (a TypeError was raised, or the fuel ran
out).  A condition `a && b` evaluates `b` only when `a` is truthy. -/

/-- Checked read `v[k]` / `v.k`. -/
def getChecked (v : JSValue) (k : String) : Option JSValue :=
  match v with
  | undefined => none
  | null => none
  | _ => some (v.get k)

/-- Checked element read `v[i]`. -/
def indexChecked (v : JSValue) (i : Nat) : Option JSValue :=
  match v with
  | undefined => none
  | null => none
  | _ => some (v.index i)

/-- Checked read `v.length`. -/
def lengthChecked (v : JSValue) : Option Nat :=
  match v with
  | undefined => none
  | null => none
  | _ => some v.length

/-- Checked `Object.keys(v)`. -/
def keysChecked (v : JSValue) : Option (List String) :=
  match v with
  | undefined => none
  | null => none
  | _ => some v.keys

/-- Truthiness of a value whose evaluation may have thrown. -/
def truthyOf (v : Option JSValue) : Option Bool := v.map JSValue.truthy

/-- Condition `a && b`: `b` counts only when `a` evaluated to a truthy value. -/
def andThen (a b : Option Bool) : Option Bool :=
  match a with
  | none => none
  | some false => some false
  | some true => b

/-- Condition `!a`. -/
def notChecked (a : Option Bool) : Option Bool := a.map fun x => !x

/-- Statement `if (c) t else e` where evaluating `c` may throw. -/
def ifChecked {α : Type} (c : Option Bool) (t e : Option α) : Option α :=
  match c with
  | none => none
  | some true => t
  | some false => e

/-- Checked record `{ type: e.rule, message: e.message }`. -/
def leafRecordChecked (e : JSValue) : Option JSValue :=
  (getChecked e "rule").bind fun r =>
    (getChecked e "message").bind fun m => some (obj [("type", r), ("message", m)])

/-- Checked `items` loop of `walk`. -/
def walkItemsChecked (walk : JSValue → String → Props → Option Props)
    (items : JSValue) (basePath : String) (out : Props) : Option Props :=
  (keysChecked items).bind fun ks =>
    ks.foldlM (fun out idx =>
      (getChecked items idx).bind fun arrErr =>
        ifChecked
          (andThen (andThen (some arrErr.isArray) (truthyOf (indexChecked arrErr 0)))
            (truthyOf ((indexChecked arrErr 0).bind fun e => getChecked e "rule")))
          ((indexChecked arrErr 0).bind fun e =>
            (leafRecordChecked e).map fun r => setProp out (joinPath basePath idx) r)
          (ifChecked
            (andThen (andThen (andThen (andThen (some arrErr.isArray)
                ((lengthChecked arrErr).map fun n => n == 1))
                (truthyOf (indexChecked arrErr 0)))
                ((indexChecked arrErr 0).map JSValue.isObjectType))
                (notChecked (truthyOf ((indexChecked arrErr 0).bind fun e =>
                  getChecked e "rule"))))
            ((indexChecked arrErr 0).bind fun e => walk e (joinPath basePath idx) out)
            (ifChecked (andThen (some arrErr.truthy) (some arrErr.isObjectType))
              (walk arrErr (joinPath basePath idx) out)
              (some out)))) out

/-- Checked element loop of `walk`. -/
def walkElementsChecked (walk : JSValue → String → Props → Option Props)
    (node : JSValue) (basePath : String) (out : Props) : Option Props :=
  (lengthChecked node).bind fun n =>
    (List.range n).foldlM (fun out i =>
      (indexChecked node i).bind fun item =>
        ifChecked
          (andThen (andThen (some item.truthy) (truthyOf (getChecked item "rule")))
            (truthyOf (getChecked item "message")))
          ((leafRecordChecked item).map fun r =>
            setProp out (joinPath basePath (toString i)) r)
          (ifChecked
            (andThen (andThen (andThen (some item.truthy) (some item.isObjectType))
                (some (!item.isArray)))
                (notChecked (truthyOf (getChecked item "rule"))))
            (walk item (joinPath basePath (toString i)) out)
            (some out))) out

/-- Checked body of `walk`. -/
def walkStepChecked (walk : JSValue → String → Props → Option Props)
    (node : JSValue) (basePath : String) (out : Props) : Option Props :=
  ifChecked (some (!node.truthy)) (some out)
    (ifChecked (some node.isArray)
      (ifChecked ((lengthChecked node).map fun n => n == 0)
        (ifChecked (truthyOf (getChecked node "items"))
          ((getChecked node "items").bind fun items =>
            walkItemsChecked walk items basePath out)
          (some out))
        (ifChecked
          (andThen (andThen (truthyOf (indexChecked node 0))
              (truthyOf ((indexChecked node 0).bind fun e => getChecked e "rule")))
              (truthyOf ((indexChecked node 0).bind fun e => getChecked e "message")))
          ((indexChecked node 0).bind fun first =>
            (leafRecordChecked first).map fun r => setProp out basePath r)
          (ifChecked
            (andThen (andThen (andThen ((lengthChecked node).map fun n => n == 1)
                (truthyOf (indexChecked node 0)))
                ((indexChecked node 0).map JSValue.isObjectType))
                (notChecked (truthyOf ((indexChecked node 0).bind fun e =>
                  getChecked e "rule"))))
            ((indexChecked node 0).bind fun e => walk e basePath out)
            ((walkElementsChecked walk node basePath out).bind fun out1 =>
              ifChecked (truthyOf (getChecked node "items"))
                ((getChecked node "items").bind fun items =>
                  walkItemsChecked walk items basePath out1)
                (some out1)))))
      (ifChecked (some node.isObjectType)
        ((keysChecked node).bind fun ks =>
          ks.foldlM (fun out key =>
            (getChecked node key).bind fun value =>
              walk value (joinPath basePath key) out) out)
        (some out)))

/-- Checked closure `walk`, unfolded `fuel` levels deep. -/
def walkChecked : Nat → JSValue → String → Props → Option Props
  | 0 => fun _ _ _ => none
  | fuel + 1 => walkStepChecked (walkChecked fuel)

/-- Checked `flattenMoldErrorsToRHF`. -/
def flattenMoldErrorsToRHFChecked (moldErrors : JSValue) : Option JSValue :=
  ifChecked (some (!moldErrors.truthy)) (some (obj []))
    ((walkChecked (moldErrors.height + 1) moldErrors "" []).map obj)

/-- Checked `itemsObj` loop of `convert`; `node` is the array whose `items`
property is read at each step (`node.items[i]`). -/
def convertItemsChecked (convert : JSValue → Option JSValue) (node : JSValue) :
    Option Props :=
  (getChecked node "items").bind fun items =>
    (keysChecked items).bind fun ks =>
      ks.foldlM (fun itemsObj i =>
        (getChecked node "items").bind fun items1 =>
          (getChecked items1 i).bind fun child =>
            (convert child).map fun sub =>
              if sub.neNull then setProp itemsObj i sub else itemsObj) []

/-- Checked `node.filter((e) => e && e.message)`. -/
def filterMessagesChecked : List JSValue → Option (List JSValue)
  | [] => some []
  | e :: rest =>
      (andThen (some e.truthy) (truthyOf (getChecked e "message"))).bind fun keep =>
        (filterMessagesChecked rest).map fun tail => if keep then e :: tail else tail

/-- Checked body of `convert`. -/
def convertStepChecked (convert : JSValue → Option JSValue) (node : JSValue) :
    Option JSValue :=
  ifChecked (some (!node.truthy)) (some undefined)
    (ifChecked (some node.isArray)
      (ifChecked ((lengthChecked node).map fun n => n == 0)
        (ifChecked (truthyOf (getChecked node "items"))
          ((convertItemsChecked convert node).map fun itemsObj =>
            if itemsObj.length > 0 then obj itemsObj else undefined)
          (some undefined))
        (ifChecked
          (andThen (andThen (truthyOf (indexChecked node 0))
              (truthyOf ((indexChecked node 0).bind fun e => getChecked e "rule")))
              (truthyOf ((indexChecked node 0).bind fun e => getChecked e "message")))
          ((indexChecked node 0).bind fun e => getChecked e "message")
          (ifChecked
            (andThen (andThen (andThen ((lengthChecked node).map fun n => n == 1)
                (truthyOf (indexChecked node 0)))
                ((indexChecked node 0).map JSValue.isObjectType))
                (notChecked (truthyOf ((indexChecked node 0).bind fun e =>
                  getChecked e "rule"))))
            ((indexChecked node 0).bind fun e => convert e)
            ((filterMessagesChecked node.elems).bind fun kept =>
              (kept.mapM fun e => getChecked e "message").bind fun baseMessages =>
                let outArr :=
                  if baseMessages.length != 0 then baseMessages.getD 0 undefined
                  else undefined
                ifChecked (truthyOf (getChecked node "items"))
                  ((convertItemsChecked convert node).map fun itemsObj =>
                    if itemsObj.length > 0 then obj itemsObj else outArr)
                  (some outArr)))))
      (ifChecked (some node.isObjectType)
        ((keysChecked node).bind fun ks =>
          (ks.foldlM (fun out k =>
            (getChecked node k).bind fun child =>
              (convert child).map fun sub =>
                if sub.neNull then setProp out k sub else out) []).map obj)
        (some undefined)))

/-- Checked closure `convert`, unfolded `fuel` levels deep. -/
def convertChecked : Nat → JSValue → Option JSValue
  | 0 => fun _ => none
  | fuel + 1 => convertStepChecked (convertChecked fuel)

/-- Checked `transformMoldErrorsToFormik`. -/
def transformMoldErrorsToFormikChecked (moldErrors : JSValue) : Option JSValue :=
  ifChecked (some (!moldErrors.truthy)) (some (obj []))
    ((convertChecked (moldErrors.height + 1) moldErrors).map fun r =>
      if r.truthy then r else obj [])

/-! ## Key order of field maps -/

/-- The trees `t1` and `t2` differ only in the iteration order of the keys of one
field map: `t1` holds the field map `p1` where `t2` holds `p2`, a rearrangement
of the same properties, and they agree everywhere else. The field map sits at
the root, below a field of a field map, at or below an element of an array that
is not a leaf (no truthy `rule`), or in or below the `items` property of an
array. -/
inductive KeyReorder (p1 p2 : Props) : JSValue → JSValue → Prop where
  | atRoot (h : p1.Perm p2) : KeyReorder p1 p2 (obj p1) (obj p2)
  | atKey (pre post : Props) (k : String) (v1 v2 : JSValue) (h : KeyReorder p1 p2 v1 v2) :
      KeyReorder p1 p2 (obj (pre ++ (k, v1) :: post)) (obj (pre ++ (k, v2) :: post))
  | atElement (pre post : List JSValue) (items : Option JSValue) (v1 v2 : JSValue)
      (h : KeyReorder p1 p2 v1 v2) (hrule : (v1.get "rule").truthy = false) :
      KeyReorder p1 p2 (arr (pre ++ v1 :: post) items) (arr (pre ++ v2 :: post) items)
  | atItems (es : List JSValue) (v1 v2 : JSValue) (h : KeyReorder p1 p2 v1 v2) :
      KeyReorder p1 p2 (arr es (some v1)) (arr es (some v2))

/-- Two property lists denote the same mapping: every key reads the same in
both. -/
def sameMapping (o1 o2 : Props) : Prop :=
  ∀ key : String, o1.lookup key = o2.lookup key

/-- The calls `walk(a, basePath)` and `walk(b, basePath)` leave the same mapping
in the accumulator, from whatever path and accumulator contents they start. -/
def walkSame (a b : JSValue) : Prop :=
  ∀ (base : String) (o1 o2 : Props), sameMapping o1 o2 →
    sameMapping (walkNode a base o1) (walkNode b base o2)

/-- Body of the `items` loop of `walk` for one entry `arrErr = items[idx]` at
the path `path` (`utils.js` lines 24-40), named for the proofs; `walkItems` folds
it over the keys (`walkItems_eq_itemStep`). -/
def itemStep (walk : JSValue → String → Props → Props) (arrErr : JSValue) (path : String)
    (out : Props) : Props :=
  if arrErr.isArray && (arrErr.index 0).truthy && ((arrErr.index 0).get "rule").truthy then
    setProp out path (leafRecord (arrErr.index 0))
  else if arrErr.isArray && arrErr.length == 1 && (arrErr.index 0).truthy
      && (arrErr.index 0).isObjectType && !((arrErr.index 0).get "rule").truthy then
    walk (arrErr.index 0) path out
  else if arrErr.truthy && arrErr.isObjectType then
    walk arrErr path out
  else out

/-- Body of the element loop of `walk` for one element `item = node[i]` at the
path `path` (`utils.js` lines 65-78), named for the proofs; `walkElements` folds
it over the positions (`walkElements_eq_elemStep`). -/
def elemStep (walk : JSValue → String → Props → Props) (item : JSValue) (path : String)
    (out : Props) : Props :=
  if item.truthy && (item.get "rule").truthy && (item.get "message").truthy then
    setProp out path (leafRecord item)
  else if item.truthy && item.isObjectType && !item.isArray
      && !(item.get "rule").truthy then
    walk item path out
  else out

/-- The `items` loops over `a` and over `b` leave the same mapping in the
accumulator. -/
def itemsSame (a b : JSValue) : Prop :=
  ∀ (base : String) (o1 o2 : Props), sameMapping o1 o2 →
    sameMapping (walkItems walkNode a base o1) (walkItems walkNode b base o2)

/-! ## Binders

A binder receives a schema of the validation engine and returns a validator that
calls `schema.validate`.  The engine is a collaborator outside this repository:
its `validate` is an arbitrary function from the submitted data to the outcome of
the promise it returns.  An `async` function is modelled by the outcome of
awaiting it: the value its promise resolves with, or the value it rejects with. -/

/-- Values that a call can raise (`throw`, or reject its promise with). -/
inductive Thrown where
  | error (e : ErrorObject)
  | typeError
  | value (v : JSValue)

/-- Outcome of a call: the returned (resolved) value, or the raised value. -/
abbrev Outcome (α : Type) := Except Thrown α

/-- The `schema` argument of a binder as far as the binders look at it: a value
without a callable `validate` (`null`, `undefined`, an object with no `validate`
property or with one that is not a function: `JSValue` holds no functions), or
an object whose `validate` property is a function, given by its behaviour. -/
inductive Schema where
  | plain (v : JSValue)
  | withValidate (validate : JSValue → Outcome JSValue)

namespace Schema

/-- Truthiness of the schema argument (`!schema`). -/
def truthy : Schema → Bool
  | plain v => v.truthy
  | withValidate _ => true

/-- Test `typeof schema.validate === "function"`, evaluated on a truthy schema. -/
def validateIsFunction : Schema → Bool
  | plain _ => false
  | withValidate _ => true

/-- Awaited call `await schema.validate(x)`: a TypeError when `validate` is not
callable. -/
def callValidate : Schema → JSValue → Outcome JSValue
  | plain _, _ => Except.error Thrown.typeError
  | withValidate validate, x => validate x

end Schema

/-- Property read `v.k` as an outcome: a TypeError on `null`/`undefined`. -/
def readProp (v : JSValue) (k : String) : Outcome JSValue :=
  if v.neNull then Except.ok (v.get k) else Except.error Thrown.typeError

/-- Default parameter `p = {}`: the default replaces `undefined` only. -/
def orEmptyObject : JSValue → JSValue
  | JSValue.undefined => obj []
  | v => v

/-- Destructuring default `= false`: the default replaces `undefined` only. -/
def orFalse : JSValue → JSValue
  | JSValue.undefined => bool false
  | v => v

/-- Function `rhfBinder(schema)` (`rhf.js` lines 10-22): the schema guard, then
the resolver `async (data) => ...`. -/
def rhfBinder (schema : Schema) : Outcome (JSValue → Outcome JSValue) :=
  if !schema.truthy || !schema.validateIsFunction then
    Except.error (Thrown.error
      (newError "rhfBinder requires a mold schema with a validate method"))
  else
    Except.ok fun data => do
      let result ← schema.callValidate data
      let valid ← readProp result "valid"
      if valid.truthy then
        let value ← readProp result "value"
        pure (obj [("values", value), ("errors", obj [])])
      else
        let errors ← readProp result "errors"
        let flat := flattenMoldErrorsToRHF errors
        pure (obj [("values", obj []), ("errors", flat)])

/-- Function `formikBinder(schema, options = {})` (`formik.js` lines 11-30): the
destructuring `const { throwOnError = false } = options` (a TypeError on `null`),
the schema guard, then the validator `async (values) => ...`. -/
def formikBinder (schema : Schema) (options : JSValue) :
    Outcome (JSValue → Outcome JSValue) :=
  match readProp (orEmptyObject options) "throwOnError" with
  | Except.error e => Except.error e
  | Except.ok t =>
    let throwOnError := orFalse t
    if !schema.truthy || !schema.validateIsFunction then
      Except.error (Thrown.error
        (newError "formikBinder requires a mold schema with a validate method"))
    else
      Except.ok fun values => do
        let result ← schema.callValidate values
        let valid ← readProp result "valid"
        if valid.truthy then pure (obj [])
        else
          let resultErrors ← readProp result "errors"
          let errors := transformMoldErrorsToFormik resultErrors
          if throwOnError.truthy then throw (Thrown.error (ValidationError errors))
          else pure errors

/-- The loop `for (const k in flat) out[k] = flat[k].message` of `tanstack.js`
and `veevalidate.js`. -/
def messagesOf (flat : JSValue) : Outcome JSValue :=
  (flat.keys.foldlM (fun out k => do
    let message ← readProp (flat.get k) "message"
    pure (setProp out k message)) []).map obj

/-- Function `tanstackBinder(schema)` (`tanstack.js`). -/
def tanstackBinder (schema : Schema) : Outcome (JSValue → Outcome JSValue) :=
  if !schema.truthy || !schema.validateIsFunction then
    Except.error (Thrown.error
      (newError "tanstackBinder requires a mold schema with a validate method"))
  else
    Except.ok fun values => do
      let result ← schema.callValidate values
      let valid ← readProp result "valid"
      if valid.truthy then pure (obj [])
      else
        let errors ← readProp result "errors"
        let flat := flattenMoldErrorsToRHF errors
        messagesOf flat

/-- Function `veeBinder(schema)` (`veevalidate.js`). -/
def veeBinder (schema : Schema) : Outcome (JSValue → Outcome JSValue) :=
  if !schema.truthy || !schema.validateIsFunction then
    Except.error (Thrown.error
      (newError "veeBinder requires a mold schema with a validate method"))
  else
    Except.ok fun values => do
      let result ← schema.callValidate values
      let valid ← readProp result "valid"
      if valid.truthy then pure (obj [])
      else
        let errors ← readProp result "errors"
        let flat := flattenMoldErrorsToRHF errors
        messagesOf flat

/-- Function `felteBinder(schema)` (`felte.js`). -/
def felteBinder (schema : Schema) : Outcome (JSValue → Outcome JSValue) :=
  if !schema.truthy || !schema.validateIsFunction then
    Except.error (Thrown.error
      (newError "felteBinder requires a mold schema with a validate method"))
  else
    Except.ok fun values => do
      let result ← schema.callValidate values
      let valid ← readProp result "valid"
      if valid.truthy then pure (obj [])
      else
        let errors ← readProp result "errors"
        pure (transformMoldErrorsToFormik errors)

/-- Function `mantineBinder(schema)` (`mantine.js`). -/
def mantineBinder (schema : Schema) : Outcome (JSValue → Outcome JSValue) :=
  if !schema.truthy || !schema.validateIsFunction then
    Except.error (Thrown.error
      (newError "mantineBinder requires a mold schema with a validate method"))
  else
    Except.ok fun values => do
      let result ← schema.callValidate values
      let valid ← readProp result "valid"
      if valid.truthy then pure (obj [])
      else
        let errors ← readProp result "errors"
        pure (transformMoldErrorsToFormik errors)

/-- Contents of the reactive form state of the store-based binders and of
`useForm`. -/
structure FormState where
  values : JSValue
  errors : JSValue
  isSubmitting : Bool
  isValid : JSValue

/-- Function `solidBinder(schema, initialValues = {})` (`solid.js`), as far as
the call itself runs: the schema guard, then the store created with its initial
contents.  The methods of the returned object are closures that run later. -/
def solidBinder (schema : Schema) (initialValues : JSValue) : Outcome FormState :=
  if !schema.truthy || !schema.validateIsFunction then
    Except.error (Thrown.error
      (newError "solidBinder requires a mold schema with a validate method"))
  else
    Except.ok (FormState.mk (orEmptyObject initialValues) (obj []) false (bool true))

/-- Function `svelteBinder(schema, initialValues = {})` (`svelte5.js`), as far as
the call itself runs: the schema guard, then the four stores with their initial
contents.  The methods of the returned object are closures that run later. -/
def svelteBinder (schema : Schema) (initialValues : JSValue) : Outcome FormState :=
  if !schema.truthy || !schema.validateIsFunction then
    Except.error (Thrown.error
      (newError "svelteBinder requires a mold schema with a validate method"))
  else
    Except.ok (FormState.mk (orEmptyObject initialValues) (obj []) false (bool true))

/-- Function `useForm(schema, initialValues = {})` (`vue.js`), as far as the call
itself runs: the reactive state with `values: { ...initialValues }`.  There is no
schema guard; the watcher it registers runs only when `values` is changed. -/
def useForm (_schema : Schema) (initialValues : JSValue) : FormState :=
  FormState.mk (obj (orEmptyObject initialValues).ownProps) (obj []) false (bool true)

/-- Closure `validate` of `useForm` (`vue.js` lines 25-31), run on the state `s`:
the state afterwards and the outcome of the call.  A raise leaves the state as it
was at that point. -/
def useForm.validate (schema : Schema) (s : FormState) : FormState × Outcome JSValue :=
  match schema.callValidate s.values with
  | Except.error e => (s, Except.error e)
  | Except.ok result =>
    match readProp result "valid" with
    | Except.error e => (s, Except.error e)
    | Except.ok valid =>
      let errors :=
        if valid.truthy then obj []
        else if (result.get "errors").truthy then result.get "errors" else obj []
      let s1 := FormState.mk s.values errors s.isSubmitting s.isValid
      let s2 := FormState.mk s1.values s1.errors s1.isSubmitting (result.get "valid")
      (s2, Except.ok result)

/-- One run of a submit handler: the state afterwards, the arguments with which
the callback `fn` was invoked (in order), and the outcome of the handler. -/
structure SubmitRun where
  state : FormState
  calls : List JSValue
  outcome : Outcome Unit

/-- Handler `handleSubmit(fn)` of `useForm` (`vue.js` lines 33-41), run on the
state `s`.  The optional event is only asked to `preventDefault()`, which does not
touch the form state; the callback `fn` is given by the outcome of awaiting it
and does not write the form state itself. -/
def useForm.handleSubmit (schema : Schema) (fn : JSValue → Outcome JSValue)
    (s : FormState) : SubmitRun :=
  let s1 := FormState.mk s.values s.errors true s.isValid
  match useForm.validate schema s1 with
  | (s2, Except.error e) => SubmitRun.mk s2 [] (Except.error e)
  | (s2, Except.ok result) =>
    if (result.get "valid").truthy then
      match fn (result.get "value") with
      | Except.error e => SubmitRun.mk s2 [result.get "value"] (Except.error e)
      | Except.ok _ =>
        SubmitRun.mk (FormState.mk s2.values s2.errors false s2.isValid)
          [result.get "value"] (Except.ok ())
    else
      SubmitRun.mk (FormState.mk s2.values s2.errors false s2.isValid) [] (Except.ok ())

/-- Closure `validate` of `svelteBinder` (`svelte5.js` lines 22-34), run on the
stores `s` with the values `currentValues`: the stores afterwards and the outcome
of the call. -/
def svelteBinder.validate (schema : Schema) (currentValues : JSValue) (s : FormState) :
    FormState × Outcome JSValue :=
  match schema.callValidate currentValues with
  | Except.error e => (s, Except.error e)
  | Except.ok result =>
    match readProp result "valid" with
    | Except.error e => (s, Except.error e)
    | Except.ok valid =>
      if valid.truthy then
        (FormState.mk s.values (obj []) s.isSubmitting (bool true),
          Except.ok (obj [("valid", bool true), ("values", result.get "value")]))
      else
        let flatErrors := flattenMoldErrorsToRHF (result.get "errors")
        (FormState.mk s.values flatErrors s.isSubmitting (bool false),
          Except.ok (obj [("valid", bool false), ("errors", flatErrors)]))

/-- Handler `handleSubmit(onSubmit)` of `svelteBinder` (`svelte5.js` lines 40-53),
run on the stores `s`: the body runs inside `try`, and the `finally` clause sets
`isSubmitting` to `false` on every way out. -/
def svelteBinder.handleSubmit (schema : Schema) (onSubmit : JSValue → Outcome JSValue)
    (s : FormState) : SubmitRun :=
  let s1 := FormState.mk s.values s.errors true s.isValid
  let currentValues := s1.values
  match svelteBinder.validate schema currentValues s1 with
  | (s2, Except.error e) =>
    SubmitRun.mk (FormState.mk s2.values s2.errors false s2.isValid) [] (Except.error e)
  | (s2, Except.ok result) =>
    if (result.get "valid").truthy then
      match onSubmit (result.get "values") with
      | Except.error e =>
        SubmitRun.mk (FormState.mk s2.values s2.errors false s2.isValid)
          [result.get "values"] (Except.error e)
      | Except.ok _ =>
        SubmitRun.mk (FormState.mk s2.values s2.errors false s2.isValid)
          [result.get "values"] (Except.ok ())
    else
      SubmitRun.mk (FormState.mk s2.values s2.errors false s2.isValid) [] (Except.ok ())

/-! ## Notions used by the relational claims

The definitions below follow the words of the specification, to be compared with
the functions embedded from the source. -/

/-- No object anywhere in the value holds the empty string as a key (field names
and `items` indices alike). -/
def noEmptyKeys (v : JSValue) : Bool :=
  everywhere (fun w => match w with
    | obj props => props.all fun q => q.1 != ""
    | _ => true) v

/-- A key `q` of a flat map moved below the field `k`: `k + "." + q`, and `k`
itself for the root key `""`. -/
def prefixKey (k q : String) : String :=
  if q = "" then k else k ++ "." ++ q

/-- The value is a string. -/
def isString : JSValue → Bool
  | str _ => true
  | _ => false

/-- The `'.'`-separated segments of a path; the empty path has none. -/
def pathSegments (p : String) : List String :=
  if p = "" then [] else (p.data.splitOn '.').map String.mk

/-- Following a list of segments through nested mappings: each segment selects a
property of a plain object; `none` when a segment is missing or the value reached
on the way is not a mapping. -/
def followPath : List String → JSValue → Option JSValue
  | [], v => some v
  | k :: ks, obj props => (props.lookup k).bind fun child => followPath ks child
  | _ :: _, _ => none

/-! ## Elementary facts about the value model -/

@[simp] theorem truthy_undefined : JSValue.undefined.truthy = false := rfl
@[simp] theorem truthy_null : JSValue.null.truthy = false := rfl
@[simp] theorem truthy_obj (props : Props) : (obj props).truthy = true := rfl
@[simp] theorem truthy_arr (es : List JSValue) (items : Option JSValue) :
    (arr es items).truthy = true := rfl
@[simp] theorem isArray_obj (props : Props) : (obj props).isArray = false := rfl
@[simp] theorem isArray_arr (es : List JSValue) (items : Option JSValue) :
    (arr es items).isArray = true := rfl
@[simp] theorem isObjectType_obj (props : Props) : (obj props).isObjectType = true := rfl
@[simp] theorem isObjectType_arr (es : List JSValue) (items : Option JSValue) :
    (arr es items).isObjectType = true := rfl
@[simp] theorem neNull_undefined : JSValue.undefined.neNull = false := rfl
@[simp] theorem neNull_obj (props : Props) : (obj props).neNull = true := rfl
@[simp] theorem length_arr (es : List JSValue) (items : Option JSValue) :
    (arr es items).length = es.length := rfl
@[simp] theorem elems_arr (es : List JSValue) (items : Option JSValue) :
    (arr es items).elems = es := rfl
@[simp] theorem keys_obj (props : Props) : (obj props).keys = props.map Prod.fst := rfl
@[simp] theorem index_arr_zero (e : JSValue) (es : List JSValue) (items : Option JSValue) :
    (arr (e :: es) items).index 0 = e := rfl
@[simp] theorem get_arr_items (es : List JSValue) (items : Option JSValue) :
    (arr es items).get "items" = items.getD JSValue.undefined := by
  simp [JSValue.get]

theorem get_obj (props : Props) (k : String) :
    (obj props).get k = (props.lookup k).getD JSValue.undefined := rfl

@[simp] theorem get_obj_cons_self (k : String) (v : JSValue) (rest : Props) :
    (obj ((k, v) :: rest)).get k = v := by
  simp [get_obj, List.lookup]

theorem get_obj_cons_ne (k k' : String) (v : JSValue) (rest : Props) (h : k ≠ k') :
    (obj ((k', v) :: rest)).get k = (obj rest).get k := by
  have : (k == k') = false := by simpa using h
  simp [get_obj, List.lookup, this]

/-- A truthy value is neither `null` nor `undefined`. -/
theorem neNull_of_truthy {v : JSValue} (h : v.truthy = true) : v.neNull = true := by
  cases v <;> simp_all [JSValue.truthy, JSValue.neNull]

@[simp] theorem joinPath_empty (key : String) : joinPath "" key = key := by
  simp [joinPath]

theorem joinPath_of_ne {base : String} (h : base ≠ "") (key : String) :
    joinPath base key = base ++ "." ++ key := by
  simp [joinPath, h]

@[simp] theorem walk_succ (fuel : Nat) : walk (fuel + 1) = walkStep (walk fuel) := rfl
@[simp] theorem convert_succ (fuel : Nat) : convert (fuel + 1) = convertStep (convert fuel) := rfl

/-! ## The branches of `walk` and `convert` -/

/-- Field-map branch of `walk`: one recursive call per key. -/
theorem walkStep_obj (w : JSValue → String → Props → Props) (props : Props)
    (base : String) (out : Props) :
    walkStep w (obj props) base out
      = (props.map Prod.fst).foldl
          (fun out key => w ((obj props).get key) (joinPath base key) out) out := by
  simp [walkStep]

/-- Leaf-group branch of `walk`: the first element decides, nothing else is read. -/
theorem walkStep_leafGroup (w : JSValue → String → Props → Props) (e : JSValue)
    (es : List JSValue) (items : Option JSValue) (base : String) (out : Props)
    (he : e.truthy = true) (hr : (e.get "rule").truthy = true)
    (hm : (e.get "message").truthy = true) :
    walkStep w (arr (e :: es) items) base out = setProp out base (leafRecord e) := by
  simp [walkStep, he, hr, hm]

/-- Empty-array branch of `walk`. -/
theorem walkStep_arr_nil (w : JSValue → String → Props → Props)
    (items : Option JSValue) (base : String) (out : Props) :
    walkStep w (arr [] items) base out
      = if (items.getD JSValue.undefined).truthy
          then walkItems w (items.getD JSValue.undefined) base out else out := by
  simp [walkStep]

/-- Field-map branch of `convert`. -/
theorem convertStep_obj (c : JSValue → JSValue) (props : Props) :
    convertStep c (obj props)
      = obj ((props.map Prod.fst).foldl (fun out k =>
          if (c ((obj props).get k)).neNull then setProp out k (c ((obj props).get k))
          else out) []) := by
  simp [convertStep]

/-- Leaf-group branch of `convert`. -/
theorem convertStep_leafGroup (c : JSValue → JSValue) (e : JSValue)
    (es : List JSValue) (items : Option JSValue)
    (he : e.truthy = true) (hr : (e.get "rule").truthy = true)
    (hm : (e.get "message").truthy = true) :
    convertStep c (arr (e :: es) items) = e.get "message" := by
  simp [convertStep, he, hr, hm]

/-- Empty-array branch of `convert`. -/
theorem convertStep_arr_nil (c : JSValue → JSValue) (items : Option JSValue) :
    convertStep c (arr [] items)
      = if (items.getD JSValue.undefined).truthy then
          (if (convertItems c (items.getD JSValue.undefined)).length > 0
            then obj (convertItems c (items.getD JSValue.undefined)) else JSValue.undefined)
        else JSValue.undefined := by
  simp [convertStep]


/-! ## The repository's tests, replayed on the model (`test/utils.test.js`) -/

/-- Test "ignores non-error objects in arrays": a hybrid array keys its direct
leaf by position. -/
theorem test_flatten_hybrid_array :
    flattenMoldErrorsToRHF (obj [("data", arr [obj [("someData", str "value")],
        obj [("rule", str "validateRequired"), ("message", str "Required")]] none)])
      = obj [("data.1", obj [("type", str "validateRequired"),
          ("message", str "Required")])] := by
  rfl

/-- Test "covers array loop with non-error objects in walk function". -/
theorem test_flatten_nested_in_array :
    flattenMoldErrorsToRHF (obj [("list", arr [obj [("someProp", str "value")],
        obj [("anotherProp", obj [("nested",
          arr [obj [("rule", str "validateMin"), ("message", str "Too small")]] none)])]]
        none)])
      = obj [("list.1.anotherProp.nested", obj [("type", str "validateMin"),
          ("message", str "Too small")])] := by
  rfl

/-- Test "handles ObjectSchema wrapper in arrays", flatten. -/
theorem test_flatten_object_wrapper :
    flattenMoldErrorsToRHF (obj [("users", obj [("items", obj [("0",
        arr [obj [("name", arr [obj [("rule", str "validateLengthMin"),
          ("message", str "Name required")]] none)]] none)])])])
      = obj [("users.items.0.name", obj [("type", str "validateLengthMin"),
          ("message", str "Name required")])] := by
  rfl

/-- Test "handles ObjectSchema wrapper in arrays", mirror. -/
theorem test_mirror_object_wrapper :
    transformMoldErrorsToFormik (obj [("users", obj [("items", obj [("0",
        arr [obj [("name", arr [obj [("rule", str "validateLengthMin"),
          ("message", str "Name required")]] none)]] none)])])])
      = obj [("users", obj [("items", obj [("0",
          obj [("name", str "Name required")])])])] := by
  rfl

/-- Test "handles empty array with items property in flattenMoldErrorsToRHF":
a plain object with own keys `length` and `items`. -/
theorem test_flatten_arraylike_object :
    flattenMoldErrorsToRHF (obj [("tags", obj [("length", num 0), ("items", obj [])])])
      = obj [] := by
  rfl

/-- Test "covers array with base messages and items in convert function". -/
theorem test_mirror_mixed_array :
    transformMoldErrorsToFormik (obj [("field",
        arr [obj [("rule", str "rule1"), ("message", str "Message 1")],
          obj [("rule", str "rule2"), ("message", str "Message 2")],
          obj [("items", obj [("0", arr [obj [("rule", str "itemRule"),
            ("message", str "Item error")]] none)])]] none)])
      = obj [("field", str "Message 1")] := by
  rfl

/-! ## Heights of the values reached by property reads -/

theorem height_lookup_le (props : Props) (k : String) (v : JSValue)
    (h : props.lookup k = some v) : v.height ≤ heightProps props := by
  induction props with
  | nil => simp [List.lookup] at h
  | cons p rest ih =>
    obtain ⟨k', v'⟩ := p
    simp only [List.lookup] at h
    simp only [heightProps]
    split at h
    · simp only [Option.some.injEq] at h
      subst h
      exact le_max_left _ _
    · exact le_trans (ih h) (le_max_right _ _)

theorem heightProps_indexed (i : Nat) (es : List JSValue) :
    heightProps (indexed i es) = heightElems es := by
  induction es generalizing i with
  | nil => rfl
  | cons e es ih => simp [indexed, heightProps, heightElems, ih]

theorem height_lookup_getD_le (props : Props) (k : String) :
    ((props.lookup k).getD JSValue.undefined).height ≤ heightProps props := by
  cases hl : props.lookup k with
  | none => simp [height]
  | some v => simpa using height_lookup_le props k v hl

theorem height_getD_le (es : List JSValue) (i : Nat) :
    (es.getD i JSValue.undefined).height ≤ heightElems es := by
  induction es generalizing i with
  | nil => simp [height]
  | cons e es ih =>
    cases i with
    | zero => simp [heightElems]
    | succ i =>
      simp only [List.getD_cons_succ, heightElems]
      exact le_trans (ih i) (le_max_right _ _)

/-- Reading a property of an object or array yields a strictly shallower value. -/
theorem height_get_lt (v : JSValue) (k : String) (h : 0 < v.height) :
    (v.get k).height < v.height := by
  cases v with
  | obj props =>
    simp only [height, get_obj]
    exact Nat.lt_succ_of_le (height_lookup_getD_le props k)
  | arr es items =>
    simp only [height, JSValue.get]
    split_ifs
    · cases items with
      | none => simp [height]
      | some v => simp [heightItems]; omega
    · simp [height]
    · have := height_lookup_getD_le (indexed 0 es) k
      rw [heightProps_indexed] at this
      omega
  | _ => simp [height] at h

/-- Reading a property never yields a deeper value. -/
theorem height_get_le (v : JSValue) (k : String) : (v.get k).height ≤ v.height := by
  by_cases h : 0 < v.height
  · exact le_of_lt (height_get_lt v k h)
  · have h0 : v.height = 0 := by omega
    cases v with
    | obj props => simp [height] at h0
    | arr es items => simp [height] at h0
    | str s =>
      simp only [JSValue.get]
      split_ifs
      · simp [height]
      · cases hl : (indexed 0 (s.toList.map fun c => str (String.singleton c))).lookup k with
        | none => simp [height]
        | some x =>
          have := height_lookup_le _ k x hl
          rw [heightProps_indexed] at this
          have hz : heightElems (s.toList.map fun c => str (String.singleton c)) = 0 := by
            generalize s.toList = cs
            induction cs with
            | nil => rfl
            | cons c cs ih => simp [heightElems, height, ih]
          simp only [Option.getD_some]
          omega
    | _ => simp [JSValue.get, height]

theorem height_index_lt (v : JSValue) (i : Nat) (h : 0 < v.height) :
    (v.index i).height < v.height := by
  cases v with
  | arr es items =>
    simp only [JSValue.index, height]
    have := height_getD_le es i
    omega
  | obj props => exact height_get_lt _ _ h
  | _ => simp [height] at h

theorem height_pos_of_isArray {v : JSValue} (h : v.isArray = true) : 0 < v.height := by
  cases v <;> simp_all [JSValue.isArray, height]

theorem height_pos_of_object {v : JSValue} (ht : v.truthy = true)
    (ho : v.isObjectType = true) : 0 < v.height := by
  cases v <;> simp_all [JSValue.isObjectType, JSValue.truthy, height]


/-! ## Fuel: the recursion only visits strictly shallower values -/

theorem walkItems_congr (w1 w2 : JSValue → String → Props → Props) (items : JSValue)
    (base : String) (out : Props)
    (h : ∀ c b o, c.height < items.height → w1 c b o = w2 c b o) :
    walkItems w1 items base out = walkItems w2 items base out := by
  unfold walkItems
  congr 1
  funext o idx
  simp only
  split_ifs with c1 c2 c3
  · rfl
  · simp only [Bool.and_eq_true] at c2
    have hpos := height_pos_of_isArray c2.1.1.1.1
    exact h _ _ _ (lt_of_lt_of_le (height_index_lt _ 0 hpos) (height_get_le items idx))
  · simp only [Bool.and_eq_true] at c3
    have hpos := height_pos_of_object c3.1 c3.2
    have hi : 0 < items.height := lt_of_lt_of_le hpos (height_get_le items idx)
    exact h _ _ _ (height_get_lt items idx hi)
  · rfl

theorem walkElements_congr (w1 w2 : JSValue → String → Props → Props) (node : JSValue)
    (base : String) (out : Props) (hn : 0 < node.height)
    (h : ∀ c b o, c.height < node.height → w1 c b o = w2 c b o) :
    walkElements w1 node base out = walkElements w2 node base out := by
  unfold walkElements
  congr 1
  funext o i
  simp only
  split_ifs
  · rfl
  · exact h _ _ _ (height_index_lt _ i hn)
  · rfl

theorem walkStep_congr (w1 w2 : JSValue → String → Props → Props) (node : JSValue)
    (base : String) (out : Props)
    (h : ∀ c b o, c.height < node.height → w1 c b o = w2 c b o) :
    walkStep w1 node base out = walkStep w2 node base out := by
  unfold walkStep
  split_ifs with c0 c1 c2 c3 c4 c5 c6 c7
  · rfl
  · exact walkItems_congr _ _ _ _ _ fun c b o hc =>
      h c b o (lt_trans hc (height_get_lt _ _ (height_pos_of_isArray c1)))
  · rfl
  · rfl
  · exact h _ _ _ (height_index_lt _ 0 (height_pos_of_isArray c1))
  · simp only
    rw [walkElements_congr w1 w2 node base out (height_pos_of_isArray c1) h]
    exact walkItems_congr _ _ _ _ _ fun c b o hc =>
      h c b o (lt_trans hc (height_get_lt _ _ (height_pos_of_isArray c1)))
  · exact walkElements_congr w1 w2 node base out (height_pos_of_isArray c1) h
  · congr 1
    funext o key
    have ht : node.truthy = true := by simpa using c0
    exact h _ _ _ (height_get_lt _ _ (height_pos_of_object ht c7))
  · rfl

/-- One more unit of fuel changes nothing once the fuel exceeds the height. -/
theorem walk_fuel_succ (fuel : Nat) :
    ∀ (node : JSValue) (base : String) (out : Props), node.height < fuel →
      walk (fuel + 1) node base out = walk fuel node base out := by
  induction fuel with
  | zero => intro node base out h; omega
  | succ n ih =>
    intro node base out h
    rw [walk_succ (n + 1), walk_succ n]
    exact walkStep_congr _ _ _ _ _ fun c b o hc => ih c b o (by omega)

/-- The closure `walk` returns: any fuel above the height of the node gives the
same result. -/
theorem walk_fuel_stable (fuel : Nat) (node : JSValue) (base : String) (out : Props)
    (h : node.height < fuel) :
    walk fuel node base out = walkNode node base out := by
  unfold walkNode
  induction fuel with
  | zero => omega
  | succ n ih =>
    by_cases hn : node.height < n
    · rw [walk_fuel_succ n node base out hn, ih hn]
    · have : n = node.height := by omega
      rw [this]

theorem convertItems_congr (c1 c2 : JSValue → JSValue) (items : JSValue)
    (h : ∀ c, c.height ≤ items.height → c1 c = c2 c) :
    convertItems c1 items = convertItems c2 items := by
  unfold convertItems
  congr 1
  funext o i
  simp only [h _ (height_get_le items i)]

theorem convertStep_congr (c1 c2 : JSValue → JSValue) (node : JSValue)
    (h : ∀ c, c.height < node.height → c1 c = c2 c) :
    convertStep c1 node = convertStep c2 node := by
  unfold convertStep
  by_cases ca : node.isArray = true
  · have hitems : convertItems c1 (node.get "items") = convertItems c2 (node.get "items") :=
      convertItems_congr _ _ _ fun c hc =>
        h c (lt_of_le_of_lt hc (height_get_lt _ _ (height_pos_of_isArray ca)))
    have hidx : c1 (node.index 0) = c2 (node.index 0) :=
      h _ (height_index_lt _ 0 (height_pos_of_isArray ca))
    simp only [ca, if_true, hitems, hidx]
  · by_cases ht : node.truthy = true
    · by_cases ho : node.isObjectType = true
      · have hfun : (fun (out : Props) (k : String) =>
            let sub := c1 (node.get k)
            if sub.neNull = true then setProp out k sub else out)
            = (fun (out : Props) (k : String) =>
            let sub := c2 (node.get k)
            if sub.neNull = true then setProp out k sub else out) := by
          funext o k
          simp only [h _ (height_get_lt node k (height_pos_of_object ht ho))]
        simp only [ca, Bool.false_eq_true, if_false, hfun]
      · simp only [ca, ho, Bool.false_eq_true, if_false]
    · simp [ht]

/-- One more unit of fuel changes nothing once the fuel exceeds the height. -/
theorem convert_fuel_succ (fuel : Nat) :
    ∀ (node : JSValue), node.height < fuel →
      convert (fuel + 1) node = convert fuel node := by
  induction fuel with
  | zero => intro node h; omega
  | succ n ih =>
    intro node h
    rw [convert_succ (n + 1), convert_succ n]
    exact convertStep_congr _ _ _ fun c hc => ih c (by omega)

/-- The closure `convert` returns: any fuel above the height of the node gives
the value `mirror node`. -/
theorem convert_fuel_stable (fuel : Nat) (node : JSValue) (h : node.height < fuel) :
    convert fuel node = mirror node := by
  unfold mirror
  induction fuel with
  | zero => omega
  | succ n ih =>
    by_cases hn : node.height < n
    · rw [convert_fuel_succ n node hn, ih hn]
    · have : n = node.height := by omega
      rw [this]


/-- The recursive equation of the closure `walk`: a call runs the body, whose
recursive calls are again calls of `walk`. -/
theorem walkNode_eq (node : JSValue) (base : String) (out : Props) :
    walkNode node base out = walkStep walkNode node base out := by
  show walk (node.height + 1) node base out = _
  rw [walk_succ]
  exact walkStep_congr _ _ _ _ _ fun c b o hc => walk_fuel_stable _ c b o hc

/-- The recursive equation of the closure `convert`. -/
theorem mirror_eq (node : JSValue) : mirror node = convertStep mirror node := by
  show convert (node.height + 1) node = _
  rw [convert_succ]
  exact convertStep_congr _ _ _ fun c hc => convert_fuel_stable _ c hc

/-- On a truthy argument `flattenMoldErrorsToRHF` returns the accumulator filled
by `walk(moldErrors, "")`. -/
theorem flatten_of_truthy (t : JSValue) (h : t.truthy = true) :
    flattenMoldErrorsToRHF t = obj (walkNode t "" []) := by
  simp [flattenMoldErrorsToRHF, h]

/-- On a truthy argument `transformMoldErrorsToFormik` returns
`convert(moldErrors) || {}`. -/
theorem transform_of_truthy (t : JSValue) (h : t.truthy = true) :
    transformMoldErrorsToFormik t
      = if (mirror t).truthy = true then mirror t else obj [] := by
  simp [transformMoldErrorsToFormik, h]

/-! ## Strings and paths -/

theorem string_ne_empty_iff (s : String) : s ≠ "" ↔ s.length ≠ 0 := by
  constructor
  · intro h hl
    apply h
    apply String.ext
    have hd : s.data.length = 0 := hl
    exact List.length_eq_zero.mp hd
  · intro h hs
    subst hs
    exact h rfl

theorem append_ne_empty_left {s : String} (h : s ≠ "") (t : String) : s ++ t ≠ "" := by
  rw [string_ne_empty_iff] at *
  simp only [String.length_append]
  omega

theorem joinPath_ne_empty {base : String} (h : base ≠ "") (key : String) :
    joinPath base key ≠ "" := by
  rw [joinPath_of_ne h]
  exact append_ne_empty_left (append_ne_empty_left h _) _

theorem string_append_right_cancel (s a b : String) (h : s ++ a = s ++ b) : a = b := by
  apply String.ext
  have := congrArg String.data h
  simpa using this

theorem foldl_joinPath_eq_go (ks : List String) :
    ∀ (base : String), base ≠ "" →
      ks.foldl joinPath base = String.intercalate.go base "." ks := by
  induction ks with
  | nil => intro base _; rfl
  | cons k ks ih =>
    intro base hb
    simp only [List.foldl_cons, String.intercalate.go]
    rw [ih _ (joinPath_ne_empty hb k), joinPath_of_ne hb]

/-- Folding `joinPath` over non-empty names from the root yields the names
joined with `"."`. -/
theorem foldl_joinPath_eq_intercalate (ks : List String) (h : ∀ k ∈ ks, k ≠ "") :
    ks.foldl joinPath "" = String.intercalate "." ks := by
  cases ks with
  | nil => rfl
  | cons k ks =>
    simp only [List.foldl_cons, joinPath_empty, String.intercalate]
    exact foldl_joinPath_eq_go ks k (h k (List.mem_cons_self _ _))

/-! ## Claims C1, C2, C5: first error wins, absent input -/

/-- Claim C1. For every field name `f` and every array whose first element is an
object with truthy `rule` and truthy `message`, `flattenMoldErrorsToRHF({f: a})`
is exactly `{f: {type: a[0].rule, message: a[0].message}}`, whatever the later
elements `rest` and whatever `items` property the array carries. -/
theorem flatten_first_error_wins (f : String) (p : Props) (rest : List JSValue)
    (items : Option JSValue)
    (hr : ((obj p).get "rule").truthy = true)
    (hm : ((obj p).get "message").truthy = true) :
    flattenMoldErrorsToRHF (obj [(f, arr (obj p :: rest) items)])
      = obj [(f, obj [("type", (obj p).get "rule"), ("message", (obj p).get "message")])] := by
  simp [flattenMoldErrorsToRHF, walkNode, height, walkStep_obj, walkStep_leafGroup, hr, hm, setProp,
    leafRecord]

theorem flatten_first_error_wins_witness :
    ((obj [("rule", str "validateLengthMax"), ("message", str "Too many tags")]).get
        "rule").truthy = true
    ∧ ((obj [("rule", str "validateLengthMax"), ("message", str "Too many tags")]).get
        "message").truthy = true
    ∧ flattenMoldErrorsToRHF (obj [("tags",
        arr [obj [("rule", str "validateLengthMax"), ("message", str "Too many tags")],
             obj [("rule", str "validateLengthMax"), ("message", str "Another error")]]
          (some (obj [("1", arr [obj [("rule", str "isEmpty"),
            ("message", str "Tag cannot be empty")]] none)])))])
      = obj [("tags", obj [("type", str "validateLengthMax"),
          ("message", str "Too many tags")])] :=
  ⟨by decide, by decide,
    flatten_first_error_wins "tags"
      [("rule", str "validateLengthMax"), ("message", str "Too many tags")]
      [obj [("rule", str "validateLengthMax"), ("message", str "Another error")]]
      (some (obj [("1", arr [obj [("rule", str "isEmpty"),
        ("message", str "Tag cannot be empty")]] none)]))
      (by decide) (by decide)⟩

/-- Claim C2. For every field name `f` and every array whose first element is an
object with truthy `rule` and truthy `message`, `transformMoldErrorsToFormik({f: a})`
is exactly `{f: a[0].message}`, whatever the later elements are. -/
theorem mirror_first_error_wins (f : String) (p : Props) (rest : List JSValue)
    (items : Option JSValue)
    (hr : ((obj p).get "rule").truthy = true)
    (hm : ((obj p).get "message").truthy = true) :
    transformMoldErrorsToFormik (obj [(f, arr (obj p :: rest) items)])
      = obj [(f, (obj p).get "message")] := by
  simp [transformMoldErrorsToFormik, mirror, height, convertStep_obj, convertStep_leafGroup,
    hr, hm, setProp, neNull_of_truthy hm]

theorem mirror_first_error_wins_witness :
    ((obj [("rule", str "validateLengthMin"), ("message", str "Too short")]).get
        "rule").truthy = true
    ∧ ((obj [("rule", str "validateLengthMin"), ("message", str "Too short")]).get
        "message").truthy = true
    ∧ transformMoldErrorsToFormik (obj [("field",
        arr [obj [("rule", str "validateLengthMin"), ("message", str "Too short")],
             obj [("rule", str "validatePattern"), ("message", str "Invalid pattern")]]
          none)])
      = obj [("field", str "Too short")] :=
  ⟨by decide, by decide,
    mirror_first_error_wins "field"
      [("rule", str "validateLengthMin"), ("message", str "Too short")]
      [obj [("rule", str "validatePattern"), ("message", str "Invalid pattern")]]
      none (by decide) (by decide)⟩

/-- Claim C5. Both transforms return the empty object `{}` for `null` and for
`undefined`. -/
theorem absent_errors_give_empty :
    flattenMoldErrorsToRHF JSValue.null = obj []
    ∧ flattenMoldErrorsToRHF JSValue.undefined = obj []
    ∧ transformMoldErrorsToFormik JSValue.null = obj []
    ∧ transformMoldErrorsToFormik JSValue.undefined = obj [] :=
  ⟨rfl, rfl, rfl, rfl⟩


/-! ## Claim C3: dot paths -/

theorem length_lt_height_nestFields (ks : List String) (g : JSValue) (hg : 0 < g.height) :
    ks.length < (nestFields ks g).height := by
  induction ks with
  | nil => simpa [nestFields] using hg
  | cons k ks ih => simp [nestFields, height, heightProps]; omega

/-- Walking nested single-field maps descends to the leaf group and records it
under the accumulated path. -/
theorem walk_nestFields (e : JSValue) (es : List JSValue) (items : Option JSValue)
    (he : e.truthy = true) (hr : (e.get "rule").truthy = true)
    (hm : (e.get "message").truthy = true) (ks : List String) :
    ∀ (fuel : Nat) (base : String) (out : Props), ks.length < fuel →
      walk fuel (nestFields ks (arr (e :: es) items)) base out
        = setProp out (ks.foldl joinPath base) (leafRecord e) := by
  induction ks with
  | nil =>
    intro fuel base out hf
    obtain ⟨n, rfl⟩ : ∃ n, fuel = n + 1 := ⟨fuel - 1, by simp at hf; omega⟩
    simp [nestFields, walkStep_leafGroup, he, hr, hm]
  | cons k ks ih =>
    intro fuel base out hf
    obtain ⟨n, rfl⟩ : ∃ n, fuel = n + 1 := ⟨fuel - 1, by simp at hf; omega⟩
    have hn : ks.length < n := by simpa using hf
    simp [nestFields, walkStep_obj, ih n (joinPath base k) out hn]

/-- Claim C3. For every list of non-empty field names `k1..kn` and every leaf
group `G` (an array whose first element has truthy `rule` and `message`),
`flattenMoldErrorsToRHF({k1: {k2: ... {kn: G}}})` has exactly one entry: its key is
the names joined with `"."` and its value is `{type: G[0].rule, message:
G[0].message}`. -/
theorem flatten_dot_path (ks : List String) (p : Props) (rest : List JSValue)
    (items : Option JSValue)
    (hne : ks ≠ [])
    (hks : ∀ k ∈ ks, k ≠ "")
    (hr : ((obj p).get "rule").truthy = true)
    (hm : ((obj p).get "message").truthy = true) :
    flattenMoldErrorsToRHF (nestFields ks (arr (obj p :: rest) items))
      = obj [(String.intercalate "." ks,
          obj [("type", (obj p).get "rule"), ("message", (obj p).get "message")])] := by
  have ht : (nestFields ks (arr (obj p :: rest) items)).truthy = true := by
    cases ks with
    | nil => exact absurd rfl hne
    | cons k ks => rfl
  have hfuel := length_lt_height_nestFields ks (arr (obj p :: rest) items) (by simp [height])
  simp only [flattenMoldErrorsToRHF, walkNode, ht, Bool.not_true, Bool.false_eq_true, if_false]
  rw [walk_nestFields (obj p) rest items rfl hr hm ks _ "" [] (by omega),
    foldl_joinPath_eq_intercalate ks hks]
  rfl

theorem flatten_dot_path_witness :
    ["user", "profile", "email"] ≠ []
    ∧ (∀ k ∈ ["user", "profile", "email"], k ≠ "")
    ∧ flattenMoldErrorsToRHF (obj [("user", obj [("profile", obj [("email",
        arr [obj [("rule", str "validateEmailFormat"), ("message", str "Invalid email")]]
          none)])])])
      = obj [("user.profile.email", obj [("type", str "validateEmailFormat"),
          ("message", str "Invalid email")])] :=
  ⟨by decide, by decide,
    flatten_dot_path ["user", "profile", "email"]
      [("rule", str "validateEmailFormat"), ("message", str "Invalid email")] [] none
      (by decide) (by decide) (by decide) (by decide)⟩


/-! ## Objects as key lists: reads, folds and assignments -/

/-- In an object without repeated keys, reading the key of an entry gives the
value of that entry. -/
theorem get_obj_of_mem (props : Props) (hnd : (props.map Prod.fst).Nodup)
    (k : String) (v : JSValue) (hm : (k, v) ∈ props) : (obj props).get k = v := by
  induction props with
  | nil => simp at hm
  | cons q rest ih =>
    obtain ⟨k', v'⟩ := q
    simp only [List.map_cons, List.nodup_cons] at hnd
    rcases List.mem_cons.mp hm with heq | hrest
    · simp only [Prod.mk.injEq] at heq
      obtain ⟨rfl, rfl⟩ := heq
      exact get_obj_cons_self _ _ _
    · have hk : k ≠ k' := by
        intro hkk
        subst hkk
        exact hnd.1 (List.mem_map.mpr ⟨(k, v), hrest, rfl⟩)
      rw [get_obj_cons_ne k k' v' rest hk]
      exact ih hnd.2 hrest

/-- A loop over `Object.keys(o)` that reads `o[key]` is a loop over the entries
of `o`. -/
theorem foldl_keys_eq_foldl_entries {β : Type} (props : Props)
    (hnd : (props.map Prod.fst).Nodup) (g : β → String → JSValue → β) (init : β) :
    (props.map Prod.fst).foldl (fun acc k => g acc k ((obj props).get k)) init
      = props.foldl (fun acc q => g acc q.1 q.2) init := by
  rw [List.foldl_map]
  apply List.foldl_ext
  intro a q hq
  rw [get_obj_of_mem props hnd q.1 q.2 hq]

/-- Assigning a key that is not yet present adds it last. -/
theorem setProp_of_not_mem (out : Props) (k : String) (v : JSValue)
    (h : k ∉ out.map Prod.fst) : setProp out k v = out ++ [(k, v)] := by
  induction out with
  | nil => rfl
  | cons q rest ih =>
    obtain ⟨k', v'⟩ := q
    simp only [List.map_cons, List.mem_cons, not_or] at h
    have hne : ¬ k' = k := fun hh => h.1 hh.symm
    simp only [setProp, hne, if_false, List.cons_append, ih h.2]

/-- A loop of guarded assignments under pairwise distinct fresh keys appends the
assigned entries in order. -/
theorem foldl_setProp_eq_append {α : Type} (cond : α → Bool) (kf : α → String)
    (vf : α → JSValue) (l : List α) :
    ∀ (init : Props), (init.map Prod.fst ++ l.map kf).Nodup →
      l.foldl (fun out a => if cond a = true then setProp out (kf a) (vf a) else out) init
        = init ++ (l.filter cond).map (fun a => (kf a, vf a)) := by
  induction l with
  | nil => intro init _; simp
  | cons a l ih =>
    intro init hnd
    simp only [List.foldl_cons]
    have hnot : kf a ∉ init.map Prod.fst := by
      intro hmem
      have := List.nodup_append.mp hnd
      exact this.2.2 hmem (by simp)
    by_cases hc : cond a = true
    · simp only [hc, if_true, List.filter_cons_of_pos, List.map_cons]
      rw [setProp_of_not_mem init (kf a) (vf a) hnot, ih]
      · simp
      · simpa using hnd
    · simp only [hc, Bool.false_eq_true, if_false]
      have hc' : ¬ (cond a = true) := hc
      rw [ih, List.filter_cons_of_neg hc']
      have hsub : (init.map Prod.fst ++ l.map kf).Sublist
          (init.map Prod.fst ++ (a :: l).map kf) :=
        List.Sublist.append_left (by simp) _
      exact hsub.nodup hnd


/-! ## Claim C4: mirror preserves the shape of field maps -/

theorem isFieldTreeProps_iff (props : Props) :
    isFieldTreeProps props = true ↔ ∀ q ∈ props, isFieldTree q.2 = true := by
  induction props with
  | nil => simp [isFieldTreeProps]
  | cons q rest ih =>
    obtain ⟨k, v⟩ := q
    simp [isFieldTreeProps, ih]

theorem wellFormedProps_iff (props : Props) :
    wellFormedProps props = true ↔ ∀ q ∈ props, q.2.wellFormed = true := by
  induction props with
  | nil => simp [wellFormedProps]
  | cons q rest ih =>
    obtain ⟨k, v⟩ := q
    simp [wellFormedProps, ih]

theorem mirrorShapeProps_eq_map (props : Props) :
    mirrorShapeProps props = props.map fun q => (q.1, mirrorShape q.2) := by
  induction props with
  | nil => rfl
  | cons q rest ih =>
    obtain ⟨k, v⟩ := q
    simp [mirrorShapeProps, ih]

theorem height_le_heightProps (props : Props) (q : String × JSValue) (hq : q ∈ props) :
    q.2.height ≤ heightProps props := by
  induction props with
  | nil => simp at hq
  | cons r rest ih =>
    obtain ⟨k, v⟩ := r
    simp only [heightProps]
    rcases List.mem_cons.mp hq with heq | hrest
    · subst heq
      exact le_max_left _ _
    · exact le_trans (ih hrest) (le_max_right _ _)

theorem mirrorShape_truthy (t : JSValue) (h : isFieldTree t = true) :
    (mirrorShape t).truthy = true := by
  cases t with
  | obj props => simp [mirrorShape]
  | arr es items =>
    cases es with
    | nil => simp [isFieldTree] at h
    | cons e es =>
      simp only [isFieldTree, Bool.and_eq_true] at h
      simpa [mirrorShape] using h.2
  | _ => simp [isFieldTree] at h

/-- On trees of field maps and leaf groups `convert` computes the mirrored shape. -/
theorem convert_fieldTree (fuel : Nat) :
    ∀ (t : JSValue), isFieldTree t = true → t.wellFormed = true → t.height < fuel →
      convert fuel t = mirrorShape t := by
  induction fuel with
  | zero => intro t _ _ h; omega
  | succ n ih =>
    intro t hft hwf hh
    cases t with
    | obj props =>
      simp only [isFieldTree, isFieldTreeProps_iff] at hft
      simp only [wellFormed, Bool.and_eq_true, decide_eq_true_eq, wellFormedProps_iff] at hwf
      simp only [height, Nat.add_lt_add_iff_right] at hh
      have hsub : ∀ q ∈ props, convert n q.2 = mirrorShape q.2 := fun q hq =>
        ih q.2 (hft q hq) (hwf.2 q hq) (lt_of_le_of_lt (height_le_heightProps props q hq) hh)
      rw [convert_succ, convertStep_obj,
        foldl_keys_eq_foldl_entries props hwf.1
          (fun out k v => if (convert n v).neNull = true then setProp out k (convert n v) else out),
        foldl_setProp_eq_append (fun q => (convert n q.2).neNull) Prod.fst
          (fun q => convert n q.2) props [] (by simpa using hwf.1)]
      have hall : props.filter (fun q => (convert n q.2).neNull) = props := by
        rw [List.filter_eq_self]
        intro q hq
        rw [hsub q hq]
        exact neNull_of_truthy (mirrorShape_truthy _ (hft q hq))
      rw [hall, mirrorShape, mirrorShapeProps_eq_map]
      simp only [List.nil_append]
      congr 1
      exact List.map_congr_left fun q hq => by rw [hsub q hq]
    | arr es items =>
      cases es with
      | nil => simp [isFieldTree] at hft
      | cons e es =>
        simp only [isFieldTree, Bool.and_eq_true] at hft
        rw [convert_succ, convertStep_leafGroup _ e es items hft.1.1 hft.1.2 hft.2]
        rfl
    | _ => simp [isFieldTree] at hft

/-- Claim C4. For every tree built only from field maps (plain objects, each key
held once) and leaf groups, `transformMoldErrorsToFormik` returns the tree with
the same keys at every level and each leaf group replaced by the `message` of
its first element. -/
theorem mirror_preserves_shape (t : JSValue) (hft : isFieldTree t = true)
    (hwf : t.wellFormed = true) :
    transformMoldErrorsToFormik t = mirrorShape t := by
  have hm : mirror t = mirrorShape t :=
    convert_fieldTree (t.height + 1) t hft hwf (Nat.lt_succ_self _)
  have ht : t.truthy = true := by
    cases t <;> simp_all [isFieldTree, JSValue.truthy]
  simp [transformMoldErrorsToFormik, ht, hm, mirrorShape_truthy t hft]

theorem mirror_preserves_shape_witness :
    isFieldTree (obj [("user", obj [("profile", obj [("email",
        arr [obj [("rule", str "validateEmailFormat"), ("message", str "Invalid email")]]
          none)])]),
      ("name", arr [obj [("rule", str "validateLengthMin"), ("message", str "Too short")],
        obj [("rule", str "validatePattern"), ("message", str "Invalid pattern")]] none)])
      = true
    ∧ (obj [("user", obj [("profile", obj [("email",
        arr [obj [("rule", str "validateEmailFormat"), ("message", str "Invalid email")]]
          none)])]),
      ("name", arr [obj [("rule", str "validateLengthMin"), ("message", str "Too short")],
        obj [("rule", str "validatePattern"), ("message", str "Invalid pattern")]]
          none)]).wellFormed = true
    ∧ transformMoldErrorsToFormik (obj [("user", obj [("profile", obj [("email",
        arr [obj [("rule", str "validateEmailFormat"), ("message", str "Invalid email")]]
          none)])]),
      ("name", arr [obj [("rule", str "validateLengthMin"), ("message", str "Too short")],
        obj [("rule", str "validatePattern"), ("message", str "Invalid pattern")]] none)])
      = obj [("user", obj [("profile", obj [("email", str "Invalid email")])]),
          ("name", str "Too short")] :=
  ⟨by decide, by decide,
    mirror_preserves_shape _ (by decide) (by decide)⟩


/-! ## Claim C6: the `items` side-channel of an empty array -/

theorem isLeafGroup_iff (v : JSValue) :
    isLeafGroup v = true ↔ ∃ e es items, v = arr (e :: es) items ∧ e.truthy = true
      ∧ (e.get "rule").truthy = true ∧ (e.get "message").truthy = true := by
  constructor
  · intro h
    cases v with
    | arr es items =>
      cases es with
      | nil => simp [isLeafGroup] at h
      | cons e es =>
        simp only [isLeafGroup, Bool.and_eq_true] at h
        exact ⟨e, es, items, rfl, h.1.1, h.1.2, h.2⟩
    | _ => simp [isLeafGroup] at h
  · rintro ⟨e, es, items, rfl, h1, h2, h3⟩
    simp [isLeafGroup, h1, h2, h3]

theorem joinPath_injective (base : String) (a b : String)
    (h : joinPath base a = joinPath base b) : a = b := by
  by_cases hb : base = ""
  · subst hb
    simpa using h
  · rw [joinPath_of_ne hb, joinPath_of_ne hb, String.append_assoc, String.append_assoc] at h
    exact string_append_right_cancel "." a b (string_append_right_cancel base _ _ h)

/-- When every entry of `items` is a leaf group, the `items` loop of `walk`
records the first leaf of each entry under `basePath.index`. -/
theorem walkItems_leafGroups (w : JSValue → String → Props → Props) (its : Props)
    (base : String) (hnd : (its.map Prod.fst).Nodup)
    (hlg : ∀ q ∈ its, isLeafGroup q.2 = true) :
    walkItems w (obj its) base []
      = its.map fun q => (joinPath base q.1, leafRecord (q.2.index 0)) := by
  unfold walkItems
  rw [keys_obj, foldl_keys_eq_foldl_entries its hnd
    (fun out idx arrErr =>
      if (arrErr.isArray && (arrErr.index 0).truthy
          && ((arrErr.index 0).get "rule").truthy) = true then
        setProp out (joinPath base idx) (leafRecord (arrErr.index 0))
      else if (arrErr.isArray && arrErr.length == 1 && (arrErr.index 0).truthy
          && (arrErr.index 0).isObjectType && !((arrErr.index 0).get "rule").truthy) = true then
        w (arrErr.index 0) (joinPath base idx) out
      else if (arrErr.truthy && arrErr.isObjectType) = true then
        w arrErr (joinPath base idx) out
      else out)]
  have hstep : ∀ (out : Props), ∀ q ∈ its,
      (if (q.2.isArray && (q.2.index 0).truthy && ((q.2.index 0).get "rule").truthy) = true then
        setProp out (joinPath base q.1) (leafRecord (q.2.index 0))
      else if (q.2.isArray && q.2.length == 1 && (q.2.index 0).truthy
          && (q.2.index 0).isObjectType && !((q.2.index 0).get "rule").truthy) = true then
        w (q.2.index 0) (joinPath base q.1) out
      else if (q.2.truthy && q.2.isObjectType) = true then
        w q.2 (joinPath base q.1) out
      else out)
      = (if (fun _ : String × JSValue => true) q = true then
          setProp out (joinPath base q.1) (leafRecord (q.2.index 0)) else out) := by
    intro out q hq
    obtain ⟨e, es, items, hv, h1, h2, _⟩ := (isLeafGroup_iff q.2).mp (hlg q hq)
    simp [hv, h1, h2]
  rw [List.foldl_ext _ _ _ hstep,
    foldl_setProp_eq_append (fun _ => true) (fun q => joinPath base q.1)
      (fun q => leafRecord (q.2.index 0)) its []]
  · simp
  · simp only [List.map_nil, List.nil_append]
    have : its.map (fun q => joinPath base q.1) = (its.map Prod.fst).map (joinPath base) := by
      simp
    rw [this]
    exact hnd.map fun a b hab => joinPath_injective base a b hab

/-- Claim C6. For every non-empty field name `f` and every empty array carrying
an `items` property that maps index strings to leaf groups,
`flattenMoldErrorsToRHF({f: thatArray})` has exactly one entry per index `i`, keyed
`"f.i"` (no `items` segment), with value
`{type: items[i][0].rule, message: items[i][0].message}`. -/
theorem flatten_items_side_channel (f : String) (its : Props) (hf : f ≠ "")
    (hnd : (its.map Prod.fst).Nodup) (hlg : ∀ q ∈ its, isLeafGroup q.2 = true) :
    flattenMoldErrorsToRHF (obj [(f, arr [] (some (obj its)))])
      = obj (its.map fun q => (f ++ "." ++ q.1,
          obj [("type", (q.2.index 0).get "rule"),
               ("message", (q.2.index 0).get "message")])) := by
  simp [flattenMoldErrorsToRHF, walkNode, height, walkStep_obj, walkStep_arr_nil,
    walkItems_leafGroups _ its f hnd hlg, joinPath_of_ne hf, leafRecord]

theorem flatten_items_side_channel_witness :
    "tags" ≠ ""
    ∧ ([("1", arr [obj [("rule", str "isEmpty"), ("message", str "Cannot be empty")]] none),
        ("3", arr [obj [("rule", str "isEmpty"), ("message", str "Also empty")]]
          none)].map Prod.fst).Nodup
    ∧ (∀ q ∈ [("1", arr [obj [("rule", str "isEmpty"), ("message", str "Cannot be empty")]]
          none),
        ("3", arr [obj [("rule", str "isEmpty"), ("message", str "Also empty")]] none)],
        isLeafGroup q.2 = true)
    ∧ flattenMoldErrorsToRHF (obj [("tags", arr [] (some (obj
        [("1", arr [obj [("rule", str "isEmpty"), ("message", str "Cannot be empty")]] none),
         ("3", arr [obj [("rule", str "isEmpty"), ("message", str "Also empty")]]
          none)])))])
      = obj [("tags.1", obj [("type", str "isEmpty"), ("message", str "Cannot be empty")]),
             ("tags.3", obj [("type", str "isEmpty"), ("message", str "Also empty")])] :=
  ⟨by decide, by decide, by decide,
    flatten_items_side_channel "tags"
      [("1", arr [obj [("rule", str "isEmpty"), ("message", str "Cannot be empty")]] none),
       ("3", arr [obj [("rule", str "isEmpty"), ("message", str "Also empty")]] none)]
      (by decide) (by decide) (by decide)⟩


/-! ## Claim C7: a plain object under the key `items` -/

/-- Claim C7 fails for the empty field name: `walk` treats an empty path as the
root, so the segment of the field `""` is dropped and the entry is keyed
`"items.1"`, not `".items.1"`. -/
theorem plain_items_key_counterexample :
    flattenMoldErrorsToRHF (obj [("", obj [("items", obj [("1",
        arr [obj [("rule", str "isEmpty"), ("message", str "Cannot be empty")]] none)])])])
      = obj [("items.1", obj [("type", str "isEmpty"), ("message", str "Cannot be empty")])]
    ∧ flattenMoldErrorsToRHF (obj [("", obj [("items", obj [("1",
        arr [obj [("rule", str "isEmpty"), ("message", str "Cannot be empty")]] none)])])])
      ≠ obj [("" ++ "." ++ "items" ++ "." ++ "1",
          obj [("type", str "isEmpty"), ("message", str "Cannot be empty")])] := by
  have h : flattenMoldErrorsToRHF (obj [("", obj [("items", obj [("1",
        arr [obj [("rule", str "isEmpty"), ("message", str "Cannot be empty")]] none)])])])
      = obj [("items.1", obj [("type", str "isEmpty"), ("message", str "Cannot be empty")])] :=
    by rfl
  refine ⟨h, ?_⟩
  rw [h]
  intro hc
  simp only [JSValue.obj.injEq, List.cons.injEq, Prod.mk.injEq] at hc
  exact absurd hc.1.1 (by decide)

/-- Claim C7, amended. A plain object stored under the key `items` is an ordinary
field: for every non-empty field name `f`, every index `i` and every leaf group
`G`, `flattenMoldErrorsToRHF({f: {items: {i: G}}})` is
`{"f.items.i": {type: G[0].rule, message: G[0].message}}`; and for every field
name `f`, `transformMoldErrorsToFormik` of the same tree is
`{f: {items: {i: G[0].message}}}`. -/
theorem plain_items_key_is_field (f i : String) (p : Props) (rest : List JSValue)
    (items : Option JSValue)
    (hr : ((obj p).get "rule").truthy = true)
    (hm : ((obj p).get "message").truthy = true) :
    (f ≠ "" →
      flattenMoldErrorsToRHF (obj [(f, obj [("items", obj [(i, arr (obj p :: rest) items)])])])
        = obj [(f ++ "." ++ "items" ++ "." ++ i,
            obj [("type", (obj p).get "rule"), ("message", (obj p).get "message")])])
    ∧ transformMoldErrorsToFormik
        (obj [(f, obj [("items", obj [(i, arr (obj p :: rest) items)])])])
        = obj [(f, obj [("items", obj [(i, (obj p).get "message")])])] := by
  constructor
  · intro hf
    have h2 : f ++ "." ++ "items" ≠ "" := append_ne_empty_left (append_ne_empty_left hf _) _
    rw [flatten_of_truthy _ (truthy_obj _)]
    simp [walkNode_eq, walkStep_obj, walkStep_leafGroup, hr, hm, joinPath_of_ne hf,
      joinPath_of_ne h2, setProp, leafRecord]
  · rw [transform_of_truthy _ (truthy_obj _)]
    simp [mirror_eq, convertStep_obj, convertStep_leafGroup, hr, hm, setProp,
      neNull_of_truthy hm]

theorem plain_items_key_is_field_witness :
    ((obj [("rule", str "isEmpty"), ("message", str "Cannot be empty")]).get
        "rule").truthy = true
    ∧ ((obj [("rule", str "isEmpty"), ("message", str "Cannot be empty")]).get
        "message").truthy = true
    ∧ "tags" ≠ ""
    ∧ flattenMoldErrorsToRHF (obj [("tags", obj [("items", obj [("1",
          arr [obj [("rule", str "isEmpty"), ("message", str "Cannot be empty")]] none)])])])
        = obj [("tags.items.1",
            obj [("type", str "isEmpty"), ("message", str "Cannot be empty")])]
    ∧ transformMoldErrorsToFormik (obj [("tags", obj [("items", obj [("1",
          arr [obj [("rule", str "isEmpty"), ("message", str "Cannot be empty")]] none)])])])
        = obj [("tags", obj [("items", obj [("1", str "Cannot be empty")])])] :=
  ⟨by decide, by decide, by decide,
    (plain_items_key_is_field "tags" "1"
      [("rule", str "isEmpty"), ("message", str "Cannot be empty")] [] none
      (by decide) (by decide)).1 (by decide),
    (plain_items_key_is_field "tags" "1"
      [("rule", str "isEmpty"), ("message", str "Cannot be empty")] [] none
      (by decide) (by decide)).2⟩


/-! ## Claims C8 and C9: the `items` side-channel in mirror -/

/-- The `itemsObj` loop of `convert` over an `items` object without repeated
keys builds `mirrorItems`. -/
theorem convertItems_mirror_obj (its : Props) (hnd : (its.map Prod.fst).Nodup) :
    convertItems mirror (obj its) = mirrorItems its := by
  unfold convertItems mirrorItems
  rw [keys_obj, foldl_keys_eq_foldl_entries its hnd
    (fun itemsObj i v => if (mirror v).neNull = true then setProp itemsObj i (mirror v)
      else itemsObj),
    foldl_setProp_eq_append (fun q => (mirror q.2).neNull) Prod.fst (fun q => mirror q.2)
      its [] (by simpa using hnd)]
  simp

/-- Claim C8 fails as stated: for an empty array whose `items` side-channel
holds one leaf group, `transformMoldErrorsToFormik` returns the index mapping
`{"1": message}` itself; no literal `items` key is produced. -/
theorem mirror_items_only_counterexample :
    transformMoldErrorsToFormik (arr [] (some (obj [("1",
        arr [obj [("rule", str "isEmpty"), ("message", str "Tag cannot be empty")]] none)])))
      = obj [("1", str "Tag cannot be empty")]
    ∧ transformMoldErrorsToFormik (arr [] (some (obj [("1",
        arr [obj [("rule", str "isEmpty"), ("message", str "Tag cannot be empty")]] none)])))
      ≠ obj [("items", obj [("1", str "Tag cannot be empty")])] := by
  have h : transformMoldErrorsToFormik (arr [] (some (obj [("1",
        arr [obj [("rule", str "isEmpty"), ("message", str "Tag cannot be empty")]] none)])))
      = obj [("1", str "Tag cannot be empty")] := by rfl
  refine ⟨h, ?_⟩
  rw [h]
  intro hc
  simp only [JSValue.obj.injEq, List.cons.injEq, Prod.mk.injEq] at hc
  exact absurd hc.1.1 (by decide)

/-- Claim C8, amended. For every array node that has no direct leaf elements, is
not a single-element object wrapper, and carries an `items` object of which at
least one entry reduces to a value, `convert` (and so
`transformMoldErrorsToFormik` applied to that node) returns the index mapping
`{index: mirror(child), ...}` itself, with no literal `items` key. -/
theorem mirror_items_only (es : List JSValue) (its : Props)
    (hleaf : ∀ e ∈ es, isLeaf e = false)
    (hwrap : isObjectWrapper (arr es (some (obj its))) = false)
    (hnd : (its.map Prod.fst).Nodup)
    (hsome : ∃ q ∈ its, (mirror q.2).neNull = true) :
    mirror (arr es (some (obj its))) = obj (mirrorItems its)
    ∧ transformMoldErrorsToFormik (arr es (some (obj its))) = obj (mirrorItems its) := by
  have hlen : 0 < (mirrorItems its).length := by
    obtain ⟨q, hq, hn⟩ := hsome
    apply List.length_pos_of_mem (a := (q.1, mirror q.2))
    unfold mirrorItems
    exact List.mem_map.mpr ⟨q, List.mem_filter.mpr ⟨hq, hn⟩, rfl⟩
  have hm : mirror (arr es (some (obj its))) = obj (mirrorItems its) := by
    rw [mirror_eq]
    cases es with
    | nil =>
      simp [convertStep_arr_nil, convertItems_mirror_obj its hnd, hlen]
    | cons e es' =>
      have he : (e.truthy && (e.get "rule").truthy && (e.get "message").truthy) = false :=
        hleaf e (List.mem_cons_self _ _)
      have hw : ((e :: es').length == 1 && e.truthy && e.isObjectType
          && !(e.get "rule").truthy) = false := hwrap
      simp only [convertStep, truthy_arr, isArray_arr, length_arr, index_arr_zero,
        get_arr_items, Option.getD_some, truthy_obj, he, hw,
        convertItems_mirror_obj its hnd]
      simp [hlen]
  refine ⟨hm, ?_⟩
  rw [transform_of_truthy _ (truthy_arr _ _), hm]
  simp

theorem mirror_items_only_witness :
    (∀ e ∈ [obj [("someData", str "value")], JSValue.null], isLeaf e = false)
    ∧ isObjectWrapper (arr [obj [("someData", str "value")], JSValue.null]
        (some (obj [("0", arr [] none),
          ("1", arr [obj [("rule", str "isEmpty"), ("message", str "Empty tag")]] none),
          ("2", obj [("name", arr [obj [("rule", str "min"), ("message", str "Too short")]]
            none)])]))) = false
    ∧ ([("0", arr [] none),
          ("1", arr [obj [("rule", str "isEmpty"), ("message", str "Empty tag")]] none),
          ("2", obj [("name", arr [obj [("rule", str "min"), ("message", str "Too short")]]
            none)])].map Prod.fst).Nodup
    ∧ (mirror (arr [obj [("rule", str "isEmpty"), ("message", str "Empty tag")]]
        none)).neNull = true
    ∧ transformMoldErrorsToFormik (arr [obj [("someData", str "value")], JSValue.null]
        (some (obj [("0", arr [] none),
          ("1", arr [obj [("rule", str "isEmpty"), ("message", str "Empty tag")]] none),
          ("2", obj [("name", arr [obj [("rule", str "min"), ("message", str "Too short")]]
            none)])])))
      = obj [("1", str "Empty tag"), ("2", obj [("name", str "Too short")])] :=
  ⟨by decide, by decide, by decide, by decide,
    (mirror_items_only [obj [("someData", str "value")], JSValue.null]
      [("0", arr [] none),
        ("1", arr [obj [("rule", str "isEmpty"), ("message", str "Empty tag")]] none),
        ("2", obj [("name", arr [obj [("rule", str "min"), ("message", str "Too short")]]
          none)])]
      (by decide) (by decide) (by decide)
      ⟨("1", arr [obj [("rule", str "isEmpty"), ("message", str "Empty tag")]] none),
        by simp, by decide⟩).2⟩


/-- Claim C9 fails when no child reduces to a value: the emptied mapping is not
returned, `convert` yields `undefined` for the array and the key `tags` is left
out, so `result.tags` is `undefined`, not the mapping `{}`. -/
theorem mirror_items_keyed_by_index_counterexample :
    mirrorItems [("0", arr [] none)] = []
    ∧ (transformMoldErrorsToFormik
        (obj [("tags", arr [] (some (obj [("0", arr [] none)])))])).get "tags"
      = JSValue.undefined
    ∧ (transformMoldErrorsToFormik
        (obj [("tags", arr [] (some (obj [("0", arr [] none)])))])).get "tags"
      ≠ obj (mirrorItems [("0", arr [] none)]) := by
  have h : (transformMoldErrorsToFormik
        (obj [("tags", arr [] (some (obj [("0", arr [] none)])))])).get "tags"
      = JSValue.undefined := by rfl
  refine ⟨rfl, h, ?_⟩
  rw [h]
  intro hc
  cases hc

/-- Claim C9, amended. For every field name `f` and every empty array carrying
an `items` object `{i: child, ...}`: when at least one child reduces to a value,
`transformMoldErrorsToFormik({f: thatArray})` is `{f: {i: mirror(child), ...}}`
(children that reduce to nothing omitted), so `result[f]` is the index mapping
itself with no intermediate `items` key; when no child reduces to a value the
result is `{}` and the key `f` is absent. -/
theorem mirror_items_keyed_by_index (f : String) (its : Props)
    (hnd : (its.map Prod.fst).Nodup) :
    ((mirrorItems its).isEmpty = false →
      transformMoldErrorsToFormik (obj [(f, arr [] (some (obj its)))])
          = obj [(f, obj (mirrorItems its))]
        ∧ (transformMoldErrorsToFormik (obj [(f, arr [] (some (obj its)))])).get f
          = obj (mirrorItems its))
    ∧ ((mirrorItems its).isEmpty = true →
      transformMoldErrorsToFormik (obj [(f, arr [] (some (obj its)))]) = obj []) := by
  have hnode : mirror (arr [] (some (obj its)))
      = if 0 < (mirrorItems its).length then obj (mirrorItems its) else JSValue.undefined := by
    rw [mirror_eq]
    simp [convertStep_arr_nil, convertItems_mirror_obj its hnd]
  have hroot : transformMoldErrorsToFormik (obj [(f, arr [] (some (obj its)))])
      = obj (if (mirror (arr [] (some (obj its)))).neNull = true
          then [(f, mirror (arr [] (some (obj its))))] else []) := by
    rw [transform_of_truthy _ (truthy_obj _), mirror_eq, convertStep_obj]
    by_cases hn : (mirror (arr [] (some (obj its)))).neNull = true <;> simp [hn, setProp]
  constructor
  · intro hne
    have hlen : 0 < (mirrorItems its).length := by
      cases hmi : mirrorItems its with
      | nil => simp [hmi] at hne
      | cons a l => simp
    have hval : mirror (arr [] (some (obj its))) = obj (mirrorItems its) := by
      rw [hnode, if_pos hlen]
    rw [hroot, hval]
    simp
  · intro he
    have hlen : ¬ 0 < (mirrorItems its).length := by
      rw [List.isEmpty_iff] at he
      simp [he]
    have hval : mirror (arr [] (some (obj its))) = JSValue.undefined := by
      rw [hnode, if_neg hlen]
    rw [hroot, hval]
    simp

theorem mirror_items_keyed_by_index_witness :
    ([("0", arr [] none),
      ("1", arr [obj [("rule", str "isEmpty"), ("message", str "Empty tag")]] none)].map
        Prod.fst).Nodup
    ∧ (mirrorItems [("0", arr [] none),
      ("1", arr [obj [("rule", str "isEmpty"), ("message", str "Empty tag")]]
        none)]).isEmpty = false
    ∧ transformMoldErrorsToFormik (obj [("tags", arr [] (some (obj [("0", arr [] none),
        ("1", arr [obj [("rule", str "isEmpty"), ("message", str "Empty tag")]] none)])))])
      = obj [("tags", obj [("1", str "Empty tag")])]
    ∧ (transformMoldErrorsToFormik (obj [("tags", arr [] (some (obj [("0", arr [] none),
        ("1", arr [obj [("rule", str "isEmpty"), ("message", str "Empty tag")]]
          none)])))])).get "tags"
      = obj [("1", str "Empty tag")] :=
  ⟨by decide, by decide,
    (mirror_items_keyed_by_index "tags"
      [("0", arr [] none),
        ("1", arr [obj [("rule", str "isEmpty"), ("message", str "Empty tag")]] none)]
      (by decide)).1 (by decide)⟩

/-! ## Claim C10: an empty array without `items` -/

theorem get_obj_insert_ne (pre post : Props) (k key : String) (x : JSValue)
    (h : key ≠ k) :
    (obj (pre ++ (k, x) :: post)).get key = (obj (pre ++ post)).get key := by
  induction pre with
  | nil => exact get_obj_cons_ne key k x post h
  | cons q pre ih =>
    obtain ⟨k', v'⟩ := q
    by_cases hk : key = k'
    · subst hk
      simp
    · simp only [List.cons_append]
      rw [get_obj_cons_ne key k' v' _ hk, get_obj_cons_ne key k' v' _ hk, ih]

theorem get_obj_insert_self (pre post : Props) (k : String) (x : JSValue)
    (h : k ∉ pre.map Prod.fst) :
    (obj (pre ++ (k, x) :: post)).get k = x := by
  induction pre with
  | nil => simp
  | cons q pre ih =>
    obtain ⟨k', v'⟩ := q
    simp only [List.map_cons, List.mem_cons, not_or] at h
    simp only [List.cons_append]
    rw [get_obj_cons_ne k k' v' _ h.1, ih h.2]

/-- A loop over the keys of an object skips an inserted entry on which its body
does nothing. -/
theorem foldl_keys_insert_skip {β : Type} (F : β → String → JSValue → β)
    (pre post : Props) (k : String) (x : JSValue) (init : β)
    (hk : k ∉ (pre ++ post).map Prod.fst) (hskip : ∀ acc, F acc k x = acc) :
    ((pre ++ (k, x) :: post).map Prod.fst).foldl
        (fun acc key => F acc key ((obj (pre ++ (k, x) :: post)).get key)) init
      = ((pre ++ post).map Prod.fst).foldl
        (fun acc key => F acc key ((obj (pre ++ post)).get key)) init := by
  simp only [List.map_append, List.mem_append, not_or] at hk
  have hext : ∀ (l : List String) (a : β), (∀ key ∈ l, key ≠ k) →
      l.foldl (fun acc key => F acc key ((obj (pre ++ (k, x) :: post)).get key)) a
        = l.foldl (fun acc key => F acc key ((obj (pre ++ post)).get key)) a := by
    intro l a hl
    apply List.foldl_ext
    intro acc key hkey
    rw [get_obj_insert_ne pre post k key x (hl key hkey)]
  have hpre : ∀ key ∈ pre.map Prod.fst, key ≠ k := fun key hkey hh => hk.1 (hh ▸ hkey)
  have hpost : ∀ key ∈ post.map Prod.fst, key ≠ k := fun key hkey hh => hk.2 (hh ▸ hkey)
  simp only [List.map_append, List.map_cons, List.foldl_append, List.foldl_cons]
  rw [get_obj_insert_self pre post k x hk.1, hskip, hext _ _ hpre, hext _ _ hpost]

theorem walkNode_empty_array (base : String) (out : Props) :
    walkNode (arr [] none) base out = out := by
  rw [walkNode_eq]
  simp [walkStep_arr_nil]

theorem mirror_empty_array : mirror (arr [] none) = JSValue.undefined := by
  rw [mirror_eq]
  simp [convertStep_arr_nil]

/-- Claim C10. An empty array without `items` contributes nothing: for every
field map `m`, every key `k` not in `m` and every position of the new key,
`flattenMoldErrorsToRHF` and `transformMoldErrorsToFormik` return for
`m ∪ {k: []}` what they return for `m`; in particular both return `{}` for
`{k: []}`. -/
theorem empty_array_contributes_nothing (pre post : Props) (k : String)
    (hk : k ∉ (pre ++ post).map Prod.fst) :
    flattenMoldErrorsToRHF (obj (pre ++ (k, arr [] none) :: post))
        = flattenMoldErrorsToRHF (obj (pre ++ post))
    ∧ transformMoldErrorsToFormik (obj (pre ++ (k, arr [] none) :: post))
        = transformMoldErrorsToFormik (obj (pre ++ post))
    ∧ flattenMoldErrorsToRHF (obj [(k, arr [] none)]) = obj []
    ∧ transformMoldErrorsToFormik (obj [(k, arr [] none)]) = obj [] := by
  refine ⟨?_, ?_, ?_, ?_⟩
  · rw [flatten_of_truthy _ (truthy_obj _), flatten_of_truthy _ (truthy_obj _),
      walkNode_eq, walkNode_eq (obj (pre ++ post)), walkStep_obj, walkStep_obj,
      foldl_keys_insert_skip (fun out key v => walkNode v (joinPath "" key) out)
        pre post k (arr [] none) [] hk (fun acc => walkNode_empty_array _ acc)]
  · rw [transform_of_truthy _ (truthy_obj _), transform_of_truthy _ (truthy_obj _),
      mirror_eq, mirror_eq (obj (pre ++ post)), convertStep_obj, convertStep_obj,
      foldl_keys_insert_skip
        (fun out key v => if (mirror v).neNull = true then setProp out key (mirror v) else out)
        pre post k (arr [] none) [] hk (fun acc => by simp [mirror_empty_array])]
  · rw [flatten_of_truthy _ (truthy_obj _), walkNode_eq, walkStep_obj]
    simp [walkNode_empty_array]
  · rw [transform_of_truthy _ (truthy_obj _), mirror_eq, convertStep_obj]
    simp [mirror_empty_array]

theorem empty_array_contributes_nothing_witness :
    "emptyArray" ∉ ([("name", arr [obj [("rule", str "min"), ("message", str "Too short")]]
        none)] ++ [("tags", arr [] (some (obj [("1",
          arr [obj [("rule", str "isEmpty"), ("message", str "Empty")]] none)])))]).map
        Prod.fst
    ∧ flattenMoldErrorsToRHF (obj [("name",
          arr [obj [("rule", str "min"), ("message", str "Too short")]] none),
        ("emptyArray", arr [] none),
        ("tags", arr [] (some (obj [("1",
          arr [obj [("rule", str "isEmpty"), ("message", str "Empty")]] none)])))])
      = flattenMoldErrorsToRHF (obj [("name",
          arr [obj [("rule", str "min"), ("message", str "Too short")]] none),
        ("tags", arr [] (some (obj [("1",
          arr [obj [("rule", str "isEmpty"), ("message", str "Empty")]] none)])))])
    ∧ transformMoldErrorsToFormik (obj [("emptyArray", arr [] none)]) = obj [] :=
  ⟨by decide,
    (empty_array_contributes_nothing
      [("name", arr [obj [("rule", str "min"), ("message", str "Too short")]] none)]
      [("tags", arr [] (some (obj [("1",
          arr [obj [("rule", str "isEmpty"), ("message", str "Empty")]] none)])))]
      "emptyArray" (by decide)).1,
    (empty_array_contributes_nothing
      [("name", arr [obj [("rule", str "min"), ("message", str "Too short")]] none)]
      [("tags", arr [] (some (obj [("1",
          arr [obj [("rule", str "isEmpty"), ("message", str "Empty")]] none)])))]
      "emptyArray" (by decide)).2.2.2⟩

/-! ## Values nested in a tree -/

theorem everywhere_self (p : JSValue → Bool) (v : JSValue) (h : everywhere p v = true) :
    p v = true := by
  cases v <;> simp_all [everywhere]

theorem everywhereProps_lookup (p : JSValue → Bool) (props : Props) (k : String)
    (v : JSValue) (h : everywhereProps p props = true) (hl : props.lookup k = some v) :
    everywhere p v = true := by
  induction props with
  | nil => simp [List.lookup] at hl
  | cons q rest ih =>
    obtain ⟨k', v'⟩ := q
    simp only [everywhereProps, Bool.and_eq_true] at h
    simp only [List.lookup] at hl
    split at hl
    · simp only [Option.some.injEq] at hl
      subst hl
      exact h.1
    · exact ih h.2 hl

theorem everywhereProps_indexed (p : JSValue → Bool) (i : Nat) (es : List JSValue) :
    everywhereProps p (indexed i es) = everywhereElems p es := by
  induction es generalizing i with
  | nil => rfl
  | cons e es ih => simp [indexed, everywhereProps, everywhereElems, ih]

theorem everywhereProps_iff (p : JSValue → Bool) (props : Props) :
    everywhereProps p props = true ↔ ∀ q ∈ props, everywhere p q.2 = true := by
  induction props with
  | nil => simp [everywhereProps]
  | cons q rest ih =>
    obtain ⟨k, v⟩ := q
    simp [everywhereProps, ih]

theorem everywhereElems_iff (p : JSValue → Bool) (es : List JSValue) :
    everywhereElems p es = true ↔ ∀ e ∈ es, everywhere p e = true := by
  induction es with
  | nil => simp [everywhereElems]
  | cons e es ih => simp [everywhereElems, ih]

/-- A property read that yields an object or an array yields a value nested in
the receiver. -/
theorem everywhere_get (p : JSValue → Bool) (v : JSValue) (k : String)
    (h : everywhere p v = true) (hpos : 0 < (v.get k).height) :
    everywhere p (v.get k) = true := by
  cases v with
  | obj props =>
    simp only [everywhere, Bool.and_eq_true] at h
    rw [get_obj] at hpos ⊢
    cases hl : props.lookup k with
    | none => simp [hl, height] at hpos
    | some x => simpa using everywhereProps_lookup p props k x h.2 hl
  | arr es items =>
    simp only [everywhere, Bool.and_eq_true] at h
    simp only [JSValue.get] at hpos ⊢
    split_ifs at hpos ⊢ with h1 h2
    · cases items with
      | none => simp [height] at hpos
      | some x => simpa [everywhereItems] using h.2
    · simp [height] at hpos
    · cases hl : (indexed 0 es).lookup k with
      | none => simp [hl, height] at hpos
      | some x =>
        have := everywhereProps_lookup p (indexed 0 es) k x
          (by rw [everywhereProps_indexed]; exact h.1.2) hl
        simpa using this
  | str s =>
    have := height_get_le (str s) k
    simp only [height] at this
    omega
  | _ => simp [JSValue.get, height] at hpos

/-- A truthy element read from an array is nested in the array. -/
theorem everywhere_index (p : JSValue → Bool) (v : JSValue) (i : Nat)
    (h : everywhere p v = true) (ha : v.isArray = true) (ht : (v.index i).truthy = true) :
    everywhere p (v.index i) = true := by
  cases v with
  | arr es items =>
    simp only [everywhere, Bool.and_eq_true] at h
    simp only [JSValue.index] at ht ⊢
    have hes := (everywhereElems_iff p es).mp h.1.2
    by_cases hi : i < es.length
    · rw [List.getD_eq_getElem es JSValue.undefined hi]
      exact hes _ (List.getElem_mem hi)
    · rw [List.getD_eq_default es JSValue.undefined (by omega)] at ht
      simp at ht
  | _ => simp [JSValue.isArray] at ha

theorem height_pos_of_not_primitive {v : JSValue} (h : isPrimitive v = false) :
    0 < v.height := by
  cases v <;> simp_all [isPrimitive, height]

theorem isPrimitive_of_height_zero {v : JSValue} (h : v.height = 0) :
    isPrimitive v = true := by
  cases v <;> simp_all [isPrimitive, height]


/-! ## Decimal rendering of array indices (`String(i)`) -/

theorem digitChar_isDigit : ∀ k, k < 10 → (Nat.digitChar k).isDigit = true := by
  decide

theorem digitChar_value : ∀ k, k < 10 → (Nat.digitChar k).toNat - 48 = k := by
  decide

theorem toDigitsCore_chars (fuel : Nat) :
    ∀ (n : Nat) (ds : List Char) (c : Char), c ∈ Nat.toDigitsCore 10 fuel n ds →
      c ∈ ds ∨ c.isDigit = true := by
  induction fuel with
  | zero => intro n ds c hc; exact Or.inl (by simpa [Nat.toDigitsCore] using hc)
  | succ f ih =>
    intro n ds c hc
    simp only [Nat.toDigitsCore] at hc
    have hd : (Nat.digitChar (n % 10)).isDigit = true :=
      digitChar_isDigit _ (Nat.mod_lt _ (by decide))
    split_ifs at hc
    · rcases List.mem_cons.mp hc with h | h
      · exact Or.inr (h ▸ hd)
      · exact Or.inl h
    · rcases ih _ _ _ hc with h | h
      · rcases List.mem_cons.mp h with h' | h'
        · exact Or.inr (h' ▸ hd)
        · exact Or.inl h'
      · exact Or.inr h

/-- Every character of `String(i)` is a decimal digit. -/
theorem toString_nat_isDigit (i : Nat) (c : Char) (hc : c ∈ (toString i).data) :
    c.isDigit = true := by
  have hc' : c ∈ Nat.toDigitsCore 10 (i + 1) i [] := hc
  rcases toDigitsCore_chars _ _ _ _ hc' with h | h
  · simp at h
  · exact h

/-- Reading, as a decimal number, the digits produced for `n` in front of `ds`
amounts to reading `ds` starting from the value `n`. -/
theorem toDigitsCore_value (fuel : Nat) :
    ∀ (n : Nat) (ds : List Char), n < fuel →
      (Nat.toDigitsCore 10 fuel n ds).foldl (fun a c => a * 10 + (c.toNat - 48)) 0
        = ds.foldl (fun a c => a * 10 + (c.toNat - 48)) n := by
  induction fuel with
  | zero => intro n ds h; omega
  | succ f ih =>
    intro n ds h
    simp only [Nat.toDigitsCore]
    have hv := digitChar_value (n % 10) (Nat.mod_lt _ (by decide))
    split_ifs with h0
    · have hn : n % 10 = n := by omega
      rw [hn] at hv
      simp only [List.foldl_cons, Nat.zero_mul, Nat.zero_add, hn, hv]
    · rw [ih _ _ (by omega)]
      simp only [List.foldl_cons, hv]
      congr 1
      omega

/-- The rendering `String(i)` determines `i`. -/
theorem toString_nat_injective (i j : Nat) (h : (toString i : String) = toString j) :
    i = j := by
  have hi := toDigitsCore_value (i + 1) i [] (Nat.lt_succ_self _)
  have hj := toDigitsCore_value (j + 1) j [] (Nat.lt_succ_self _)
  have hd : Nat.toDigitsCore 10 (i + 1) i [] = Nat.toDigitsCore 10 (j + 1) j [] :=
    congrArg String.data h
  rw [hd, hj] at hi
  simpa using hi.symm

/-- A key with a character that is not a digit is not an array index. -/
theorem toString_nat_ne_of_nondigit (k : String) (c : Char) (hc : c ∈ k.data)
    (hnd : c.isDigit = false) (i : Nat) : toString i ≠ k := by
  intro h
  have := toString_nat_isDigit i c (h ▸ hc)
  rw [hnd] at this
  exact Bool.noConfusion this

theorem indexed_lookup_none (k : String) (hk : ∀ i : Nat, toString i ≠ k)
    (es : List JSValue) : ∀ j, (indexed j es).lookup k = none := by
  induction es with
  | nil => intro j; rfl
  | cons e es ih =>
    intro j
    have hne : (k == toString j) = false := by
      simpa using fun h => hk j h.symm
    simp [indexed, List.lookup, hne, ih]

/-- Strings and arrays have no `rule` property. -/
theorem get_rule_of_not_obj (v : JSValue) (h : ∀ props, v ≠ obj props) :
    v.get "rule" = JSValue.undefined := by
  have hk : ∀ i : Nat, toString i ≠ "rule" :=
    toString_nat_ne_of_nondigit "rule" 'r' (by decide) (by decide)
  cases v with
  | obj props => exact absurd rfl (h props)
  | arr es items =>
    simp [JSValue.get, indexed_lookup_none "rule" hk]
  | str s =>
    simp [JSValue.get, indexed_lookup_none "rule" hk]
  | _ => rfl

/-- Strings and arrays have no `message` property. -/
theorem get_message_of_not_obj (v : JSValue) (h : ∀ props, v ≠ obj props) :
    v.get "message" = JSValue.undefined := by
  have hk : ∀ i : Nat, toString i ≠ "message" :=
    toString_nat_ne_of_nondigit "message" 'm' (by decide) (by decide)
  cases v with
  | obj props => exact absurd rfl (h props)
  | arr es items =>
    simp [JSValue.get, indexed_lookup_none "message" hk]
  | str s =>
    simp [JSValue.get, indexed_lookup_none "message" hk]
  | _ => rfl


/-! ## Claim C12: the root fallback of mirror -/

theorem convertStep_undefined_or_truthy (c : JSValue → JSValue)
    (hc : ∀ v, c v = JSValue.undefined ∨ (c v).truthy = true) (node : JSValue) :
    convertStep c node = JSValue.undefined ∨ (convertStep c node).truthy = true := by
  have hbase : ∀ l : List JSValue, (∀ x ∈ l, x.truthy = true) → (l.length != 0) = true →
      (l.getD 0 JSValue.undefined).truthy = true := by
    intro l hl hne
    cases l with
    | nil => simp at hne
    | cons x xs => simpa using hl x (List.mem_cons_self _ _)
  have hmsgs : ∀ x ∈ (node.elems.filter fun e => e.truthy && (e.get "message").truthy).map
      (fun e => e.get "message"), x.truthy = true := by
    intro x hx
    obtain ⟨e, he, rfl⟩ := List.mem_map.mp hx
    have := (List.mem_filter.mp he).2
    simp only [Bool.and_eq_true] at this
    exact this.2
  simp only [convertStep]
  split_ifs with h0 h1 h2 h3 h4 h5 h6 h7 h8 h9 h10
  all_goals first
    | exact Or.inl rfl
    | exact Or.inr rfl
    | exact hc _
    | exact Or.inr (hbase _ hmsgs (by assumption))
    | (simp only [Bool.and_eq_true] at h5; exact Or.inr h5.2)

theorem convert_undefined_or_truthy (fuel : Nat) (node : JSValue) :
    convert fuel node = JSValue.undefined ∨ (convert fuel node).truthy = true := by
  induction fuel generalizing node with
  | zero => exact Or.inl rfl
  | succ n ih => exact convertStep_undefined_or_truthy _ (fun v => ih v) node

/-- The closure `convert` returns `undefined` or a truthy value. -/
theorem mirror_undefined_or_truthy (node : JSValue) :
    mirror node = JSValue.undefined ∨ (mirror node).truthy = true :=
  convert_undefined_or_truthy _ node

theorem mirror_primitive (t : JSValue) (h : isPrimitive t = true) :
    mirror t = JSValue.undefined := by
  rw [mirror_eq]
  cases t <;> simp_all [isPrimitive, convertStep, JSValue.isArray, JSValue.isObjectType]

/-- Claim C12. For every input value of any shape `transformMoldErrorsToFormik`
returns a value that is neither `undefined` nor `null`; and whenever the
recursive walk of the root yields nothing the result is the empty mapping `{}`:
for a falsy (absent) input, for a root on which `convert` returns `undefined`,
for an empty array without `items`, and for a primitive root. -/
theorem mirror_never_undefined (t : JSValue) :
    (transformMoldErrorsToFormik t).neNull = true
    ∧ (t.truthy = false → transformMoldErrorsToFormik t = obj [])
    ∧ (mirror t = JSValue.undefined → transformMoldErrorsToFormik t = obj [])
    ∧ transformMoldErrorsToFormik (arr [] none) = obj []
    ∧ (isPrimitive t = true → transformMoldErrorsToFormik t = obj []) := by
  have hundef : mirror t = JSValue.undefined → transformMoldErrorsToFormik t = obj [] := by
    intro hm
    unfold transformMoldErrorsToFormik
    simp [hm]
  refine ⟨?_, ?_, hundef, rfl, fun hp => hundef (mirror_primitive t hp)⟩
  · unfold transformMoldErrorsToFormik
    split_ifs with h1 h2
    · rfl
    · exact neNull_of_truthy h2
    · rfl
  · intro ht
    unfold transformMoldErrorsToFormik
    simp [ht]

theorem mirror_never_undefined_witness :
    (transformMoldErrorsToFormik (str "unexpected")).neNull = true
    ∧ isPrimitive (str "unexpected") = true
    ∧ transformMoldErrorsToFormik (str "unexpected") = obj []
    ∧ (num 0).truthy = false
    ∧ transformMoldErrorsToFormik (num 0) = obj [] :=
  ⟨(mirror_never_undefined (str "unexpected")).1, by decide,
    (mirror_never_undefined (str "unexpected")).2.2.2.2 (by decide), by decide,
    (mirror_never_undefined (num 0)).2.1 (by decide)⟩

/-! ## Claim C13: the object wrapper -/

/-- Claim C13. Unwrapping an object wrapper consumes no path segment: for every
field name `f` and every plain object `m` without a truthy `rule` property,
`flattenMoldErrorsToRHF({f: [m]}) = flattenMoldErrorsToRHF({f: m})` and
`transformMoldErrorsToFormik({f: [m]}) = transformMoldErrorsToFormik({f: m})`
(also when the single-element array carries an `items` property). -/
theorem object_wrapper_unwrapped (f : String) (p : Props) (items : Option JSValue)
    (hr : ((obj p).get "rule").truthy = false) :
    flattenMoldErrorsToRHF (obj [(f, arr [obj p] items)])
        = flattenMoldErrorsToRHF (obj [(f, obj p)])
    ∧ transformMoldErrorsToFormik (obj [(f, arr [obj p] items)])
        = transformMoldErrorsToFormik (obj [(f, obj p)]) := by
  have hw : ∀ base out, walkNode (arr [obj p] items) base out = walkNode (obj p) base out := by
    intro base out
    rw [walkNode_eq (arr [obj p] items)]
    simp [walkStep, hr]
  have hm : mirror (arr [obj p] items) = mirror (obj p) := by
    rw [mirror_eq (arr [obj p] items)]
    simp [convertStep, hr]
  constructor
  · rw [flatten_of_truthy _ (truthy_obj _), flatten_of_truthy _ (truthy_obj _),
      walkNode_eq, walkNode_eq (obj [(f, obj p)]), walkStep_obj, walkStep_obj]
    simp [hw]
  · rw [transform_of_truthy _ (truthy_obj _), transform_of_truthy _ (truthy_obj _),
      mirror_eq, mirror_eq (obj [(f, obj p)]), convertStep_obj, convertStep_obj]
    simp [hm]

theorem object_wrapper_unwrapped_witness :
    ((obj [("nested", arr [obj [("rule", str "validateRequired"),
        ("message", str "Required")]] none)]).get "rule").truthy = false
    ∧ flattenMoldErrorsToRHF (obj [("field", arr [obj [("nested",
        arr [obj [("rule", str "validateRequired"), ("message", str "Required")]] none)]]
          none)])
      = flattenMoldErrorsToRHF (obj [("field", obj [("nested",
        arr [obj [("rule", str "validateRequired"), ("message", str "Required")]] none)])])
    ∧ transformMoldErrorsToFormik (obj [("field", arr [obj [("nested",
        arr [obj [("rule", str "validateRequired"), ("message", str "Required")]] none)]]
          none)])
      = obj [("field", obj [("nested", str "Required")])] :=
  ⟨by decide,
    (object_wrapper_unwrapped "field"
      [("nested", arr [obj [("rule", str "validateRequired"), ("message", str "Required")]]
        none)] none (by decide)).1,
    (object_wrapper_unwrapped "field"
      [("nested", arr [obj [("rule", str "validateRequired"), ("message", str "Required")]]
        none)] none (by decide)).2⟩

/-! ## Claim C16: opaque subtrees -/

theorem truthy_of_height_pos {v : JSValue} (h : 0 < v.height) : v.truthy = true := by
  cases v <;> simp_all [height]

theorem foldl_fixed {α β : Type} (f : β → α → β) (l : List α) (init : β)
    (h : ∀ acc, ∀ x ∈ l, f acc x = acc) : l.foldl f init = init := by
  induction l with
  | nil => rfl
  | cons x xs ih =>
    rw [List.foldl_cons, h init x (List.mem_cons_self _ _)]
    exact ih fun acc y hy => h acc y (List.mem_cons_of_mem _ hy)

theorem opaque_get (v : JSValue) (k : String)
    (h : 0 < v.height → noRuleInside v = true) :
    0 < (v.get k).height → noRuleInside (v.get k) = true := fun hpos =>
  everywhere_get _ v k (h (lt_of_lt_of_le hpos (height_get_le v k))) hpos

theorem opaque_index (v : JSValue) (i : Nat) (ha : v.isArray = true)
    (h : 0 < v.height → noRuleInside v = true) :
    0 < (v.index i).height → noRuleInside (v.index i) = true := fun hpos =>
  everywhere_index _ v i (h (height_pos_of_isArray ha)) ha (truthy_of_height_pos hpos)

/-- A primitive or opaque value has no truthy `rule`. -/
theorem opaque_rule_falsy (v : JSValue) (h : 0 < v.height → noRuleInside v = true) :
    (v.get "rule").truthy = false := by
  cases v with
  | obj props =>
    have := everywhere_self _ _ (h (by simp [height]))
    simpa using this
  | arr es items => rw [get_rule_of_not_obj _ (fun p hp => by cases hp)]; rfl
  | str s => rw [get_rule_of_not_obj _ (fun p hp => by cases hp)]; rfl
  | _ => rfl

theorem walkItems_skips (w : JSValue → String → Props → Props)
    (hw : ∀ c b o, (0 < c.height → noRuleInside c = true) → w c b o = o)
    (items : JSValue) (base : String) (out : Props)
    (hi : 0 < items.height → noRuleInside items = true) :
    walkItems w items base out = out := by
  unfold walkItems
  apply foldl_fixed
  intro acc idx _
  have ha := opaque_get items idx hi
  simp only
  split_ifs with c1 c2 c3
  · simp only [Bool.and_eq_true] at c1
    have := opaque_rule_falsy _ (opaque_index _ 0 c1.1.1 ha)
    rw [this] at c1
    exact absurd c1.2 (by simp)
  · simp only [Bool.and_eq_true] at c2
    exact hw _ _ _ (opaque_index _ 0 c2.1.1.1.1 ha)
  · exact hw _ _ _ ha
  · rfl

theorem walkElements_skips (w : JSValue → String → Props → Props)
    (hw : ∀ c b o, (0 < c.height → noRuleInside c = true) → w c b o = o)
    (node : JSValue) (base : String) (out : Props) (ha : node.isArray = true)
    (hn : 0 < node.height → noRuleInside node = true) :
    walkElements w node base out = out := by
  unfold walkElements
  apply foldl_fixed
  intro acc i _
  have hi := opaque_index node i ha hn
  simp only
  split_ifs with c1 c2
  · simp only [Bool.and_eq_true] at c1
    have := opaque_rule_falsy _ hi
    rw [this] at c1
    exact absurd c1.1.2 (by simp)
  · exact hw _ _ _ hi
  · rfl

theorem walkStep_skips (w : JSValue → String → Props → Props)
    (hw : ∀ c b o, (0 < c.height → noRuleInside c = true) → w c b o = o)
    (node : JSValue) (base : String) (out : Props)
    (hn : 0 < node.height → noRuleInside node = true) :
    walkStep w node base out = out := by
  simp only [walkStep]
  split_ifs with c0 c1 c2 c3 c4 c5 c6 c7
  · rfl
  · exact walkItems_skips w hw _ _ _ (opaque_get node "items" hn)
  · rfl
  · simp only [Bool.and_eq_true] at c4
    have := opaque_rule_falsy _ (opaque_index node 0 c1 hn)
    rw [this] at c4
    exact absurd c4.1.2 (by simp)
  · exact hw _ _ _ (opaque_index node 0 c1 hn)
  · rw [walkElements_skips w hw node base out c1 hn]
    exact walkItems_skips w hw _ _ _ (opaque_get node "items" hn)
  · exact walkElements_skips w hw node base out c1 hn
  · apply foldl_fixed
    intro acc key _
    exact hw _ _ _ (opaque_get node key hn)
  · rfl

theorem walk_skips (fuel : Nat) :
    ∀ (node : JSValue) (base : String) (out : Props),
      (0 < node.height → noRuleInside node = true) → walk fuel node base out = out := by
  induction fuel with
  | zero => intro node base out _; rfl
  | succ n ih =>
    intro node base out hn
    rw [walk_succ]
    exact walkStep_skips _ ih node base out hn

/-- Walking a subtree without any rule-bearing object writes nothing. -/
theorem walkNode_skips (node : JSValue) (base : String) (out : Props)
    (h : noRuleInside node = true) : walkNode node base out = out :=
  walk_skips _ node base out fun _ => h

/-- Claim C16. Opaque subtrees are skipped without disturbing the rest: for
every field map `m`, every key `k` not in `m` (at any position) and every subtree
`o` that contains no object with a truthy `rule` property,
`flattenMoldErrorsToRHF(m ∪ {k: o}) = flattenMoldErrorsToRHF(m)`; and a tree with
no rule-bearing object flattens to `{}`. -/
theorem opaque_subtree_skipped (pre post : Props) (k : String) (o : JSValue)
    (hk : k ∉ (pre ++ post).map Prod.fst) (ho : noRuleInside o = true) :
    flattenMoldErrorsToRHF (obj (pre ++ (k, o) :: post))
        = flattenMoldErrorsToRHF (obj (pre ++ post))
    ∧ flattenMoldErrorsToRHF o = obj [] := by
  constructor
  · rw [flatten_of_truthy _ (truthy_obj _), flatten_of_truthy _ (truthy_obj _),
      walkNode_eq, walkNode_eq (obj (pre ++ post)), walkStep_obj, walkStep_obj,
      foldl_keys_insert_skip (fun out key v => walkNode v (joinPath "" key) out)
        pre post k o [] hk (fun acc => walkNode_skips o _ acc ho)]
  · unfold flattenMoldErrorsToRHF
    split_ifs
    · rfl
    · rw [walkNode_skips o "" [] ho]

theorem opaque_subtree_skipped_witness :
    "meta" ∉ ([("name", arr [obj [("rule", str "min"), ("message", str "Too short")]]
        none)] ++ ([] : Props)).map Prod.fst
    ∧ noRuleInside (obj [("someData", str "value"), ("count", num 3),
        ("flags", arr [JSValue.bool true, obj [("rule", str "")], JSValue.null]
          (some (obj [("0", str "x")])))]) = true
    ∧ flattenMoldErrorsToRHF (obj [("name",
          arr [obj [("rule", str "min"), ("message", str "Too short")]] none),
        ("meta", obj [("someData", str "value"), ("count", num 3),
          ("flags", arr [JSValue.bool true, obj [("rule", str "")], JSValue.null]
            (some (obj [("0", str "x")])))])])
      = flattenMoldErrorsToRHF (obj [("name",
          arr [obj [("rule", str "min"), ("message", str "Too short")]] none)])
    ∧ flattenMoldErrorsToRHF (obj [("someData", str "value"), ("count", num 3),
        ("flags", arr [JSValue.bool true, obj [("rule", str "")], JSValue.null]
          (some (obj [("0", str "x")])))]) = obj [] :=
  ⟨by decide, by decide,
    (opaque_subtree_skipped
      [("name", arr [obj [("rule", str "min"), ("message", str "Too short")]] none)] []
      "meta" _ (by decide) (by decide)).1,
    (opaque_subtree_skipped
      [("name", arr [obj [("rule", str "min"), ("message", str "Too short")]] none)] []
      "meta" _ (by decide) (by decide)).2⟩

/-! ## Claim C11: sparse pruning in mirror -/

theorem noNullEntries_of_primitive {v : JSValue} (h : isPrimitive v = true) :
    noNullEntries v = true := by
  cases v <;> simp_all [isPrimitive, noNullEntries, everywhere]

theorem noNullEntries_obj (props : Props) :
    noNullEntries (obj props) = true
      ↔ ∀ q ∈ props, q.2.neNull = true ∧ noNullEntries q.2 = true := by
  simp only [noNullEntries, everywhere, Bool.and_eq_true, List.all_eq_true,
    everywhereProps_iff]
  constructor
  · rintro ⟨h1, h2⟩ q hq
    exact ⟨h1 q hq, h2 q hq⟩
  · intro h
    exact ⟨fun q hq => (h q hq).1, fun q hq => (h q hq).2⟩

theorem mem_setProp (out : Props) (k : String) (v : JSValue) (q : String × JSValue)
    (hq : q ∈ setProp out k v) : q ∈ out ∨ q = (k, v) := by
  induction out with
  | nil => exact Or.inr (by simpa [setProp] using hq)
  | cons r rest ih =>
    obtain ⟨k', v'⟩ := r
    simp only [setProp] at hq
    split_ifs at hq
    · rcases List.mem_cons.mp hq with h | h
      · exact Or.inr h
      · exact Or.inl (List.mem_cons_of_mem _ h)
    · rcases List.mem_cons.mp hq with h | h
      · exact Or.inl (h ▸ List.mem_cons_self _ _)
      · rcases ih h with h' | h'
        · exact Or.inl (List.mem_cons_of_mem _ h')
        · exact Or.inr h'

/-- A loop of guarded assignments `if (sub != null) o[k] = sub` only stores
values that are neither `null` nor `undefined`. -/
theorem foldl_setProp_entries (P : JSValue → Prop) (val : String → JSValue)
    (l : List String) (hval : ∀ k ∈ l, P (val k)) :
    ∀ (init : Props), (∀ q ∈ init, q.2.neNull = true ∧ P q.2) →
      ∀ q ∈ l.foldl (fun out k => if (val k).neNull = true then setProp out k (val k)
          else out) init,
        q.2.neNull = true ∧ P q.2 := by
  induction l with
  | nil => intro init hinit q hq; exact hinit q hq
  | cons k ks ih =>
    intro init hinit
    rw [List.foldl_cons]
    apply ih (fun k' hk' => hval k' (List.mem_cons_of_mem _ hk'))
    intro q hq
    split_ifs at hq with hn
    · rcases mem_setProp _ _ _ _ hq with h | h
      · exact hinit q h
      · subst h
        exact ⟨hn, hval k (List.mem_cons_self _ _)⟩
    · exact hinit q hq

theorem clean_get (v : JSValue) (k : String)
    (h : 0 < v.height → cleanMessages v = true) :
    0 < (v.get k).height → cleanMessages (v.get k) = true := fun hpos =>
  everywhere_get _ v k (h (lt_of_lt_of_le hpos (height_get_le v k))) hpos

theorem clean_index (v : JSValue) (i : Nat) (ha : v.isArray = true)
    (h : 0 < v.height → cleanMessages v = true) :
    0 < (v.index i).height → cleanMessages (v.index i) = true := fun hpos =>
  everywhere_index _ v i (h (height_pos_of_isArray ha)) ha (truthy_of_height_pos hpos)

/-- In a tree with clean messages, the message copied out of an array node holds
no `null` or `undefined` entry. -/
theorem clean_copied (node : JSValue) (ha : node.isArray = true)
    (h : 0 < node.height → cleanMessages node = true) :
    noNullEntries (copiedMessage node) = true := by
  have hs := everywhere_self (fun w => !w.isArray || noNullEntries (copiedMessage w)) node
    (h (height_pos_of_isArray ha))
  simpa [ha] using hs

theorem convertItems_entries (c : JSValue → JSValue) (items : JSValue)
    (hc : ∀ k, noNullEntries (c (items.get k)) = true) :
    ∀ q ∈ convertItems c items, q.2.neNull = true ∧ noNullEntries q.2 = true := by
  unfold convertItems
  exact foldl_setProp_entries (fun v => noNullEntries v = true) (fun k => c (items.get k))
    _ (fun k _ => hc k) [] (fun q hq => by simp at hq)

theorem convertStep_noNullEntries (c : JSValue → JSValue)
    (hc : ∀ v, (0 < v.height → cleanMessages v = true) → noNullEntries (c v) = true)
    (node : JSValue) (hn : 0 < node.height → cleanMessages node = true) :
    noNullEntries (convertStep c node) = true := by
  have hitems : noNullEntries (obj (convertItems c (node.get "items"))) = true :=
    (noNullEntries_obj _).mpr (convertItems_entries c _ fun k =>
      hc _ (clean_get _ k (clean_get node "items" hn)))
  have hleafmsg : node.isArray = true →
      ((node.index 0).truthy && ((node.index 0).get "rule").truthy
        && ((node.index 0).get "message").truthy) = true →
      noNullEntries ((node.index 0).get "message") = true := by
    intro ha hl
    have hcm := clean_copied node ha hn
    have hleaf : isLeaf (node.index 0) = true := hl
    simpa [copiedMessage, hleaf] using hcm
  have hmsgs : node.isArray = true →
      ¬ ((node.index 0).truthy && ((node.index 0).get "rule").truthy
        && ((node.index 0).get "message").truthy) = true →
      ¬ (node.length == 1 && (node.index 0).truthy && (node.index 0).isObjectType
        && !((node.index 0).get "rule").truthy) = true →
      noNullEntries (((node.elems.filter fun e => e.truthy && (e.get "message").truthy).map
        (fun e => e.get "message")).getD 0 JSValue.undefined) = true := by
    intro ha hl hw
    have hcm := clean_copied node ha hn
    have hleaf : ¬ isLeaf (node.index 0) = true := hl
    have hwrap : ¬ isObjectWrapper node = true := hw
    simpa [copiedMessage, hleaf, hwrap] using hcm
  simp only [convertStep]
  split_ifs with h0 h1 h2 h3 h4 h5 h6 h7 h8 h9 h10
  all_goals first
    | rfl
    | exact hitems
    | exact hmsgs h1 (by assumption) (by assumption)
    | exact hc _ (clean_index node 0 h1 hn)
    | exact hleafmsg h1 (by assumption)
    | exact (noNullEntries_obj _).mpr
        (foldl_setProp_entries (fun v => noNullEntries v = true)
          (fun k => c (node.get k)) _ (fun k _ => hc _ (clean_get node k hn)) []
          (fun q hq => by simp at hq))

theorem convert_noNullEntries (fuel : Nat) :
    ∀ (node : JSValue), (0 < node.height → cleanMessages node = true) →
      noNullEntries (convert fuel node) = true := by
  induction fuel with
  | zero => intro node _; rfl
  | succ n ih => intro node hn; exact convertStep_noNullEntries _ ih node hn

/-- Claim C11 fails as stated: a `message` is copied into the result as it is, so
a message that is itself a structure brings its own entries along. Here the first
element of the array under `form` has a truthy `rule` and a truthy `message`, the
message being an array that holds an object with `context: null`; the mirrored
value is `{form: [{rule, message, context: null}]}`, which holds a mapping with a
`null` entry. -/
theorem mirror_sparse_pruning_counterexample :
    transformMoldErrorsToFormik (obj [("form", arr [obj [
        ("rule", arr [obj [("rule", str "r"), ("message", str "m")]] none),
        ("message", arr [obj [("rule", str "validateRequired"), ("message", str "Required"),
          ("context", JSValue.null)]] none)]] none)])
      = obj [("form", arr [obj [("rule", str "validateRequired"), ("message", str "Required"),
          ("context", JSValue.null)]] none)]
    ∧ noNullEntries (transformMoldErrorsToFormik (obj [("form", arr [obj [
        ("rule", arr [obj [("rule", str "r"), ("message", str "m")]] none),
        ("message", arr [obj [("rule", str "validateRequired"), ("message", str "Required"),
          ("context", JSValue.null)]] none)]] none)])) = false :=
  ⟨by rfl, by rfl⟩

/-- Claim C11, amended. Sparse pruning: for every input tree in which each
message that `convert` copies out of an array (the `message` of a leaf first
element; otherwise, unless the array is a single-element object wrapper, the
first truthy `message` among its elements) holds no mapping with a `null` or
`undefined` entry, as is the case whenever these messages are strings: no mapping
anywhere inside the value returned by `transformMoldErrorsToFormik`, at the root
or nested at any depth, holds a key whose value is `undefined` or `null`. -/
theorem mirror_sparse_pruning (t : JSValue) (hmsg : cleanMessages t = true) :
    noNullEntries (transformMoldErrorsToFormik t) = true := by
  unfold transformMoldErrorsToFormik
  split_ifs
  · rfl
  · exact convert_noNullEntries _ t fun _ => hmsg
  · rfl

theorem mirror_sparse_pruning_witness :
    cleanMessages (obj [("parent", obj [("child", arr [] none),
        ("gone", JSValue.null),
        ("message", arr [obj [("rule", str "email"), ("message", str "Invalid email")]]
          none)]),
      ("tags", arr [] (some (obj [("0", arr [] none),
        ("1", arr [obj [("rule", str "isEmpty"), ("message", str "Empty")]] none)])))])
      = true
    ∧ noNullEntries (transformMoldErrorsToFormik (obj [("parent", obj [
        ("child", arr [] none), ("gone", JSValue.null),
        ("message", arr [obj [("rule", str "email"), ("message", str "Invalid email")]]
          none)]),
      ("tags", arr [] (some (obj [("0", arr [] none),
        ("1", arr [obj [("rule", str "isEmpty"), ("message", str "Empty")]] none)])))]))
      = true :=
  ⟨by decide, mirror_sparse_pruning _ (by decide)⟩

/-! ## Claim C14: which empty branches mirror prunes -/

theorem get_obj_of_mem_keys (props : Props) (k : String) (hk : k ∈ props.map Prod.fst) :
    ∃ q ∈ props, (obj props).get k = q.2 := by
  induction props with
  | nil => simp at hk
  | cons r rest ih =>
    obtain ⟨k', v'⟩ := r
    by_cases hkk : k = k'
    · subst hkk
      exact ⟨(k, v'), List.mem_cons_self _ _, get_obj_cons_self _ _ _⟩
    · have hk' : k ∈ rest.map Prod.fst := by
        simpa [hkk] using hk
      obtain ⟨q, hq, hget⟩ := ih hk'
      exact ⟨q, List.mem_cons_of_mem _ hq, by rw [get_obj_cons_ne k k' v' rest hkk, hget]⟩

/-- Claim C14 fails for field maps: the object branch of `convert` returns the
mapping it built even when it is empty, so for `{parent: {child: []}}` the key
`parent` is present and maps to the empty mapping `{}`. -/
theorem mirror_prunes_empty_counterexample :
    transformMoldErrorsToFormik (obj [("parent", obj [("child", arr [] none)])])
      = obj [("parent", obj [])]
    ∧ (transformMoldErrorsToFormik (obj [("parent", obj [("child", arr [] none)])])).get
        "parent" = obj []
    ∧ transformMoldErrorsToFormik (obj [("parent", obj [("child", arr [] none)])])
      ≠ obj [] := by
  have h : transformMoldErrorsToFormik (obj [("parent", obj [("child", arr [] none)])])
      = obj [("parent", obj [])] := by rfl
  refine ⟨h, by rw [h]; rfl, ?_⟩
  rw [h]
  intro hc
  simp only [JSValue.obj.injEq] at hc
  cases hc

/-- Claim C14, amended. Mirror prunes an emptied index mapping but keeps an
emptied field map: when every child reduces to nothing, an empty array whose
`items` object holds these children reduces to `undefined` and its parent omits
the key; a field map holding these children reduces to the empty mapping `{}`,
which its parent keeps (`{k: {}}`). -/
theorem mirror_prunes_items_not_fields (children : Props) (k : String)
    (h : ∀ q ∈ children, (mirror q.2).neNull = false) :
    mirror (arr [] (some (obj children))) = JSValue.undefined
    ∧ transformMoldErrorsToFormik (obj [(k, arr [] (some (obj children)))]) = obj []
    ∧ mirror (obj children) = obj []
    ∧ transformMoldErrorsToFormik (obj [(k, obj children)]) = obj [(k, obj [])] := by
  have hstep : ∀ (acc : Props), ∀ key ∈ children.map Prod.fst,
      (if (mirror ((obj children).get key)).neNull = true
        then setProp acc key (mirror ((obj children).get key)) else acc) = acc := by
    intro acc key hkey
    obtain ⟨q, hq, hget⟩ := get_obj_of_mem_keys children key hkey
    rw [hget, h q hq]
    simp
  have hitems : convertItems mirror (obj children) = [] := by
    unfold convertItems
    exact foldl_fixed _ _ _ hstep
  have harr : mirror (arr [] (some (obj children))) = JSValue.undefined := by
    rw [mirror_eq]
    simp [convertStep_arr_nil, hitems]
  have hobj : mirror (obj children) = obj [] := by
    rw [mirror_eq, convertStep_obj]
    exact congrArg obj (foldl_fixed _ _ _ hstep)
  refine ⟨harr, ?_, hobj, ?_⟩
  · rw [transform_of_truthy _ (truthy_obj _), mirror_eq, convertStep_obj]
    simp [harr]
  · rw [transform_of_truthy _ (truthy_obj _), mirror_eq, convertStep_obj]
    simp [hobj, setProp]

theorem mirror_prunes_items_not_fields_witness :
    (∀ q ∈ [("child", arr [] none), ("0", JSValue.null)], (mirror q.2).neNull = false)
    ∧ transformMoldErrorsToFormik (obj [("parent",
        arr [] (some (obj [("child", arr [] none), ("0", JSValue.null)])))]) = obj []
    ∧ transformMoldErrorsToFormik (obj [("parent",
        obj [("child", arr [] none), ("0", JSValue.null)])])
      = obj [("parent", obj [])] :=
  ⟨by decide,
    (mirror_prunes_items_not_fields [("child", arr [] none), ("0", JSValue.null)] "parent"
      (by decide)).2.1,
    (mirror_prunes_items_not_fields [("child", arr [] none), ("0", JSValue.null)] "parent"
      (by decide)).2.2.2⟩

/-! ## Claim C18: completeness of the flatten records -/

/-- Claim C18 at its failing inputs. The `items` loop of `walk` tests only
`arrErr[0].rule`: a first element with an empty or missing `message` is recorded
with that empty or `undefined` message, while the same leaf group placed
directly under a field is not recorded at all (the leaf test there requires
`rule && message`). -/
theorem flatten_items_incomplete_record :
    flattenMoldErrorsToRHF (obj [("tags", arr [] (some (obj [("0",
        arr [obj [("rule", str "isEmpty"), ("message", str "")]] none)])))])
      = obj [("tags.0", obj [("type", str "isEmpty"), ("message", str "")])]
    ∧ flattenMoldErrorsToRHF (obj [("tags", arr [] (some (obj [("0",
        arr [obj [("rule", str "isEmpty")]] none)])))])
      = obj [("tags.0", obj [("type", str "isEmpty"), ("message", JSValue.undefined)])]
    ∧ flattenMoldErrorsToRHF (obj [("tags",
        arr [obj [("rule", str "isEmpty"), ("message", str "")]] none)])
      = obj [] := by
  refine ⟨by rfl, by rfl, by rfl⟩

/-! ## Claim C20: `ValidationError` -/

/-- Claim C20. For every value `e`, `new ValidationError(e)` is an `Error`
(its class chain contains `Error`) whose `name` is `"ValidationError"`, whose
`message` is `"Validation failed"` and whose `errors` field is `e` unchanged. -/
theorem validationError_fields (e : JSValue) :
    "Error" ∈ (ValidationError e).classes
    ∧ (ValidationError e).name = "ValidationError"
    ∧ (ValidationError e).message = "Validation failed"
    ∧ (ValidationError e).errors = e := by
  refine ⟨?_, rfl, rfl, rfl⟩
  simp [ValidationError, newError]

/-! ## Footprint of `walk`: only keys at or below the path are assigned -/

theorem lookup_setProp_self (out : Props) (k : String) (v : JSValue) :
    (setProp out k v).lookup k = some v := by
  induction out with
  | nil => simp [setProp, List.lookup]
  | cons r rest ih =>
    obtain ⟨k', v'⟩ := r
    simp only [setProp]
    split_ifs with h
    · simp [List.lookup]
    · have hne : (k == k') = false := by simpa using fun hh : k = k' => h hh.symm
      simp [List.lookup, hne, ih]

theorem lookup_setProp_ne (out : Props) (k key : String) (v : JSValue) (h : key ≠ k) :
    (setProp out k v).lookup key = out.lookup key := by
  induction out with
  | nil =>
    have hne : (key == k) = false := by simpa using h
    simp [setProp, List.lookup, hne]
  | cons r rest ih =>
    obtain ⟨k', v'⟩ := r
    simp only [setProp]
    split_ifs with hk
    · subst hk
      have hne : (key == k') = false := by simpa using h
      simp [List.lookup, hne]
    · by_cases hkk : key = k'
      · subst hkk
        simp [List.lookup]
      · have hne : (key == k') = false := by simpa using hkk
        simp [List.lookup, hne, ih]

theorem underPath_self (base : String) : underPath base base := Or.inl rfl

theorem underPath_joinPath (base k key : String) (hb : base ≠ "")
    (h : underPath (joinPath base k) key) : underPath base key := by
  rw [joinPath_of_ne hb] at h
  rcases h with h | ⟨rest, h⟩
  · exact Or.inr ⟨k, h⟩
  · exact Or.inr ⟨k ++ "." ++ rest, by rw [h]; simp [String.append_assoc]⟩

theorem foldl_lookup_preserved {α : Type} (f : Props → α → Props) (l : List α)
    (key : String) (h : ∀ acc, ∀ x ∈ l, (f acc x).lookup key = acc.lookup key) :
    ∀ init, (l.foldl f init).lookup key = init.lookup key := by
  induction l with
  | nil => intro init; rfl
  | cons x xs ih =>
    intro init
    rw [List.foldl_cons, ih (fun acc y hy => h acc y (List.mem_cons_of_mem _ hy)),
      h init x (List.mem_cons_self _ _)]

/-- The `items` loop leaves a key alone when no index path reaches it. -/
theorem walkItems_preserves (w : JSValue → String → Props → Props) (key : String)
    (hw : ∀ c b o, b ≠ "" → ¬ underPath b key → (w c b o).lookup key = o.lookup key)
    (items : JSValue) (base : String) (out : Props) (hb : base ≠ "")
    (hkey : ∀ idx ∈ items.keys, ¬ underPath (joinPath base idx) key) :
    (walkItems w items base out).lookup key = out.lookup key := by
  unfold walkItems
  apply foldl_lookup_preserved
  intro acc idx hidx
  have hnu := hkey idx hidx
  have hne : joinPath base idx ≠ "" := joinPath_ne_empty hb idx
  simp only
  split_ifs
  · exact lookup_setProp_ne _ _ _ _ fun h => hnu (h ▸ underPath_self _)
  · exact hw _ _ _ hne hnu
  · exact hw _ _ _ hne hnu
  · rfl

/-- The element loop leaves a key alone when no position path reaches it. -/
theorem walkElements_preserves (w : JSValue → String → Props → Props) (key : String)
    (hw : ∀ c b o, b ≠ "" → ¬ underPath b key → (w c b o).lookup key = o.lookup key)
    (node : JSValue) (base : String) (out : Props) (hb : base ≠ "")
    (hkey : ∀ i : Nat, ¬ underPath (joinPath base (toString i)) key) :
    (walkElements w node base out).lookup key = out.lookup key := by
  unfold walkElements
  apply foldl_lookup_preserved
  intro acc i _
  have hnu := hkey i
  have hne : joinPath base (toString i) ≠ "" := joinPath_ne_empty hb _
  simp only
  split_ifs
  · exact lookup_setProp_ne _ _ _ _ fun h => hnu (h ▸ underPath_self _)
  · exact hw _ _ _ hne hnu
  · rfl

theorem walkStep_footprint (w : JSValue → String → Props → Props) (key : String)
    (hw : ∀ c b o, b ≠ "" → ¬ underPath b key → (w c b o).lookup key = o.lookup key)
    (node : JSValue) (base : String) (out : Props) (hb : base ≠ "")
    (hkey : ¬ underPath base key) :
    (walkStep w node base out).lookup key = out.lookup key := by
  have hsub : ∀ k : String, ¬ underPath (joinPath base k) key := fun k h =>
    hkey (underPath_joinPath base k key hb h)
  simp only [walkStep]
  split_ifs
  · rfl
  · exact walkItems_preserves w key hw _ base out hb fun idx _ => hsub idx
  · rfl
  · exact lookup_setProp_ne _ _ _ _ fun h => hkey (h ▸ underPath_self _)
  · exact hw _ _ _ hb hkey
  · rw [walkItems_preserves w key hw _ base _ hb fun idx _ => hsub idx]
    exact walkElements_preserves w key hw node base out hb fun i => hsub _
  · exact walkElements_preserves w key hw node base out hb fun i => hsub _
  · apply foldl_lookup_preserved
    intro acc k _
    exact hw _ _ _ (joinPath_ne_empty hb k) (hsub k)
  · rfl

theorem walk_footprint (fuel : Nat) (key : String) :
    ∀ (node : JSValue) (base : String) (out : Props), base ≠ "" → ¬ underPath base key →
      (walk fuel node base out).lookup key = out.lookup key := by
  induction fuel with
  | zero => intro node base out _ _; rfl
  | succ n ih =>
    intro node base out hb hkey
    rw [walk_succ]
    exact walkStep_footprint _ key ih node base out hb hkey

/-- A call `walk(node, basePath)` with a non-empty path assigns only keys at or
below that path. -/
theorem walkNode_footprint (key : String) (node : JSValue) (base : String) (out : Props)
    (hb : base ≠ "") (hkey : ¬ underPath base key) :
    (walkNode node base out).lookup key = out.lookup key :=
  walk_footprint _ key node base out hb hkey

/-- Under a non-empty field, the path of position `i` is neither the path of
another index nor below it. -/
theorem not_underPath_sibling (f idx : String) (i : Nat) (hf : f ≠ "")
    (hne : idx ≠ toString i) :
    ¬ underPath (joinPath f idx) (joinPath f (toString i)) := by
  rw [joinPath_of_ne hf, joinPath_of_ne hf]
  rintro (h | ⟨rest, h⟩)
  · rw [String.append_assoc, String.append_assoc] at h
    exact hne (string_append_right_cancel "." _ _ (string_append_right_cancel f _ _ h)).symm
  · rw [String.append_assoc, String.append_assoc, String.append_assoc f,
      String.append_assoc f] at h
    have h2 := string_append_right_cancel "." _ _ (string_append_right_cancel f _ _ h)
    have hdot : '.' ∈ (toString i : String).data := by
      rw [h2]
      simp
    have := toString_nat_isDigit i '.' hdot
    exact absurd this (by decide)

theorem foldl_sets_key {α : Type} (step : Props → α → Props) (key : String) (r : JSValue)
    (i : α) (l : List α) (hi : i ∈ l)
    (hset : ∀ acc, (step acc i).lookup key = some r)
    (hpres : ∀ acc, ∀ j ∈ l, j ≠ i → (step acc j).lookup key = acc.lookup key) :
    ∀ init, (l.foldl step init).lookup key = some r := by
  induction l with
  | nil => simp at hi
  | cons j js ih =>
    intro init
    rw [List.foldl_cons]
    by_cases hmem : i ∈ js
    · exact ih hmem (fun acc x hx hne => hpres acc x (List.mem_cons_of_mem _ hx) hne) _
    · have hij : i = j := by
        rcases List.mem_cons.mp hi with h | h
        · exact h
        · exact absurd h hmem
      subst hij
      rw [foldl_lookup_preserved step js key
        (fun acc x hx => hpres acc x (List.mem_cons_of_mem _ hx)
          (fun h => hmem (h ▸ hx)))]
      exact hset init

/-! ## Claim C15: direct leaves of a hybrid array -/

/-- Under a field, a hybrid array (two or more elements, the first not a leaf)
runs the element loop and then the `items` loop. -/
theorem flatten_hybrid (f : String) (es : List JSValue) (items : Option JSValue)
    (hlen : 2 ≤ es.length) (hfirst : isLeaf (es.getD 0 JSValue.undefined) = false) :
    flattenMoldErrorsToRHF (obj [(f, arr es items)])
      = obj (if (items.getD JSValue.undefined).truthy = true
          then walkItems walkNode (items.getD JSValue.undefined) f
            (walkElements walkNode (arr es items) f [])
          else walkElements walkNode (arr es items) f []) := by
  have h0 : (es.length == 0) = false := by
    simp only [beq_eq_false_iff_ne]
    omega
  have h1 : (es.length == 1) = false := by
    simp only [beq_eq_false_iff_ne]
    omega
  have hl : (((arr es items).index 0).truthy
      && (((arr es items).index 0).get "rule").truthy
      && (((arr es items).index 0).get "message").truthy) = false := hfirst
  rw [flatten_of_truthy _ (truthy_obj _), walkNode_eq, walkStep_obj]
  simp only [List.map_cons, List.map_nil, List.foldl_cons, List.foldl_nil,
    get_obj_cons_self, joinPath_empty]
  rw [walkNode_eq]
  simp only [walkStep, truthy_arr, isArray_arr, length_arr, h0, h1, hl, get_arr_items,
    Bool.not_true, Bool.false_eq_true, if_false, if_true, Bool.false_and]

/-- Claim C15 fails when the array also carries an `items` entry at the same
index: the `items` loop runs after the element loop and replaces the entry, so
`"data.1"` holds the record of `items[1][0]`, not that of the direct leaf `a[1]`. -/
theorem hybrid_leaf_counterexample :
    (flattenMoldErrorsToRHF (obj [("data",
        arr [obj [("someData", str "value")],
          obj [("rule", str "validateRequired"), ("message", str "Required")]]
        (some (obj [("1", arr [obj [("rule", str "isEmpty"), ("message", str "Empty")]]
          none)])))])).get "data.1"
      = obj [("type", str "isEmpty"), ("message", str "Empty")]
    ∧ (flattenMoldErrorsToRHF (obj [("data",
        arr [obj [("someData", str "value")],
          obj [("rule", str "validateRequired"), ("message", str "Required")]]
        (some (obj [("1", arr [obj [("rule", str "isEmpty"), ("message", str "Empty")]]
          none)])))])).get "data.1"
      ≠ obj [("type", str "validateRequired"), ("message", str "Required")] := by
  have h : (flattenMoldErrorsToRHF (obj [("data",
        arr [obj [("someData", str "value")],
          obj [("rule", str "validateRequired"), ("message", str "Required")]]
        (some (obj [("1", arr [obj [("rule", str "isEmpty"), ("message", str "Empty")]]
          none)])))])).get "data.1"
      = obj [("type", str "isEmpty"), ("message", str "Empty")] := by rfl
  refine ⟨h, ?_⟩
  rw [h]
  intro hc
  simp only [JSValue.obj.injEq, List.cons.injEq, Prod.mk.injEq, JSValue.str.injEq] at hc
  exact absurd hc.1.2 (by decide)

/-- Claim C15, amended. For every non-empty field name `f` and every array `a`
of length at least 2 whose first element is not a leaf: each element `a[i]` that
is an object with truthy `rule` and `message` yields the flatten entry
`"f." + String(i) ↦ {type: a[i].rule, message: a[i].message}`, provided the
`items` property of the array (if any) has no key `String(i)`; and when the array
has no `items` and every element is a leaf or contains no rule-bearing object,
the output consists of exactly the entries of the leaves, in position order. -/
theorem hybrid_leaf_keyed_by_position (f : String) (es : List JSValue)
    (items : Option JSValue) (hf : f ≠ "") (hlen : 2 ≤ es.length)
    (hfirst : isLeaf (es.getD 0 JSValue.undefined) = false) :
    (∀ (i : Nat) (p : Props), es.getD i JSValue.undefined = obj p →
      isLeaf (obj p) = true → toString i ∉ (items.getD JSValue.undefined).keys →
      (flattenMoldErrorsToRHF (obj [(f, arr es items)])).get (f ++ "." ++ toString i)
        = obj [("type", (obj p).get "rule"), ("message", (obj p).get "message")])
    ∧ ((∀ e ∈ es, isLeaf e = true ∨ noRuleInside e = true) →
      flattenMoldErrorsToRHF (obj [(f, arr es none)])
        = obj (((List.range es.length).filter
            fun j => isLeaf (es.getD j JSValue.undefined)).map
            fun j => (f ++ "." ++ toString j, leafRecord (es.getD j JSValue.undefined)))) := by
  constructor
  · intro i p hi hleaf hitems
    have hilt : i < es.length := by
      by_contra hge
      rw [List.getD_eq_default es JSValue.undefined (by omega)] at hi
      cases hi
    have hkey : joinPath f (toString i) = f ++ "." ++ toString i := joinPath_of_ne hf _
    have hloop : ∀ out, (walkElements walkNode (arr es items) f out).lookup
        (joinPath f (toString i)) = some (leafRecord (obj p)) := by
      intro out
      unfold walkElements
      apply foldl_sets_key _ _ _ i _ (by simpa using hilt)
      · intro acc
        have hl : ((obj p).truthy && ((obj p).get "rule").truthy
            && ((obj p).get "message").truthy) = true := hleaf
        simp only [JSValue.index, hi, hl, if_true]
        exact lookup_setProp_self _ _ _
      · intro acc j _ hj
        have hnu : ¬ underPath (joinPath f (toString j)) (joinPath f (toString i)) :=
          not_underPath_sibling f (toString j) i hf
            (fun h => hj (toString_nat_injective j i h))
        simp only
        split_ifs
        · exact lookup_setProp_ne _ _ _ _ fun h => hnu (h ▸ underPath_self _)
        · exact walkNode_footprint _ _ _ _ (joinPath_ne_empty hf _) hnu
        · rfl
    rw [flatten_hybrid f es items hlen hfirst, get_obj, ← hkey]
    split_ifs
    · rw [walkItems_preserves walkNode _
        (fun c b o hb hk => walkNode_footprint _ c b o hb hk) _ f _ hf
        (fun idx hidx => not_underPath_sibling f idx i hf
          (fun h => hitems (h ▸ hidx))), hloop]
      rfl
    · rw [hloop]
      rfl
  · intro hall
    rw [flatten_hybrid f es none hlen hfirst]
    simp only [Option.getD_none, truthy_undefined, Bool.false_eq_true, if_false]
    have hloop : walkElements walkNode (arr es none) f []
        = (List.range es.length).foldl (fun acc j =>
          if (((arr es none).index j).truthy && (((arr es none).index j).get "rule").truthy
              && (((arr es none).index j).get "message").truthy) = true then
            setProp acc (joinPath f (toString j)) (leafRecord ((arr es none).index j))
          else if (((arr es none).index j).truthy && ((arr es none).index j).isObjectType
              && !((arr es none).index j).isArray
              && !(((arr es none).index j).get "rule").truthy) = true then
            walkNode ((arr es none).index j) (joinPath f (toString j)) acc
          else acc) [] := rfl
    have hstep : ∀ (acc : Props), ∀ j ∈ List.range es.length,
        (if (((arr es none).index j).truthy && (((arr es none).index j).get "rule").truthy
            && (((arr es none).index j).get "message").truthy) = true then
          setProp acc (joinPath f (toString j)) (leafRecord ((arr es none).index j))
        else if (((arr es none).index j).truthy && ((arr es none).index j).isObjectType
            && !((arr es none).index j).isArray
            && !(((arr es none).index j).get "rule").truthy) = true then
          walkNode ((arr es none).index j) (joinPath f (toString j)) acc
        else acc)
        = (if (fun j => isLeaf (es.getD j JSValue.undefined)) j = true then
            setProp acc (f ++ "." ++ toString j) (leafRecord (es.getD j JSValue.undefined))
          else acc) := by
      intro acc j hj
      have hjlt : j < es.length := by simpa using hj
      have hmem : es.getD j JSValue.undefined ∈ es := by
        rw [List.getD_eq_getElem es JSValue.undefined hjlt]
        exact List.getElem_mem hjlt
      simp only [JSValue.index, joinPath_of_ne hf]
      by_cases hl : isLeaf (es.getD j JSValue.undefined) = true
      · have hl' : ((es.getD j JSValue.undefined).truthy
            && ((es.getD j JSValue.undefined).get "rule").truthy
            && ((es.getD j JSValue.undefined).get "message").truthy) = true := hl
        simp only [hl, hl', if_true]
      · have hl' : ((es.getD j JSValue.undefined).truthy
            && ((es.getD j JSValue.undefined).get "rule").truthy
            && ((es.getD j JSValue.undefined).get "message").truthy) = false := by
          simpa [isLeaf] using hl
        have hop : noRuleInside (es.getD j JSValue.undefined) = true := by
          rcases hall _ hmem with h | h
          · exact absurd h hl
          · exact h
        simp only [hl, hl', Bool.false_eq_true, if_false]
        split_ifs
        · exact walkNode_skips _ _ _ hop
        · rfl
    rw [hloop, List.foldl_ext _ _ _ hstep,
      foldl_setProp_eq_append (fun j => isLeaf (es.getD j JSValue.undefined))
        (fun j => f ++ "." ++ toString j)
        (fun j => leafRecord (es.getD j JSValue.undefined)) (List.range es.length) []]
    · simp
    · simp only [List.map_nil, List.nil_append]
      apply (List.nodup_range es.length).map
      intro a b hab
      simp only [String.append_assoc] at hab
      exact toString_nat_injective a b
        (string_append_right_cancel "." _ _ (string_append_right_cancel f _ _ hab))

theorem hybrid_leaf_keyed_by_position_witness :
    "complex" ≠ ""
    ∧ isLeaf ([obj [("metadata", str "info")],
        obj [("nested", obj [("field", arr [obj [("rule", str "nestedRule"),
          ("message", str "Nested message")]] none)])],
        obj [("rule", str "directRule"), ("message", str "Direct message")]].getD 0
          JSValue.undefined) = false
    ∧ isLeaf (obj [("rule", str "directRule"), ("message", str "Direct message")]) = true
    ∧ toString 2 ∉ ((some (obj [("1", arr [obj [("rule", str "isEmpty"),
        ("message", str "Empty")]] none)])).getD JSValue.undefined).keys
    ∧ (flattenMoldErrorsToRHF (obj [("complex", arr [obj [("metadata", str "info")],
        obj [("nested", obj [("field", arr [obj [("rule", str "nestedRule"),
          ("message", str "Nested message")]] none)])],
        obj [("rule", str "directRule"), ("message", str "Direct message")]]
        (some (obj [("1", arr [obj [("rule", str "isEmpty"), ("message", str "Empty")]]
          none)])))])).get ("complex" ++ "." ++ toString 2)
      = obj [("type", str "directRule"), ("message", str "Direct message")] :=
  ⟨by decide, by decide, by decide, by decide,
    (hybrid_leaf_keyed_by_position "complex"
      [obj [("metadata", str "info")],
        obj [("nested", obj [("field", arr [obj [("rule", str "nestedRule"),
          ("message", str "Nested message")]] none)])],
        obj [("rule", str "directRule"), ("message", str "Direct message")]]
      (some (obj [("1", arr [obj [("rule", str "isEmpty"), ("message", str "Empty")]]
          none)]))
      (by decide) (by decide) (by decide)).1 2
      [("rule", str "directRule"), ("message", str "Direct message")] rfl (by decide)
      (by decide)⟩

/-! ## Joining and splitting dot paths -/

theorem intercalate_go_data (xs : List String) : ∀ acc : String,
    (String.intercalate.go acc "." xs).data
      = acc.data ++ (xs.map fun a => '.' :: a.data).flatten := by
  induction xs with
  | nil => intro acc; simp [String.intercalate.go]
  | cons a xs ih =>
    intro acc
    rw [String.intercalate.go, ih]
    simp [String.data_append]

theorem list_intercalate_cons (a : List Char) (l : List (List Char)) :
    ['.'].intercalate (a :: l) = a ++ (l.map fun b => '.' :: b).flatten := by
  induction l generalizing a with
  | nil => simp [List.intercalate]
  | cons b l ih =>
    have h := ih b
    simp only [List.intercalate, List.intersperse, List.flatten_cons] at h ⊢
    rw [h]
    simp

theorem intercalate_data_cons (a : String) (xs : List String) :
    (String.intercalate "." (a :: xs)).data
      = ['.'].intercalate ((a :: xs).map String.data) := by
  rw [String.intercalate, intercalate_go_data, List.map_cons, list_intercalate_cons,
    List.map_map]
  rfl

theorem plainName_iff (k : String) :
    plainName k = true ↔ k ≠ "" ∧ '.' ∉ k.data := by
  simp [plainName]

/-- Joining plain names with `"."` loses nothing: the joined string determines
the names. -/
theorem intercalate_injective (xs ys : List String)
    (hx : ∀ k ∈ xs, plainName k = true) (hy : ∀ k ∈ ys, plainName k = true)
    (h : String.intercalate "." xs = String.intercalate "." ys) : xs = ys := by
  have hne : ∀ (a : String) (l : List String), plainName a = true →
      String.intercalate "." (a :: l) ≠ "" := by
    intro a l ha hh
    have hd := congrArg String.data hh
    rw [String.intercalate, intercalate_go_data] at hd
    have : a.data = [] := (List.append_eq_nil.mp hd).1
    exact ((plainName_iff a).mp ha).1 (String.ext this)
  cases xs with
  | nil =>
    cases ys with
    | nil => rfl
    | cons b ys => exact absurd h.symm (hne b ys (hy b (List.mem_cons_self _ _)))
  | cons a xs =>
    cases ys with
    | nil => exact absurd h (hne a xs (hx a (List.mem_cons_self _ _)))
    | cons b ys =>
      have hd := congrArg String.data h
      rw [intercalate_data_cons, intercalate_data_cons] at hd
      have hdx : ∀ l ∈ (a :: xs).map String.data, '.' ∉ l := by
        intro l hl
        obtain ⟨k, hk, rfl⟩ := List.mem_map.mp hl
        exact ((plainName_iff k).mp (hx k hk)).2
      have hdy : ∀ l ∈ (b :: ys).map String.data, '.' ∉ l := by
        intro l hl
        obtain ⟨k, hk, rfl⟩ := List.mem_map.mp hl
        exact ((plainName_iff k).mp (hy k hk)).2
      have hsx := List.splitOn_intercalate _ '.' hdx (by simp)
      have hsy := List.splitOn_intercalate _ '.' hdy (by simp)
      rw [hd, hsy] at hsx
      exact (List.map_injective_iff.mpr fun s t hst => String.ext hst) hsx.symm

/-! ## Claim C19: one flat entry per leaf group -/

/-- Induction over the field maps of a tree. -/
theorem fieldTree_induction (P : JSValue → Prop)
    (hobj : ∀ props : Props, (∀ q ∈ props, P q.2) → P (obj props))
    (hother : ∀ v : JSValue, (∀ props, v ≠ obj props) → P v) : ∀ t, P t := by
  have h : ∀ n : Nat, ∀ t : JSValue, t.height < n → P t := by
    intro n
    induction n with
    | zero => intro t ht; omega
    | succ n ih =>
      intro t ht
      cases t with
      | obj props =>
        apply hobj
        intro q hq
        apply ih
        simp only [height, Nat.add_lt_add_iff_right] at ht
        exact lt_of_le_of_lt (height_le_heightProps props q hq) ht
      | _ => exact hother _ (fun props hp => by cases hp)
  intro t
  exact h _ t (Nat.lt_succ_self _)

theorem leafPaths_of_not_obj (v : JSValue) (h : ∀ props, v ≠ obj props) :
    ∀ q ∈ leafPaths v, q.1 = [] := by
  intro q hq
  cases v with
  | obj props => exact absurd rfl (h props)
  | arr es items =>
    cases es with
    | nil => simp [leafPaths] at hq
    | cons e es =>
      simp only [leafPaths, List.mem_singleton] at hq
      rw [hq]
  | _ => simp [leafPaths] at hq

theorem mem_leafPathsProps (props : Props) (q : List String × JSValue)
    (hq : q ∈ leafPathsProps props) :
    ∃ r ∈ props, ∃ s ∈ leafPaths r.2, q = (r.1 :: s.1, s.2) := by
  induction props with
  | nil => simp [leafPathsProps] at hq
  | cons r rest ih =>
    obtain ⟨k, v⟩ := r
    simp only [leafPathsProps, List.mem_append, List.mem_map] at hq
    rcases hq with ⟨s, hs, rfl⟩ | hrest
    · exact ⟨(k, v), List.mem_cons_self _ _, s, hs, rfl⟩
    · obtain ⟨r, hr, s, hs, hqs⟩ := ih hrest
      exact ⟨r, List.mem_cons_of_mem _ hr, s, hs, hqs⟩

theorem plainNamesProps_iff (props : Props) :
    plainNamesProps props = true
      ↔ ∀ q ∈ props, plainName q.1 = true ∧ plainNames q.2 = true := by
  induction props with
  | nil => simp [plainNamesProps]
  | cons q rest ih =>
    obtain ⟨k, v⟩ := q
    simp [plainNamesProps, ih, and_assoc]

/-- The names on the path to a leaf group are plain when all names are. -/
theorem leafPaths_plain : ∀ t : JSValue, plainNames t = true →
    ∀ q ∈ leafPaths t, ∀ s ∈ q.1, plainName s = true := by
  apply fieldTree_induction
  · intro props ih hp q hq s hs
    simp only [plainNames, plainNamesProps_iff] at hp
    simp only [leafPaths] at hq
    obtain ⟨r, hr, u, hu, rfl⟩ := mem_leafPathsProps props q hq
    rcases List.mem_cons.mp hs with h | h
    · rw [h]
      exact (hp r hr).1
    · exact ih r hr (hp r hr).2 u hu s h
  · intro v hv _ q hq s hs
    rw [leafPaths_of_not_obj v hv q hq] at hs
    simp at hs

theorem leafPathsProps_nodup (props : Props) (hnd : (props.map Prod.fst).Nodup)
    (ih : ∀ q ∈ props, ((leafPaths q.2).map Prod.fst).Nodup) :
    ((leafPathsProps props).map Prod.fst).Nodup := by
  induction props with
  | nil => simp [leafPathsProps]
  | cons r rest ihl =>
    obtain ⟨k, v⟩ := r
    simp only [List.map_cons, List.nodup_cons] at hnd
    simp only [leafPathsProps, List.map_append, List.map_map]
    apply List.Nodup.append
    · have hv := ih (k, v) (List.mem_cons_self _ _)
      have : (leafPaths v).map (Prod.fst ∘ fun q => (k :: q.1, q.2))
          = ((leafPaths v).map Prod.fst).map (fun s => k :: s) := by
        simp [List.map_map, Function.comp_def]
      rw [this]
      exact hv.map fun a b hab => (List.cons.inj hab).2
    · exact ihl hnd.2 fun q hq => ih q (List.mem_cons_of_mem _ hq)
    · intro p hp1 hp2
      obtain ⟨s, _, hs⟩ := List.mem_map.mp hp1
      obtain ⟨q, hq, hq2⟩ := List.mem_map.mp hp2
      obtain ⟨r, hr, u, _, rfl⟩ := mem_leafPathsProps rest q hq
      simp only [Function.comp_apply] at hs
      rw [← hs] at hq2
      have hk : r.1 = k := (List.cons.inj hq2).1
      exact hnd.1 (hk ▸ List.mem_map.mpr ⟨r, hr, rfl⟩)

/-- Distinct leaf groups lie on distinct paths. -/
theorem leafPaths_nodup : ∀ t : JSValue, t.wellFormed = true →
    ((leafPaths t).map Prod.fst).Nodup := by
  apply fieldTree_induction
  · intro props ih hwf
    simp only [wellFormed, Bool.and_eq_true, decide_eq_true_eq, wellFormedProps_iff] at hwf
    simp only [leafPaths]
    exact leafPathsProps_nodup props hwf.1 fun q hq => ih q hq (hwf.2 q hq)
  · intro v hv _
    cases v with
    | obj props => exact absurd rfl (hv props)
    | arr es items => cases es <;> simp [leafPaths]
    | _ => simp [leafPaths]

theorem leafPathsProps_length (props : Props)
    (ih : ∀ q ∈ props, (leafPaths q.2).length = countLeafGroups q.2) :
    (leafPathsProps props).length = countLeafGroupsProps props := by
  induction props with
  | nil => rfl
  | cons r rest ihl =>
    obtain ⟨k, v⟩ := r
    simp only [leafPathsProps, countLeafGroupsProps, List.length_append, List.length_map]
    rw [ih (k, v) (List.mem_cons_self _ _),
      ihl fun q hq => ih q (List.mem_cons_of_mem _ hq)]

/-- The list `leafPaths` has one item per leaf group. -/
theorem leafPaths_length : ∀ t : JSValue, (leafPaths t).length = countLeafGroups t := by
  apply fieldTree_induction
  · intro props ih
    simp only [leafPaths, countLeafGroups]
    exact leafPathsProps_length props ih
  · intro v hv
    cases v with
    | obj props => exact absurd rfl (hv props)
    | arr es items => cases es <;> simp [leafPaths, countLeafGroups]
    | _ => simp [leafPaths, countLeafGroups]

theorem foldl_walk_props (w : JSValue → String → Props → Props) (base : String)
    (props : Props)
    (hw : ∀ q ∈ props, ∀ b o, w q.2 b o
      = (leafPaths q.2).foldl (fun o r => setProp o (r.1.foldl joinPath b) (leafRecord r.2)) o) :
    ∀ out, props.foldl (fun o q => w q.2 (joinPath base q.1) o) out
      = (leafPathsProps props).foldl
          (fun o r => setProp o (r.1.foldl joinPath base) (leafRecord r.2)) out := by
  induction props with
  | nil => intro out; rfl
  | cons r rest ih =>
    intro out
    obtain ⟨k, v⟩ := r
    simp only [List.foldl_cons, leafPathsProps, List.foldl_append, List.foldl_map]
    rw [ih fun q hq => hw q (List.mem_cons_of_mem _ hq), hw (k, v) (List.mem_cons_self _ _)]

/-- On a tree of field maps `walk` assigns, in order, one record per leaf group,
under the path folded from the base path and the field names. -/
theorem walk_fieldTree (fuel : Nat) :
    ∀ (t : JSValue) (base : String) (out : Props), isFieldTree t = true →
      t.wellFormed = true → t.height < fuel →
      walk fuel t base out
        = (leafPaths t).foldl
            (fun o r => setProp o (r.1.foldl joinPath base) (leafRecord r.2)) out := by
  induction fuel with
  | zero => intro t base out _ _ h; omega
  | succ n ih =>
    intro t base out hft hwf hh
    cases t with
    | obj props =>
      simp only [isFieldTree, isFieldTreeProps_iff] at hft
      simp only [wellFormed, Bool.and_eq_true, decide_eq_true_eq, wellFormedProps_iff] at hwf
      simp only [height, Nat.add_lt_add_iff_right] at hh
      rw [walk_succ, walkStep_obj,
        foldl_keys_eq_foldl_entries props hwf.1
          (fun o k v => walk n v (joinPath base k) o) out,
        foldl_walk_props (walk n) base props
          (fun q hq b o => ih q.2 b o (hft q hq) (hwf.2 q hq)
            (lt_of_le_of_lt (height_le_heightProps props q hq) hh))]
      rfl
    | arr es items =>
      cases es with
      | nil => simp [isFieldTree] at hft
      | cons e es =>
        simp only [isFieldTree, Bool.and_eq_true] at hft
        rw [walk_succ, walkStep_leafGroup _ e es items base out hft.1.1 hft.1.2 hft.2]
        rfl
    | _ => simp [isFieldTree] at hft

/-- Claim C19. For every tree built only from field maps and leaf groups, with
each key held once and all field names non-empty and free of `'.'`:
`flattenMoldErrorsToRHF(tree)` consists of one entry per leaf group, keyed by the
`'.'`-join of the field names on the path to it and holding the record of its
first element; these keys are pairwise distinct; and so the number of entries is
the number of leaf groups of the tree. -/
theorem flatten_one_entry_per_leaf (t : JSValue) (hft : isFieldTree t = true)
    (hwf : t.wellFormed = true) (hnames : plainNames t = true) :
    flattenMoldErrorsToRHF t
        = obj ((leafPaths t).map fun q => (String.intercalate "." q.1, leafRecord q.2))
    ∧ ((leafPaths t).map fun q => String.intercalate "." q.1).Nodup
    ∧ ((leafPaths t).map fun q => (String.intercalate "." q.1, leafRecord q.2)).length
        = countLeafGroups t := by
  have hplain := leafPaths_plain t hnames
  have hkeys : ((leafPaths t).map fun q => String.intercalate "." q.1).Nodup := by
    have : ((leafPaths t).map fun q => String.intercalate "." q.1)
        = ((leafPaths t).map Prod.fst).map (String.intercalate ".") := by
      simp [List.map_map, Function.comp_def]
    rw [this]
    apply List.Nodup.map_on _ (leafPaths_nodup t hwf)
    intro xs hxs ys hys hxy
    obtain ⟨q, hq, rfl⟩ := List.mem_map.mp hxs
    obtain ⟨r, hr, rfl⟩ := List.mem_map.mp hys
    exact intercalate_injective _ _ (hplain q hq) (hplain r hr) hxy
  have ht : t.truthy = true := by
    cases t with
    | obj props => rfl
    | arr es items => rfl
    | _ => simp [isFieldTree] at hft
  refine ⟨?_, hkeys, by rw [List.length_map, leafPaths_length]⟩
  rw [flatten_of_truthy t ht]
  show obj (walk (t.height + 1) t "" []) = _
  rw [walk_fieldTree _ t "" [] hft hwf (Nat.lt_succ_self _)]
  have hstep : ∀ (o : Props), ∀ r ∈ leafPaths t,
      setProp o (r.1.foldl joinPath "") (leafRecord r.2)
        = (if (fun _ : List String × JSValue => true) r = true then
            setProp o (String.intercalate "." r.1) (leafRecord r.2) else o) := by
    intro o r hr
    rw [foldl_joinPath_eq_intercalate r.1
      (fun k hk => ((plainName_iff k).mp (hplain r hr k hk)).1)]
    simp
  rw [List.foldl_ext _ _ _ hstep,
    foldl_setProp_eq_append (fun _ => true) (fun q => String.intercalate "." q.1)
      (fun q => leafRecord q.2) (leafPaths t) [] (by simpa using hkeys)]
  simp

theorem flatten_one_entry_per_leaf_witness :
    isFieldTree (obj [("user", obj [("profile", obj [
        ("email", arr [obj [("rule", str "email"), ("message", str "Invalid email")]] none),
        ("name", arr [obj [("rule", str "min"), ("message", str "Too short")],
          obj [("rule", str "pattern"), ("message", str "Bad pattern")]] none)])]),
      ("age", arr [obj [("rule", str "range"), ("message", str "Too young")]] none)]) = true
    ∧ (obj [("user", obj [("profile", obj [
        ("email", arr [obj [("rule", str "email"), ("message", str "Invalid email")]] none),
        ("name", arr [obj [("rule", str "min"), ("message", str "Too short")],
          obj [("rule", str "pattern"), ("message", str "Bad pattern")]] none)])]),
      ("age", arr [obj [("rule", str "range"), ("message", str "Too young")]]
        none)]).wellFormed = true
    ∧ plainNames (obj [("user", obj [("profile", obj [
        ("email", arr [obj [("rule", str "email"), ("message", str "Invalid email")]] none),
        ("name", arr [obj [("rule", str "min"), ("message", str "Too short")],
          obj [("rule", str "pattern"), ("message", str "Bad pattern")]] none)])]),
      ("age", arr [obj [("rule", str "range"), ("message", str "Too young")]] none)]) = true
    ∧ flattenMoldErrorsToRHF (obj [("user", obj [("profile", obj [
        ("email", arr [obj [("rule", str "email"), ("message", str "Invalid email")]] none),
        ("name", arr [obj [("rule", str "min"), ("message", str "Too short")],
          obj [("rule", str "pattern"), ("message", str "Bad pattern")]] none)])]),
      ("age", arr [obj [("rule", str "range"), ("message", str "Too young")]] none)])
      = obj [("user.profile.email", obj [("type", str "email"),
            ("message", str "Invalid email")]),
          ("user.profile.name", obj [("type", str "min"), ("message", str "Too short")]),
          ("age", obj [("type", str "range"), ("message", str "Too young")])] :=
  ⟨by decide, by decide, by decide,
    (flatten_one_entry_per_leaf _ (by decide) (by decide) (by decide)).1⟩

/-! ## Claim C17: the transforms never throw -/

theorem neNull_of_isArray {v : JSValue} (h : v.isArray = true) : v.neNull = true := by
  cases v <;> simp_all [JSValue.isArray, JSValue.neNull]

theorem getChecked_of_neNull (v : JSValue) (k : String) (h : v.neNull = true) :
    getChecked v k = some (v.get k) := by
  cases v <;> simp_all [getChecked, JSValue.neNull]

theorem indexChecked_of_neNull (v : JSValue) (i : Nat) (h : v.neNull = true) :
    indexChecked v i = some (v.index i) := by
  cases v <;> simp_all [indexChecked, JSValue.neNull]

theorem lengthChecked_of_neNull (v : JSValue) (h : v.neNull = true) :
    lengthChecked v = some v.length := by
  cases v <;> simp_all [lengthChecked, JSValue.neNull]

theorem keysChecked_of_neNull (v : JSValue) (h : v.neNull = true) :
    keysChecked v = some v.keys := by
  cases v <;> simp_all [keysChecked, JSValue.neNull]

theorem foldlM_some {α β : Type} (fC : β → α → Option β) (f : β → α → β) (l : List α)
    (h : ∀ acc, ∀ x ∈ l, fC acc x = some (f acc x)) :
    ∀ init, l.foldlM fC init = some (l.foldl f init) := by
  induction l with
  | nil => intro init; rfl
  | cons x xs ih =>
    intro init
    simp only [List.foldlM_cons, List.foldl_cons]
    rw [h init x (List.mem_cons_self _ _)]
    exact ih (fun acc y hy => h acc y (List.mem_cons_of_mem _ hy)) _

theorem leafRecordChecked_of_truthy (e : JSValue) (h : e.truthy = true) :
    leafRecordChecked e = some (leafRecord e) := by
  simp [leafRecordChecked, getChecked_of_neNull e _ (neNull_of_truthy h), leafRecord]

@[simp] theorem andThen_some_some (a b : Bool) :
    andThen (some a) (some b) = some (a && b) := by
  cases a <;> rfl

@[simp] theorem andThen_false (x : Option Bool) : andThen (some false) x = some false := rfl

@[simp] theorem andThen_true (x : Option Bool) : andThen (some true) x = x := rfl

@[simp] theorem ifChecked_some {α : Type} (b : Bool) (t e : Option α) :
    ifChecked (some b) t e = if b = true then t else e := by
  cases b <;> rfl

@[simp] theorem notChecked_some (a : Bool) : notChecked (some a) = some (!a) := rfl

@[simp] theorem truthyOf_some (v : JSValue) : truthyOf (some v) = some v.truthy := rfl

theorem walkItemsChecked_eq (wC : JSValue → String → Props → Option Props)
    (w : JSValue → String → Props → Props) (items : JSValue) (base : String) (out : Props)
    (hi : items.truthy = true)
    (hw : ∀ c b o, c.height < items.height → wC c b o = some (w c b o)) :
    walkItemsChecked wC items base out = some (walkItems w items base out) := by
  unfold walkItemsChecked walkItems
  rw [keysChecked_of_neNull _ (neNull_of_truthy hi)]
  simp only [Option.some_bind]
  apply foldlM_some
  intro acc idx _
  rw [getChecked_of_neNull _ _ (neNull_of_truthy hi)]
  simp only [Option.some_bind]
  have hle : (items.get idx).height ≤ items.height := height_get_le items idx
  have hself : (items.get idx).truthy = true → (items.get idx).isObjectType = true →
      (items.get idx).height < items.height := fun h1 h2 =>
    height_get_lt items idx (lt_of_lt_of_le (height_pos_of_object h1 h2) hle)
  generalize items.get idx = a at hle hself
  by_cases ha : a.isArray = true
  · have hidx := indexChecked_of_neNull a 0 (neNull_of_isArray ha)
    have hlen := lengthChecked_of_neNull a (neNull_of_isArray ha)
    have h0 : (a.index 0).height < items.height :=
      lt_of_lt_of_le (height_index_lt a 0 (height_pos_of_isArray ha)) hle
    by_cases ht : (a.index 0).truthy = true
    · have hr := getChecked_of_neNull (a.index 0) "rule" (neNull_of_truthy ht)
      simp only [ha, hidx, hlen, ht, hr, andThen_some_some, andThen_true, truthyOf_some,
        ifChecked_some, notChecked_some, Option.some_bind, Option.map_some',
        leafRecordChecked_of_truthy _ ht, Bool.true_and, Bool.and_true]
      split_ifs with c1 c2 c3
      · rfl
      · exact hw _ _ _ h0
      · simp only [Bool.and_eq_true] at c3
        exact hw _ _ _ (hself c3.1 c3.2)
      · rfl
    · have ht' : (a.index 0).truthy = false := by simpa using ht
      simp only [ha, hidx, hlen, ht', andThen_some_some, andThen_true, andThen_false,
        truthyOf_some, ifChecked_some, Option.some_bind, Option.map_some',
        Bool.true_and, Bool.and_false, Bool.false_and, Bool.false_eq_true, if_false]
      split_ifs with c3
      · simp only [Bool.and_eq_true] at c3
        exact hw _ _ _ (hself c3.1 c3.2)
      · rfl
  · have ha' : a.isArray = false := by simpa using ha
    simp only [ha', andThen_some_some, andThen_false, ifChecked_some,
      Bool.false_and, Bool.false_eq_true, if_false]
    split_ifs with c3
    · simp only [Bool.and_eq_true] at c3
      exact hw _ _ _ (hself c3.1 c3.2)
    · rfl

theorem walkElementsChecked_eq (wC : JSValue → String → Props → Option Props)
    (w : JSValue → String → Props → Props) (node : JSValue) (base : String) (out : Props)
    (hn : node.isArray = true)
    (hw : ∀ c b o, c.height < node.height → wC c b o = some (w c b o)) :
    walkElementsChecked wC node base out = some (walkElements w node base out) := by
  unfold walkElementsChecked walkElements
  rw [lengthChecked_of_neNull _ (neNull_of_isArray hn)]
  simp only [Option.some_bind]
  apply foldlM_some
  intro acc i _
  rw [indexChecked_of_neNull _ _ (neNull_of_isArray hn)]
  simp only [Option.some_bind]
  have h0 : (node.index i).height < node.height :=
    height_index_lt node i (height_pos_of_isArray hn)
  generalize node.index i = a at h0
  by_cases ht : a.truthy = true
  · have hr := getChecked_of_neNull a "rule" (neNull_of_truthy ht)
    have hm := getChecked_of_neNull a "message" (neNull_of_truthy ht)
    simp only [ht, hr, hm, andThen_some_some, andThen_true, truthyOf_some,
      ifChecked_some, notChecked_some, Option.map_some',
      leafRecordChecked_of_truthy _ ht, Bool.true_and]
    split_ifs
    · rfl
    · exact hw _ _ _ h0
    · rfl
  · have ht' : a.truthy = false := by simpa using ht
    simp only [ht', andThen_false, ifChecked_some, Bool.false_and, Bool.false_eq_true,
      if_false]

theorem walkStepChecked_eq (wC : JSValue → String → Props → Option Props)
    (w : JSValue → String → Props → Props) (node : JSValue) (base : String) (out : Props)
    (hw : ∀ c b o, c.height < node.height → wC c b o = some (w c b o)) :
    walkStepChecked wC node base out = some (walkStep w node base out) := by
  unfold walkStepChecked walkStep
  by_cases hn : node.truthy = true
  · by_cases ha : node.isArray = true
    · have hpos := height_pos_of_isArray ha
      have hlen := lengthChecked_of_neNull node (neNull_of_isArray ha)
      have hitems := getChecked_of_neNull node "items" (neNull_of_isArray ha)
      have hidx := indexChecked_of_neNull node 0 (neNull_of_isArray ha)
      have hwi : ∀ o, (node.get "items").truthy = true →
          walkItemsChecked wC (node.get "items") base o
            = some (walkItems w (node.get "items") base o) := fun o hit =>
        walkItemsChecked_eq wC w _ base o hit fun c b o' hc =>
          hw c b o' (lt_trans hc (height_get_lt node "items" hpos))
      have hwe := walkElementsChecked_eq wC w node base out ha hw
      by_cases ht : (node.index 0).truthy = true
      · have hr := getChecked_of_neNull (node.index 0) "rule" (neNull_of_truthy ht)
        have hm := getChecked_of_neNull (node.index 0) "message" (neNull_of_truthy ht)
        simp only [hn, ha, hlen, hitems, hidx, ht, hr, hm, hwe, andThen_some_some,
          andThen_true, truthyOf_some, ifChecked_some, notChecked_some, Option.some_bind,
          Option.map_some', leafRecordChecked_of_truthy _ ht, Bool.true_and, Bool.and_true,
          Bool.not_true, Bool.false_eq_true, if_false, if_true]
        split_ifs with c1 c2 c3 c4 c5
        all_goals first
          | rfl
          | exact hwi _ (by assumption)
          | exact hw _ _ _ (height_index_lt node 0 hpos)
      · have ht' : (node.index 0).truthy = false := by simpa using ht
        simp only [hn, ha, hlen, hitems, hidx, ht', hwe, andThen_some_some,
          andThen_true, andThen_false, truthyOf_some, ifChecked_some, Option.some_bind,
          Option.map_some', Bool.true_and, Bool.and_true, Bool.and_false, Bool.false_and,
          Bool.not_true, Bool.false_eq_true, if_false, if_true]
        split_ifs with c1 c2 c3
        all_goals first
          | rfl
          | exact hwi _ (by assumption)
    · have ha' : node.isArray = false := by simpa using ha
      simp only [hn, ha', ifChecked_some, Bool.not_true, Bool.false_eq_true, if_false]
      split_ifs with ho
      · rw [keysChecked_of_neNull _ (neNull_of_truthy hn)]
        simp only [Option.some_bind]
        apply foldlM_some
        intro acc key _
        rw [getChecked_of_neNull _ _ (neNull_of_truthy hn)]
        exact hw _ _ _ (height_get_lt node key (height_pos_of_object hn ho))
      · rfl
  · have hn' : node.truthy = false := by simpa using hn
    simp only [hn', ifChecked_some, Bool.not_false, if_true]

theorem walkChecked_eq (fuel : Nat) :
    ∀ (node : JSValue) (base : String) (out : Props), node.height < fuel →
      walkChecked fuel node base out = some (walk fuel node base out) := by
  induction fuel with
  | zero => intro node base out h; omega
  | succ n ih =>
    intro node base out h
    exact walkStepChecked_eq _ _ node base out fun c b o hc => ih c b o (by omega)

theorem mapM_some {α β : Type} (fC : α → Option β) (f : α → β) (l : List α)
    (h : ∀ x ∈ l, fC x = some (f x)) : l.mapM fC = some (l.map f) := by
  induction l with
  | nil => rfl
  | cons x xs ih =>
    rw [List.mapM_cons, h x (List.mem_cons_self _ _),
      ih fun y hy => h y (List.mem_cons_of_mem _ hy)]
    rfl

theorem filterMessagesChecked_eq (l : List JSValue) :
    filterMessagesChecked l
      = some (l.filter fun e => e.truthy && (e.get "message").truthy) := by
  induction l with
  | nil => rfl
  | cons e rest ih =>
    simp only [filterMessagesChecked, ih, Option.map_some']
    by_cases ht : e.truthy = true
    · rw [getChecked_of_neNull e "message" (neNull_of_truthy ht)]
      simp only [ht, truthyOf_some, andThen_true, Option.some_bind, Bool.true_and,
        List.filter_cons]
    · have ht' : e.truthy = false := by simpa using ht
      simp only [ht', andThen_false, Option.some_bind, Bool.false_and, List.filter_cons,
        Bool.false_eq_true, if_false]

theorem convertItemsChecked_eq (cC : JSValue → Option JSValue) (c : JSValue → JSValue)
    (node : JSValue) (ha : node.isArray = true) (hit : (node.get "items").truthy = true)
    (hc : ∀ v, v.height < node.height → cC v = some (c v)) :
    convertItemsChecked cC node = some (convertItems c (node.get "items")) := by
  unfold convertItemsChecked convertItems
  rw [getChecked_of_neNull _ _ (neNull_of_isArray ha)]
  simp only [Option.some_bind]
  rw [keysChecked_of_neNull _ (neNull_of_truthy hit)]
  simp only [Option.some_bind]
  apply foldlM_some
  intro acc i _
  rw [getChecked_of_neNull _ _ (neNull_of_truthy hit)]
  simp only [Option.some_bind]
  rw [hc _ (lt_of_le_of_lt (height_get_le _ i)
      (height_get_lt node "items" (height_pos_of_isArray ha)))]
  rfl

theorem convertStepChecked_eq (cC : JSValue → Option JSValue) (c : JSValue → JSValue)
    (node : JSValue) (hc : ∀ v, v.height < node.height → cC v = some (c v)) :
    convertStepChecked cC node = some (convertStep c node) := by
  unfold convertStepChecked convertStep
  by_cases hn : node.truthy = true
  · by_cases ha : node.isArray = true
    · have hpos := height_pos_of_isArray ha
      have hlen := lengthChecked_of_neNull node (neNull_of_isArray ha)
      have hitems := getChecked_of_neNull node "items" (neNull_of_isArray ha)
      have hidx := indexChecked_of_neNull node 0 (neNull_of_isArray ha)
      have hci : (node.get "items").truthy = true →
          convertItemsChecked cC node = some (convertItems c (node.get "items")) :=
        fun hit => convertItemsChecked_eq cC c node ha hit hc
      have hfilter := filterMessagesChecked_eq node.elems
      have hmap : (node.elems.filter fun e => e.truthy && (e.get "message").truthy).mapM
          (fun e => getChecked e "message")
          = some ((node.elems.filter fun e => e.truthy && (e.get "message").truthy).map
            fun e => e.get "message") := by
        apply mapM_some
        intro e he
        have := (List.mem_filter.mp he).2
        simp only [Bool.and_eq_true] at this
        exact getChecked_of_neNull e "message" (neNull_of_truthy this.1)
      have hitC : convertItemsChecked cC node = some (convertItems c (node.get "items"))
          ∨ (node.get "items").truthy = false := by
        by_cases hit : (node.get "items").truthy = true
        · exact Or.inl (hci hit)
        · exact Or.inr (by simpa using hit)
      by_cases ht : (node.index 0).truthy = true
      · have hr := getChecked_of_neNull (node.index 0) "rule" (neNull_of_truthy ht)
        have hm := getChecked_of_neNull (node.index 0) "message" (neNull_of_truthy ht)
        rcases hitC with hit | hit
        · simp only [hn, ha, hlen, hitems, hidx, ht, hr, hm, hfilter, hmap, hit,
            andThen_some_some, andThen_true, truthyOf_some, ifChecked_some,
            notChecked_some, Option.some_bind, Option.map_some', Bool.true_and,
            Bool.and_true, Bool.not_true, Bool.false_eq_true, if_false, if_true]
          split_ifs
          all_goals first
            | rfl
            | exact hc _ (height_index_lt node 0 hpos)
        · simp only [hn, ha, hlen, hitems, hidx, ht, hr, hm, hfilter, hmap, hit,
            andThen_some_some, andThen_true, truthyOf_some, ifChecked_some,
            notChecked_some, Option.some_bind, Option.map_some', Bool.true_and,
            Bool.and_true, Bool.not_true, Bool.false_eq_true, if_false, if_true]
          split_ifs
          all_goals first
            | rfl
            | exact hc _ (height_index_lt node 0 hpos)
      · have ht' : (node.index 0).truthy = false := by simpa using ht
        rcases hitC with hit | hit
        · simp only [hn, ha, hlen, hitems, hidx, ht', hfilter, hmap, hit,
            andThen_some_some, andThen_true, andThen_false, truthyOf_some, ifChecked_some,
            Option.some_bind, Option.map_some', Bool.true_and, Bool.and_true,
            Bool.and_false, Bool.false_and, Bool.not_true, Bool.false_eq_true, if_false,
            if_true]
          split_ifs <;> rfl
        · simp only [hn, ha, hlen, hitems, hidx, ht', hfilter, hmap, hit,
            andThen_some_some, andThen_true, andThen_false, truthyOf_some, ifChecked_some,
            Option.some_bind, Option.map_some', Bool.true_and, Bool.and_true,
            Bool.and_false, Bool.false_and, Bool.not_true, Bool.false_eq_true, if_false,
            if_true]
          split_ifs <;> rfl
    · have ha' : node.isArray = false := by simpa using ha
      simp only [hn, ha', ifChecked_some, Bool.not_true, Bool.false_eq_true, if_false]
      split_ifs with ho
      · rw [keysChecked_of_neNull _ (neNull_of_truthy hn)]
        simp only [Option.some_bind]
        rw [foldlM_some _ (fun out k =>
          let sub := c (node.get k)
          if sub.neNull = true then setProp out k sub else out)]
        · rfl
        · intro acc key _
          rw [getChecked_of_neNull _ _ (neNull_of_truthy hn)]
          simp only [Option.some_bind]
          rw [hc _ (height_get_lt node key (height_pos_of_object hn ho))]
          rfl
      · rfl
  · have hn' : node.truthy = false := by simpa using hn
    simp only [hn', ifChecked_some, Bool.not_false, if_true]

theorem convertChecked_eq (fuel : Nat) :
    ∀ (node : JSValue), node.height < fuel →
      convertChecked fuel node = some (convert fuel node) := by
  induction fuel with
  | zero => intro node h; omega
  | succ n ih =>
    intro node h
    exact convertStepChecked_eq _ _ node fun v hv => ih v (by omega)

/-- The checks are not idle: a read on `null` or `undefined` fails, and so does
the `items` loop when it is entered with `items` equal to `null`. -/
theorem checked_reads_can_fail :
    getChecked JSValue.null "rule" = none
    ∧ keysChecked JSValue.undefined = none
    ∧ walkItemsChecked (fun _ _ o => some o) JSValue.null "tags" [] = none :=
  ⟨rfl, rfl, rfl⟩

/-- Claim C17. The transforms never throw: for every input value (built from
`null`, `undefined`, primitives, arrays with or without an `items` property of
any type, and plain objects), the evaluation of `flattenMoldErrorsToRHF` and of
`transformMoldErrorsToFormik` in which every property read, element read and
key enumeration is checked returns a result, and it is the result of the
unchecked functions: no read is ever made on `null` or `undefined`, and the
recursion ends. -/
theorem transforms_never_throw (t : JSValue) :
    flattenMoldErrorsToRHFChecked t = some (flattenMoldErrorsToRHF t)
    ∧ transformMoldErrorsToFormikChecked t = some (transformMoldErrorsToFormik t) := by
  constructor
  · unfold flattenMoldErrorsToRHFChecked flattenMoldErrorsToRHF walkNode
    rw [walkChecked_eq _ t "" [] (Nat.lt_succ_self _)]
    simp only [ifChecked_some, Option.map_some']
    split_ifs <;> rfl
  · unfold transformMoldErrorsToFormikChecked transformMoldErrorsToFormik mirror
    rw [convertChecked_eq _ t (Nat.lt_succ_self _)]
    simp only [ifChecked_some, Option.map_some']
    split_ifs <;> rfl

/-! ## Claim C26: an array as element of a hybrid array -/

/-- Claim C26 fails: the element loop of `walk` handles direct leaves and plain
non-array objects only (`!Array.isArray(item)`), so a leaf group sitting at index
`1` of a hybrid array yields no entry at `"f.1"`; here the whole result is `{}`. -/
theorem hybrid_group_element_counterexample :
    flattenMoldErrorsToRHF (obj [("f",
        arr [obj [("a", num 1)],
          arr [obj [("rule", str "r"), ("message", str "m")]] none] none)])
      = obj []
    ∧ (flattenMoldErrorsToRHF (obj [("f",
        arr [obj [("a", num 1)],
          arr [obj [("rule", str "r"), ("message", str "m")]] none] none)])).get "f.1"
      ≠ obj [("type", str "r"), ("message", str "m")] := by
  have h : flattenMoldErrorsToRHF (obj [("f",
        arr [obj [("a", num 1)],
          arr [obj [("rule", str "r"), ("message", str "m")]] none] none)])
      = obj [] := by rfl
  refine ⟨h, ?_⟩
  rw [h]
  intro hc
  cases hc

/-- Claim C26, amended. An element of a hybrid array that is itself an array (a
leaf group included) is skipped by the element loop: for every field name `f`,
every array `a` of length at least two whose first element is not a leaf, and
every position `i` holding an array, `flattenMoldErrorsToRHF({f: a})` equals the
result for the same array with position `i` emptied (`undefined`), whatever the
`items` property holds. -/
theorem hybrid_array_element_skipped (f : String) (es : List JSValue)
    (items : Option JSValue) (i : Nat) (hlen : 2 ≤ es.length)
    (hfirst : isLeaf (es.getD 0 JSValue.undefined) = false)
    (hi : (es.getD i JSValue.undefined).isArray = true) :
    flattenMoldErrorsToRHF (obj [(f, arr es items)])
      = flattenMoldErrorsToRHF (obj [(f, arr (es.set i JSValue.undefined) items)]) := by
  have hget : ∀ j : Nat, (es.set i JSValue.undefined).getD j JSValue.undefined
      = if i = j then JSValue.undefined else es.getD j JSValue.undefined := by
    intro j
    simp only [List.getD_eq_getElem?_getD, List.getElem?_set]
    by_cases hij : i = j
    · subst hij
      by_cases hlt : i < es.length
      · simp [hlt]
      · simp [hlt, List.getElem?_eq_none (Nat.le_of_not_lt hlt)]
    · simp [hij]
  have hfirst2 : isLeaf ((es.set i JSValue.undefined).getD 0 JSValue.undefined) = false := by
    rw [hget 0]
    by_cases h0 : i = 0
    · simp [h0, isLeaf, JSValue.truthy]
    · simp only [h0, if_false]
      exact hfirst
  have hloop : ∀ out : Props,
      walkElements walkNode (arr es items) f out
        = walkElements walkNode (arr (es.set i JSValue.undefined) items) f out := by
    intro out
    unfold walkElements
    simp only [length_arr, List.length_set, JSValue.index]
    congr 1
    funext o j
    rw [hget j]
    by_cases hij : i = j
    · subst hij
      have hnot : ∀ props, es.getD i JSValue.undefined ≠ obj props := by
        intro props hp
        rw [hp] at hi
        simp [JSValue.isArray] at hi
      have hu : JSValue.undefined.truthy = false := rfl
      simp only [get_rule_of_not_obj _ hnot, hi, hu, if_true, Bool.and_false, Bool.false_and,
        Bool.not_true, Bool.false_eq_true, if_false]
    · simp [hij]
  rw [flatten_hybrid f es items hlen hfirst,
    flatten_hybrid f (es.set i JSValue.undefined) items (by simpa using hlen) hfirst2, hloop]

theorem hybrid_array_element_skipped_witness :
    2 ≤ [obj [("a", num 1)],
        arr [obj [("rule", str "r"), ("message", str "m")]] none,
        obj [("rule", str "q"), ("message", str "direct")]].length
    ∧ isLeaf ([obj [("a", num 1)],
        arr [obj [("rule", str "r"), ("message", str "m")]] none,
        obj [("rule", str "q"), ("message", str "direct")]].getD 0 JSValue.undefined) = false
    ∧ ([obj [("a", num 1)],
        arr [obj [("rule", str "r"), ("message", str "m")]] none,
        obj [("rule", str "q"), ("message", str "direct")]].getD 1 JSValue.undefined).isArray
      = true
    ∧ flattenMoldErrorsToRHF (obj [("f", arr [obj [("a", num 1)],
        arr [obj [("rule", str "r"), ("message", str "m")]] none,
        obj [("rule", str "q"), ("message", str "direct")]] none)])
      = flattenMoldErrorsToRHF (obj [("f", arr ([obj [("a", num 1)],
        arr [obj [("rule", str "r"), ("message", str "m")]] none,
        obj [("rule", str "q"), ("message", str "direct")]].set 1 JSValue.undefined) none)]) :=
  ⟨by decide, by decide, by decide,
    hybrid_array_element_skipped "f" _ none 1 (by decide) (by decide) (by decide)⟩

/-! ## Claim C27: a bare leaf object as a field value -/

/-- The call `walk(v, base)` does nothing on a primitive value. -/
theorem walkNode_primitive (v : JSValue) (base : String) (out : Props)
    (h : isPrimitive v = true) : walkNode v base out = out := by
  rw [walkNode_eq]
  cases v <;> simp_all [isPrimitive, walkStep, JSValue.isArray, JSValue.isObjectType]

/-- Claim C27 fails: a bare leaf object held directly by a field goes through the
plain-object branch of both closures, which read its `rule` and `message` strings
as children and find nothing in them: `flattenMoldErrorsToRHF` returns `{}`, not
`{f: {type, message}}`, and `transformMoldErrorsToFormik` returns `{f: {}}`, not
`{f: message}`. -/
theorem bare_leaf_counterexample :
    flattenMoldErrorsToRHF (obj [("f", obj [("rule", str "r"), ("message", str "m")])])
      = obj []
    ∧ flattenMoldErrorsToRHF (obj [("f", obj [("rule", str "r"), ("message", str "m")])])
      ≠ obj [("f", obj [("type", str "r"), ("message", str "m")])]
    ∧ transformMoldErrorsToFormik (obj [("f", obj [("rule", str "r"), ("message", str "m")])])
      = obj [("f", obj [])]
    ∧ transformMoldErrorsToFormik (obj [("f", obj [("rule", str "r"), ("message", str "m")])])
      ≠ obj [("f", str "m")] := by
  have h1 : flattenMoldErrorsToRHF
      (obj [("f", obj [("rule", str "r"), ("message", str "m")])]) = obj [] := by rfl
  have h2 : transformMoldErrorsToFormik
      (obj [("f", obj [("rule", str "r"), ("message", str "m")])]) = obj [("f", obj [])] := by
    rfl
  refine ⟨h1, ?_, h2, ?_⟩
  · rw [h1]
    intro hc
    cases hc
  · rw [h2]
    intro hc
    simp only [JSValue.obj.injEq, List.cons.injEq, Prod.mk.injEq] at hc
    cases hc.1.2

/-- Claim C27, amended. A bare leaf object held directly by a field is read as a
field map: for every field name `f` and every object `l` all of whose property
values are primitives (such as `{rule, message}` with string values),
`flattenMoldErrorsToRHF({f: l}) = {}` and
`transformMoldErrorsToFormik({f: l}) = {f: {}}`. -/
theorem bare_leaf_read_as_field_map (f : String) (l : Props)
    (hprim : ∀ q ∈ l, isPrimitive q.2 = true) :
    flattenMoldErrorsToRHF (obj [(f, obj l)]) = obj []
    ∧ transformMoldErrorsToFormik (obj [(f, obj l)]) = obj [(f, obj [])] := by
  have hget : ∀ k ∈ l.map Prod.fst, isPrimitive ((obj l).get k) = true := by
    intro k hk
    obtain ⟨q, hq, hqk⟩ := get_obj_of_mem_keys l k hk
    rw [hqk]
    exact hprim q hq
  have hm : mirror (obj l) = obj [] := by
    rw [mirror_eq, convertStep_obj]
    congr 1
    apply foldl_fixed
    intro acc k hk
    rw [mirror_primitive _ (hget k hk)]
    rfl
  constructor
  · rw [flatten_of_truthy _ (truthy_obj _), walkNode_eq, walkStep_obj]
    simp only [List.map_cons, List.map_nil, List.foldl_cons, List.foldl_nil,
      get_obj_cons_self]
    rw [walkNode_eq, walkStep_obj]
    congr 1
    apply foldl_fixed
    intro acc k hk
    exact walkNode_primitive _ _ _ (hget k hk)
  · rw [transform_of_truthy _ (truthy_obj _), mirror_eq, convertStep_obj]
    simp only [List.map_cons, List.map_nil, List.foldl_cons, List.foldl_nil,
      get_obj_cons_self, hm]
    rfl

theorem bare_leaf_read_as_field_map_witness :
    (∀ q ∈ [("rule", str "validateRequired"), ("message", str "Required")],
        isPrimitive q.2 = true)
    ∧ flattenMoldErrorsToRHF
        (obj [("name", obj [("rule", str "validateRequired"), ("message", str "Required")])])
      = obj []
    ∧ transformMoldErrorsToFormik
        (obj [("name", obj [("rule", str "validateRequired"), ("message", str "Required")])])
      = obj [("name", obj [])] :=
  ⟨by decide,
    bare_leaf_read_as_field_map "name"
      [("rule", str "validateRequired"), ("message", str "Required")] (by decide)⟩

/-! ## Claim C28: array-level message and `items` in the mirror -/

/-- Claim C28 fails when the direct leaf is not the first element: the hybrid
branch of `convert` returns the `items` mapping whenever it is non-empty and drops
the direct messages, so the result is `{"0": "inner"}`, not the array-level
message `"top"`. -/
theorem array_message_beats_items_counterexample :
    transformMoldErrorsToFormik (arr
        [obj [("a", num 1)], obj [("rule", str "r"), ("message", str "top")]]
        (some (obj [("0", arr [obj [("rule", str "q"), ("message", str "inner")]] none)])))
      = obj [("0", str "inner")]
    ∧ transformMoldErrorsToFormik (arr
        [obj [("a", num 1)], obj [("rule", str "r"), ("message", str "top")]]
        (some (obj [("0", arr [obj [("rule", str "q"), ("message", str "inner")]] none)])))
      ≠ str "top" := by
  have h : transformMoldErrorsToFormik (arr
        [obj [("a", num 1)], obj [("rule", str "r"), ("message", str "top")]]
        (some (obj [("0", arr [obj [("rule", str "q"), ("message", str "inner")]] none)])))
      = obj [("0", str "inner")] := by rfl
  refine ⟨h, ?_⟩
  rw [h]
  intro hc
  cases hc

/-- Claim C28, amended. For every array node that has at least one direct leaf
element and an `items` object of which at least one entry reduces to a value:
when the first element is a leaf, `transformMoldErrorsToFormik` returns that
element's `message` and the `items` mapping is not consulted; when the first
element is not a leaf, it returns the `items` mapping
`{index: mirror(child), ...}` and the direct messages are dropped. -/
theorem array_message_beats_items_when_first (es : List JSValue) (its : Props)
    (hleaf : ∃ e ∈ es, isLeaf e = true)
    (hnd : (its.map Prod.fst).Nodup)
    (hsome : ∃ q ∈ its, (mirror q.2).neNull = true) :
    transformMoldErrorsToFormik (arr es (some (obj its)))
      = if isLeaf (es.getD 0 JSValue.undefined) = true
        then (es.getD 0 JSValue.undefined).get "message"
        else obj (mirrorItems its) := by
  have hlen : 0 < (mirrorItems its).length := by
    obtain ⟨q, hq, hn⟩ := hsome
    apply List.length_pos_of_mem (a := (q.1, mirror q.2))
    unfold mirrorItems
    exact List.mem_map.mpr ⟨q, List.mem_filter.mpr ⟨hq, hn⟩, rfl⟩
  rw [transform_of_truthy _ (truthy_arr _ _), mirror_eq]
  cases es with
  | nil =>
    obtain ⟨e, he, _⟩ := hleaf
    simp at he
  | cons e es' =>
    simp only [List.getD_cons_zero]
    by_cases hfirst : isLeaf e = true
    · have hparts : e.truthy = true ∧ (e.get "rule").truthy = true
          ∧ (e.get "message").truthy = true := by
        simpa [isLeaf, and_assoc] using hfirst
      rw [convertStep_leafGroup _ e es' _ hparts.1 hparts.2.1 hparts.2.2]
      simp [hfirst, hparts.2.2]
    · have he : (e.truthy && (e.get "rule").truthy && (e.get "message").truthy) = false := by
        simpa [isLeaf] using hfirst
      have hne : es' ≠ [] := by
        intro hnil
        obtain ⟨x, hx, hxl⟩ := hleaf
        rw [hnil] at hx
        rcases List.mem_cons.mp hx with h | h
        · rw [h] at hxl
          exact hfirst hxl
        · simp at h
      have hl1 : ((e :: es').length == 1) = false := by
        cases es' with
        | nil => exact absurd rfl hne
        | cons x xs => simp
      simp only [convertStep, truthy_arr, isArray_arr, length_arr, index_arr_zero,
        get_arr_items, Option.getD_some, truthy_obj, he, hl1,
        convertItems_mirror_obj its hnd]
      simp [hlen, hfirst]

theorem array_message_beats_items_when_first_witness :
    (∃ e ∈ [obj [("a", num 1)], obj [("rule", str "r"), ("message", str "top")]],
        isLeaf e = true)
    ∧ ([("0", arr [obj [("rule", str "q"), ("message", str "inner")]] none)].map
        Prod.fst).Nodup
    ∧ (∃ q ∈ [("0", arr [obj [("rule", str "q"), ("message", str "inner")]] none)],
        (mirror q.2).neNull = true)
    ∧ transformMoldErrorsToFormik (arr
        [obj [("a", num 1)], obj [("rule", str "r"), ("message", str "top")]]
        (some (obj [("0", arr [obj [("rule", str "q"), ("message", str "inner")]] none)])))
      = (if isLeaf ([obj [("a", num 1)],
            obj [("rule", str "r"), ("message", str "top")]].getD 0 JSValue.undefined) = true
        then ([obj [("a", num 1)],
            obj [("rule", str "r"), ("message", str "top")]].getD 0 JSValue.undefined).get
              "message"
        else obj (mirrorItems
          [("0", arr [obj [("rule", str "q"), ("message", str "inner")]] none)])) :=
  ⟨⟨obj [("rule", str "r"), ("message", str "top")], by simp, by decide⟩, by decide,
    ⟨("0", arr [obj [("rule", str "q"), ("message", str "inner")]] none), by simp, by decide⟩,
    array_message_beats_items_when_first
      [obj [("a", num 1)], obj [("rule", str "r"), ("message", str "top")]]
      [("0", arr [obj [("rule", str "q"), ("message", str "inner")]] none)]
      ⟨obj [("rule", str "r"), ("message", str "top")], by simp, by decide⟩ (by decide)
      ⟨("0", arr [obj [("rule", str "q"), ("message", str "inner")]] none), by simp,
        by decide⟩⟩

/-! ## Claim C29: do the two transforms agree on whether there is an error -/

/-- Claim C29 is violated by the code. On an array of plain objects that holds a
leaf group below one of its elements, `walk` descends into the element and emits
an entry, while the hybrid branch of `convert` collects only the direct `message`
properties and the `items` mapping and returns nothing: the flat map has one
entry and the mirrored structure is `{}`, with no message in it. -/
theorem transforms_disagree_on_array_of_objects :
    flattenMoldErrorsToRHF (obj [("list", arr [obj [("someProp", str "value")],
        obj [("anotherProp", obj [("nested",
          arr [obj [("rule", str "validateMin"), ("message", str "Too small")]] none)])]]
        none)])
      = obj [("list.1.anotherProp.nested",
          obj [("type", str "validateMin"), ("message", str "Too small")])]
    ∧ transformMoldErrorsToFormik (obj [("list", arr [obj [("someProp", str "value")],
        obj [("anotherProp", obj [("nested",
          arr [obj [("rule", str "validateMin"), ("message", str "Too small")]] none)])]]
        none)])
      = obj [] :=
  ⟨by rfl, by rfl⟩

/-! ## The flat map of a tree of field maps and leaf groups -/

theorem leafPathsProps_append (a b : Props) :
    leafPathsProps (a ++ b) = leafPathsProps a ++ leafPathsProps b := by
  induction a with
  | nil => simp [leafPathsProps]
  | cons q rest ih =>
    obtain ⟨k, v⟩ := q
    simp [leafPathsProps, ih]

theorem leafPathsProps_perm (p1 p2 : Props) (h : p1.Perm p2) :
    (leafPathsProps p1).Perm (leafPathsProps p2) := by
  induction h with
  | nil => exact List.Perm.refl _
  | cons x _ ih =>
    obtain ⟨k, v⟩ := x
    simp only [leafPathsProps]
    exact List.Perm.append_left _ ih
  | swap x y l =>
    obtain ⟨k, v⟩ := x
    obtain ⟨k', v'⟩ := y
    simp only [leafPathsProps, ← List.append_assoc]
    exact List.Perm.append_right _ List.perm_append_comm
  | trans _ _ ih1 ih2 => exact ih1.trans ih2

/-- The flat map of a tree of field maps and leaf groups with plain names: one
entry per leaf group, under pairwise distinct keys. -/
theorem flatten_fieldTree (t : JSValue) (hft : isFieldTree t = true)
    (hwf : t.wellFormed = true) (hnames : plainNames t = true) :
    flattenMoldErrorsToRHF t
        = obj ((leafPaths t).map fun q => (String.intercalate "." q.1, leafRecord q.2))
    ∧ ((leafPaths t).map fun q => String.intercalate "." q.1).Nodup := by
  have hplain := leafPaths_plain t hnames
  have hkeys : ((leafPaths t).map fun q => String.intercalate "." q.1).Nodup := by
    have : ((leafPaths t).map fun q => String.intercalate "." q.1)
        = ((leafPaths t).map Prod.fst).map (String.intercalate ".") := by
      simp [List.map_map, Function.comp_def]
    rw [this]
    apply List.Nodup.map_on _ (leafPaths_nodup t hwf)
    intro xs hxs ys hys hxy
    obtain ⟨q, hq, rfl⟩ := List.mem_map.mp hxs
    obtain ⟨r, hr, rfl⟩ := List.mem_map.mp hys
    exact intercalate_injective _ _ (hplain q hq) (hplain r hr) hxy
  have ht : t.truthy = true := by
    cases t with
    | obj props => rfl
    | arr es items => rfl
    | _ => simp [isFieldTree] at hft
  refine ⟨?_, hkeys⟩
  rw [flatten_of_truthy t ht]
  show obj (walk (t.height + 1) t "" []) = _
  rw [walk_fieldTree _ t "" [] hft hwf (Nat.lt_succ_self _)]
  have hstep : ∀ (o : Props), ∀ r ∈ leafPaths t,
      setProp o (r.1.foldl joinPath "") (leafRecord r.2)
        = (if (fun _ : List String × JSValue => true) r = true then
            setProp o (String.intercalate "." r.1) (leafRecord r.2) else o) := by
    intro o r hr
    rw [foldl_joinPath_eq_intercalate r.1
      (fun k hk => ((plainName_iff k).mp (hplain r hr k hk)).1)]
    simp
  rw [List.foldl_ext _ _ _ hstep,
    foldl_setProp_eq_append (fun _ => true) (fun q => String.intercalate "." q.1)
      (fun q => leafRecord q.2) (leafPaths t) [] (by simpa using hkeys)]
  simp

/-- A key that an object does not hold reads as `undefined`. -/
theorem get_obj_of_not_mem_keys (props : Props) (k : String)
    (hk : k ∉ props.map Prod.fst) : (obj props).get k = JSValue.undefined := by
  induction props with
  | nil => rfl
  | cons q rest ih =>
    obtain ⟨k', v'⟩ := q
    simp only [List.map_cons, List.mem_cons, not_or] at hk
    rw [get_obj_cons_ne k k' v' rest hk.1]
    exact ih hk.2

/-- Two objects holding the same properties, each key once, read alike. -/
theorem get_obj_of_perm (p1 p2 : Props) (h : p1.Perm p2)
    (hnd : (p1.map Prod.fst).Nodup) (k : String) : (obj p1).get k = (obj p2).get k := by
  have hnd2 : (p2.map Prod.fst).Nodup := ((h.map Prod.fst).nodup_iff).mp hnd
  by_cases hk : k ∈ p1.map Prod.fst
  · obtain ⟨q, hq, hqk⟩ := List.mem_map.mp hk
    obtain ⟨k', v⟩ := q
    simp only at hqk
    subst hqk
    rw [get_obj_of_mem p1 hnd k' v hq, get_obj_of_mem p2 hnd2 k' v (h.mem_iff.mp hq)]
  · have hk2 : k ∉ p2.map Prod.fst := fun hm => hk (((h.map Prod.fst).mem_iff).mpr hm)
    rw [get_obj_of_not_mem_keys p1 k hk, get_obj_of_not_mem_keys p2 k hk2]


/-! ## What `walk` leaves in the accumulator -/

theorem foldl_invariant {α β : Type} (I : β → Prop) (f : β → α → β) (l : List α)
    (h : ∀ acc x, I acc → I (f acc x)) : ∀ init, I init → I (l.foldl f init) := by
  induction l with
  | nil => intro init hi; exact hi
  | cons x xs ih =>
    intro init hi
    rw [List.foldl_cons]
    exact ih _ (h init x hi)

theorem walkItems_invariant (I : Props → Prop)
    (hset : ∀ out k e, I out → I (setProp out k (leafRecord e)))
    (w : JSValue → String → Props → Props) (hw : ∀ c b o, I o → I (w c b o))
    (items : JSValue) (base : String) (out : Props) (ho : I out) :
    I (walkItems w items base out) := by
  unfold walkItems
  apply foldl_invariant I _ _ _ out ho
  intro acc idx hacc
  simp only
  split_ifs
  · exact hset _ _ _ hacc
  · exact hw _ _ _ hacc
  · exact hw _ _ _ hacc
  · exact hacc

theorem walkElements_invariant (I : Props → Prop)
    (hset : ∀ out k e, I out → I (setProp out k (leafRecord e)))
    (w : JSValue → String → Props → Props) (hw : ∀ c b o, I o → I (w c b o))
    (node : JSValue) (base : String) (out : Props) (ho : I out) :
    I (walkElements w node base out) := by
  unfold walkElements
  apply foldl_invariant I _ _ _ out ho
  intro acc i hacc
  simp only
  split_ifs
  · exact hset _ _ _ hacc
  · exact hw _ _ _ hacc
  · exact hacc

theorem walkStep_invariant (I : Props → Prop)
    (hset : ∀ out k e, I out → I (setProp out k (leafRecord e)))
    (w : JSValue → String → Props → Props) (hw : ∀ c b o, I o → I (w c b o))
    (node : JSValue) (base : String) (out : Props) (ho : I out) :
    I (walkStep w node base out) := by
  simp only [walkStep]
  split_ifs
  · exact ho
  · exact walkItems_invariant I hset w hw _ _ _ ho
  · exact ho
  · exact hset _ _ _ ho
  · exact hw _ _ _ ho
  · exact walkItems_invariant I hset w hw _ _ _
      (walkElements_invariant I hset w hw _ _ _ ho)
  · exact walkElements_invariant I hset w hw _ _ _ ho
  · exact foldl_invariant I _ _ (fun acc k hacc => hw _ _ _ hacc) out ho
  · exact ho

/-- A property of the accumulator that every assignment of a leaf record keeps
holds after `walk` when it held before. -/
theorem walk_invariant (I : Props → Prop)
    (hset : ∀ out k e, I out → I (setProp out k (leafRecord e))) (fuel : Nat) :
    ∀ (node : JSValue) (base : String) (out : Props), I out → I (walk fuel node base out) := by
  induction fuel with
  | zero => intro node base out ho; exact ho
  | succ n ih =>
    intro node base out ho
    rw [walk_succ]
    exact walkStep_invariant I hset _ ih node base out ho

theorem setProp_keys (out : Props) (k : String) (v : JSValue) :
    (setProp out k v).map Prod.fst
      = if k ∈ out.map Prod.fst then out.map Prod.fst else out.map Prod.fst ++ [k] := by
  induction out with
  | nil => simp [setProp]
  | cons q rest ih =>
    obtain ⟨k', v'⟩ := q
    simp only [setProp]
    by_cases hk : k' = k
    · simp [hk]
    · have hk2 : ¬ k = k' := fun h => hk h.symm
      simp only [hk, if_false, List.map_cons, ih, List.mem_cons, hk2, false_or]
      split_ifs <;> simp

theorem setProp_keys_nodup (out : Props) (k : String) (v : JSValue)
    (h : (out.map Prod.fst).Nodup) : ((setProp out k v).map Prod.fst).Nodup := by
  rw [setProp_keys]
  split_ifs with hk
  · exact h
  · exact List.Nodup.append h (List.nodup_singleton k) (by simpa using hk)

/-- The flat map holds each key once, and each value is a record
`{type, message}` written by `walk`. -/
theorem flatten_records (t : JSValue) :
    ∃ props : Props, flattenMoldErrorsToRHF t = obj props
      ∧ (props.map Prod.fst).Nodup
      ∧ ∀ q ∈ props, ∃ e : JSValue, q.2 = leafRecord e := by
  unfold flattenMoldErrorsToRHF
  split_ifs
  · exact ⟨[], rfl, List.nodup_nil, by simp⟩
  · refine ⟨walkNode t "" [], rfl, ?_⟩
    apply walk_invariant
      (fun out => (out.map Prod.fst).Nodup ∧ ∀ q ∈ out, ∃ e : JSValue, q.2 = leafRecord e)
    · intro out k e ho
      refine ⟨setProp_keys_nodup out k _ ho.1, fun q hq => ?_⟩
      rcases mem_setProp out k _ q hq with h | h
      · exact ho.2 q h
      · exact ⟨e, by rw [h]⟩
    · exact ⟨List.nodup_nil, by simp⟩

theorem foldlM_ok {α β : Type} (fC : β → α → Outcome β) (f : β → α → β) (l : List α)
    (h : ∀ acc, ∀ x ∈ l, fC acc x = Except.ok (f acc x)) :
    ∀ init, l.foldlM fC init = Except.ok (l.foldl f init) := by
  induction l with
  | nil => intro init; rfl
  | cons x xs ih =>
    intro init
    simp only [List.foldlM_cons, List.foldl_cons]
    rw [h init x (List.mem_cons_self _ _)]
    exact ih (fun acc y hy => h acc y (List.mem_cons_of_mem _ hy)) _

/-- On a mapping whose values are records, the loop
`for (const k in flat) out[k] = flat[k].message` returns the mapping with each
record replaced by its `message`. -/
theorem messagesOf_records (props : Props) (hnd : (props.map Prod.fst).Nodup)
    (hrec : ∀ q ∈ props, ∃ e : JSValue, q.2 = leafRecord e) :
    messagesOf (obj props) = Except.ok (obj (props.map fun q => (q.1, q.2.get "message"))) := by
  unfold messagesOf
  rw [keys_obj, foldlM_ok _
    (fun out k => setProp out k (((obj props).get k).get "message"))]
  · rw [foldl_keys_eq_foldl_entries props hnd (fun out k v => setProp out k (v.get "message"))]
    have hstep : ∀ (o : Props), ∀ q ∈ props,
        setProp o q.1 (q.2.get "message")
          = (if (fun _ : String × JSValue => true) q = true then
              setProp o q.1 (q.2.get "message") else o) := by
      intro o q _
      simp
    rw [List.foldl_ext _ _ _ hstep,
      foldl_setProp_eq_append (fun _ => true) Prod.fst (fun q => q.2.get "message") props []
        (by simpa using hnd)]
    simp [Except.map]
  · intro acc k hk
    obtain ⟨q, hq, hqk⟩ := get_obj_of_mem_keys props k hk
    obtain ⟨e, he⟩ := hrec q hq
    have hn : ((obj props).get k).neNull = true := by
      rw [hqk, he]
      rfl
    simp [readProp, hn, bind, Except.bind, pure, Except.pure]

/-! ## Claims C21 to C25: the binders -/

theorem orEmptyObject_get (options : JSValue) (k : String) :
    (orEmptyObject options).get k = options.get k := by
  cases options <;> rfl

theorem orEmptyObject_neNull (options : JSValue) (h : options ≠ JSValue.null) :
    (orEmptyObject options).neNull = true := by
  cases options <;> first | rfl | exact absurd rfl h

/-- Reading a mapping whose values were transformed entry by entry. -/
theorem get_obj_map (props : Props) (g : JSValue → JSValue) (k : String)
    (hk : k ∈ props.map Prod.fst) :
    (obj (props.map fun q => (q.1, g q.2))).get k = g ((obj props).get k) := by
  induction props with
  | nil => simp at hk
  | cons q rest ih =>
    obtain ⟨k', v'⟩ := q
    by_cases hkk : k = k'
    · subst hkk
      simp only [List.map_cons, get_obj_cons_self]
    · simp only [List.map_cons, List.mem_cons, hkk, false_or] at hk
      simp only [List.map_cons]
      rw [get_obj_cons_ne k k' _ _ hkk, get_obj_cons_ne k k' _ _ hkk]
      exact ih hk

/-- Claim C21. For every schema with a callable `validate` and every input on
which `validate` resolves with a result object: the resolver returned by
`rhfBinder(schema)` resolves with `{values: result.value, errors: {}}` when
`result.valid` is truthy, and with
`{values: {}, errors: flattenMoldErrorsToRHF(result.errors)}` otherwise, so
`values` is the empty object on every failure. -/
theorem rhf_resolver_result (validate : JSValue → Outcome JSValue) (data result : JSValue)
    (hres : validate data = Except.ok result) (hobj : result.neNull = true) :
    ∃ resolver : JSValue → Outcome JSValue,
      rhfBinder (Schema.withValidate validate) = Except.ok resolver
      ∧ resolver data = Except.ok
          (if (result.get "valid").truthy = true
            then obj [("values", result.get "value"), ("errors", obj [])]
            else obj [("values", obj []),
              ("errors", flattenMoldErrorsToRHF (result.get "errors"))]) := by
  refine ⟨_, rfl, ?_⟩
  simp only [Schema.callValidate, hres, readProp, hobj, if_true, bind, Except.bind, pure,
    Except.pure]
  split_ifs <;> rfl

theorem rhf_resolver_result_witness :
    (fun _ : JSValue => (Except.ok (obj [("valid", bool false), ("value", JSValue.undefined),
        ("errors", obj [("email", arr [obj [("rule", str "validateEmail"),
          ("message", str "Invalid email")]] none)])]) : Outcome JSValue))
      (obj [("name", str "John"), ("email", str "invalid-email"), ("age", num 25)])
      = Except.ok (obj [("valid", bool false), ("value", JSValue.undefined),
        ("errors", obj [("email", arr [obj [("rule", str "validateEmail"),
          ("message", str "Invalid email")]] none)])])
    ∧ (obj [("valid", bool false), ("value", JSValue.undefined),
        ("errors", obj [("email", arr [obj [("rule", str "validateEmail"),
          ("message", str "Invalid email")]] none)])]).neNull = true
    ∧ ∃ resolver : JSValue → Outcome JSValue,
      rhfBinder (Schema.withValidate fun _ : JSValue =>
        Except.ok (obj [("valid", bool false), ("value", JSValue.undefined),
          ("errors", obj [("email", arr [obj [("rule", str "validateEmail"),
            ("message", str "Invalid email")]] none)])])) = Except.ok resolver
      ∧ resolver (obj [("name", str "John"), ("email", str "invalid-email"), ("age", num 25)])
        = Except.ok
          (if ((obj [("valid", bool false), ("value", JSValue.undefined),
              ("errors", obj [("email", arr [obj [("rule", str "validateEmail"),
                ("message", str "Invalid email")]] none)])]).get "valid").truthy = true
            then obj [("values", (obj [("valid", bool false), ("value", JSValue.undefined),
              ("errors", obj [("email", arr [obj [("rule", str "validateEmail"),
                ("message", str "Invalid email")]] none)])]).get "value"), ("errors", obj [])]
            else obj [("values", obj []),
              ("errors", flattenMoldErrorsToRHF
                ((obj [("valid", bool false), ("value", JSValue.undefined),
                  ("errors", obj [("email", arr [obj [("rule", str "validateEmail"),
                    ("message", str "Invalid email")]] none)])]).get "errors"))]) :=
  ⟨rfl, rfl, rhf_resolver_result _ _ _ rfl rfl⟩

/-- Claim C22. For every schema with a callable `validate`, every `options`
argument (omitted, or a value other than `null`) and every input on which
`validate` resolves with a result object: the validator returned by
`formikBinder(schema, options)` resolves with `{}` when `result.valid` is truthy;
otherwise it raises `new ValidationError(transformMoldErrorsToFormik(result.errors))`
when `options.throwOnError` is truthy and resolves with
`transformMoldErrorsToFormik(result.errors)` when it is not. So the validator
raises if and only if the result is not valid and `throwOnError` is set, and the
raised value has the message `"Validation failed"` and carries the transformed
errors. -/
theorem formik_throw_on_error (validate : JSValue → Outcome JSValue)
    (options values result : JSValue) (hopt : options ≠ JSValue.null)
    (hres : validate values = Except.ok result) (hobj : result.neNull = true) :
    ∃ validator : JSValue → Outcome JSValue,
      formikBinder (Schema.withValidate validate) options = Except.ok validator
      ∧ validator values
        = (if (result.get "valid").truthy = true then Except.ok (obj [])
          else if (options.get "throwOnError").truthy = true then
            Except.error (Thrown.error
              (ValidationError (transformMoldErrorsToFormik (result.get "errors"))))
          else Except.ok (transformMoldErrorsToFormik (result.get "errors")))
      ∧ ((∃ e, validator values = Except.error e)
        ↔ ((result.get "valid").truthy = false ∧ (options.get "throwOnError").truthy = true))
      ∧ (ValidationError (transformMoldErrorsToFormik (result.get "errors"))).message
        = "Validation failed"
      ∧ (ValidationError (transformMoldErrorsToFormik (result.get "errors"))).errors
        = transformMoldErrorsToFormik (result.get "errors") := by
  have hread : readProp (orEmptyObject options) "throwOnError"
      = Except.ok (options.get "throwOnError") := by
    simp [readProp, orEmptyObject_neNull options hopt, orEmptyObject_get]
  have hthrow : ∀ t : JSValue, (orFalse t).truthy = t.truthy := by
    intro t
    cases t <;> rfl
  have hval : ∀ validator : JSValue → Outcome JSValue,
      formikBinder (Schema.withValidate validate) options = Except.ok validator →
      validator values
        = (if (result.get "valid").truthy = true then Except.ok (obj [])
          else if (options.get "throwOnError").truthy = true then
            Except.error (Thrown.error
              (ValidationError (transformMoldErrorsToFormik (result.get "errors"))))
          else Except.ok (transformMoldErrorsToFormik (result.get "errors"))) := by
    intro validator hv
    simp only [formikBinder, hread, Schema.truthy, Schema.validateIsFunction, Bool.not_true,
      Bool.or_self, Bool.false_eq_true, if_false, Except.ok.injEq] at hv
    rw [← hv]
    simp only [Schema.callValidate, hres, readProp, hobj, if_true, bind, Except.bind, pure,
      Except.pure, hthrow, throw, throwThe, MonadExceptOf.throw]
  have hex : ∃ validator : JSValue → Outcome JSValue,
      formikBinder (Schema.withValidate validate) options = Except.ok validator := by
    simp only [formikBinder, hread, Schema.truthy, Schema.validateIsFunction, Bool.not_true,
      Bool.or_self, Bool.false_eq_true, if_false]
    exact ⟨_, rfl⟩
  obtain ⟨validator, hv⟩ := hex
  refine ⟨validator, hv, hval validator hv, ?_, rfl, rfl⟩
  rw [hval validator hv]
  constructor
  · rintro ⟨e, he⟩
    split_ifs at he with h1 h2
    · exact ⟨by simpa using h1, h2⟩
  · rintro ⟨h1, h2⟩
    rw [h1, h2]
    exact ⟨_, rfl⟩

theorem formik_throw_on_error_witness :
    obj [("throwOnError", bool true)] ≠ JSValue.null
    ∧ (fun _ : JSValue => (Except.ok (obj [("valid", bool false),
        ("errors", obj [("name", arr [obj [("rule", str "validateNotEmpty"),
          ("message", str "Required")]] none)])]) : Outcome JSValue))
      (obj [("name", str "")])
      = Except.ok (obj [("valid", bool false),
        ("errors", obj [("name", arr [obj [("rule", str "validateNotEmpty"),
          ("message", str "Required")]] none)])])
    ∧ (obj [("valid", bool false),
        ("errors", obj [("name", arr [obj [("rule", str "validateNotEmpty"),
          ("message", str "Required")]] none)])]).neNull = true
    ∧ ∃ validator : JSValue → Outcome JSValue,
      formikBinder (Schema.withValidate fun _ : JSValue =>
        Except.ok (obj [("valid", bool false),
          ("errors", obj [("name", arr [obj [("rule", str "validateNotEmpty"),
            ("message", str "Required")]] none)])])) (obj [("throwOnError", bool true)])
        = Except.ok validator
      ∧ ∃ e, validator (obj [("name", str "")]) = Except.error e :=
  ⟨fun h => JSValue.noConfusion h, rfl, rfl,
    (formik_throw_on_error
      (fun _ : JSValue => Except.ok (obj [("valid", bool false),
        ("errors", obj [("name", arr [obj [("rule", str "validateNotEmpty"),
          ("message", str "Required")]] none)])]))
      (obj [("throwOnError", bool true)]) (obj [("name", str "")])
      (obj [("valid", bool false),
        ("errors", obj [("name", arr [obj [("rule", str "validateNotEmpty"),
          ("message", str "Required")]] none)])])
      (fun h => JSValue.noConfusion h) rfl rfl).elim fun validator h =>
        ⟨validator, h.1, h.2.2.1.mpr ⟨by decide, by decide⟩⟩⟩

/-- Claim C23. For every schema with a callable `validate`: the validators
returned by `tanstackBinder` and `veeBinder` give the same outcome on every input;
and on every input on which `validate` resolves with a result object they resolve
with `{}` when `result.valid` is truthy, and otherwise with a mapping that has
exactly the keys of `flat = flattenMoldErrorsToRHF(result.errors)`, in the same
order, and holds `flat[k].message` under each key `k`. -/
theorem flat_message_binders (validate : JSValue → Outcome JSValue) :
    ∃ tanstack vee : JSValue → Outcome JSValue,
      tanstackBinder (Schema.withValidate validate) = Except.ok tanstack
      ∧ veeBinder (Schema.withValidate validate) = Except.ok vee
      ∧ (∀ values : JSValue, tanstack values = vee values)
      ∧ ∀ values result : JSValue, validate values = Except.ok result →
          result.neNull = true →
          ∃ out : JSValue,
            tanstack values = Except.ok out
            ∧ ((result.get "valid").truthy = true → out = obj [])
            ∧ ((result.get "valid").truthy = false →
                out.keys = (flattenMoldErrorsToRHF (result.get "errors")).keys
                ∧ ∀ k ∈ (flattenMoldErrorsToRHF (result.get "errors")).keys,
                    out.get k
                      = ((flattenMoldErrorsToRHF (result.get "errors")).get k).get
                          "message") := by
  refine ⟨_, _, rfl, rfl, fun _ => rfl, ?_⟩
  intro values result hres hobj
  obtain ⟨props, hflat, hnd, hrec⟩ := flatten_records (result.get "errors")
  by_cases hvalid : (result.get "valid").truthy = true
  · refine ⟨obj [], ?_, fun _ => rfl, fun h => ?_⟩
    · simp only [Schema.callValidate, hres, readProp, hobj, if_true, bind, Except.bind, pure,
        Except.pure, hvalid]
    · rw [hvalid] at h
      cases h
  · refine ⟨obj (props.map fun q => (q.1, q.2.get "message")), ?_,
      fun h => absurd h hvalid, fun _ => ?_⟩
    · simp only [Schema.callValidate, hres, readProp, hobj, if_true, bind, Except.bind, pure,
        Except.pure, hvalid, if_false, hflat, messagesOf_records props hnd hrec,
        Bool.false_eq_true]
    · rw [hflat]
      refine ⟨by simp [List.map_map, Function.comp_def], fun k hk => ?_⟩
      exact get_obj_map props (fun v => v.get "message") k (by simpa using hk)

theorem flat_message_binders_witness :
    ∃ tanstack : JSValue → Outcome JSValue,
      tanstackBinder (Schema.withValidate fun _ : JSValue =>
        Except.ok (obj [("valid", bool false),
          ("errors", obj [("name", arr [obj [("rule", str "validateNotEmpty"),
            ("message", str "Required")]] none)])])) = Except.ok tanstack
      ∧ ∃ out : JSValue, tanstack (obj [("name", str "")]) = Except.ok out
        ∧ out.keys = ["name"] ∧ out.get "name" = str "Required" := by
  obtain ⟨tanstack, _, ht, _, _, h⟩ := flat_message_binders fun _ : JSValue =>
    Except.ok (obj [("valid", bool false),
      ("errors", obj [("name", arr [obj [("rule", str "validateNotEmpty"),
        ("message", str "Required")]] none)])])
  obtain ⟨out, ho, _, hk⟩ := h (obj [("name", str "")])
    (obj [("valid", bool false),
      ("errors", obj [("name", arr [obj [("rule", str "validateNotEmpty"),
        ("message", str "Required")]] none)])]) rfl rfl
  exact ⟨tanstack, ht, out, ho, (hk rfl).1, (hk rfl).2 "name" (by decide)⟩

/-- Claim C24. Each of `rhfBinder`, `formikBinder`, `felteBinder`,
`mantineBinder`, `tanstackBinder`, `veeBinder`, `solidBinder` and `svelteBinder`,
called with a schema that has no callable `validate` (`null`, `undefined`, a value
with no `validate` property or with one that is not a function), raises at the
call `new Error("<binderName> requires a mold schema with a validate method")`
and returns nothing; called with a schema whose `validate` is callable it returns.
For `formikBinder` the `options` argument is omitted or any value other than
`null`. -/
theorem binders_require_schema (v options initialValues : JSValue)
    (validate : JSValue → Outcome JSValue) (hopt : options ≠ JSValue.null) :
    (rhfBinder (Schema.plain v) = Except.error (Thrown.error
        (newError "rhfBinder requires a mold schema with a validate method"))
      ∧ formikBinder (Schema.plain v) options = Except.error (Thrown.error
        (newError "formikBinder requires a mold schema with a validate method"))
      ∧ felteBinder (Schema.plain v) = Except.error (Thrown.error
        (newError "felteBinder requires a mold schema with a validate method"))
      ∧ mantineBinder (Schema.plain v) = Except.error (Thrown.error
        (newError "mantineBinder requires a mold schema with a validate method"))
      ∧ tanstackBinder (Schema.plain v) = Except.error (Thrown.error
        (newError "tanstackBinder requires a mold schema with a validate method"))
      ∧ veeBinder (Schema.plain v) = Except.error (Thrown.error
        (newError "veeBinder requires a mold schema with a validate method"))
      ∧ solidBinder (Schema.plain v) initialValues = Except.error (Thrown.error
        (newError "solidBinder requires a mold schema with a validate method"))
      ∧ svelteBinder (Schema.plain v) initialValues = Except.error (Thrown.error
        (newError "svelteBinder requires a mold schema with a validate method")))
    ∧ ((∃ r, rhfBinder (Schema.withValidate validate) = Except.ok r)
      ∧ (∃ r, formikBinder (Schema.withValidate validate) options = Except.ok r)
      ∧ (∃ r, felteBinder (Schema.withValidate validate) = Except.ok r)
      ∧ (∃ r, mantineBinder (Schema.withValidate validate) = Except.ok r)
      ∧ (∃ r, tanstackBinder (Schema.withValidate validate) = Except.ok r)
      ∧ (∃ r, veeBinder (Schema.withValidate validate) = Except.ok r)
      ∧ (∃ r, solidBinder (Schema.withValidate validate) initialValues = Except.ok r)
      ∧ (∃ r, svelteBinder (Schema.withValidate validate) initialValues = Except.ok r)) := by
  have hread : readProp (orEmptyObject options) "throwOnError"
      = Except.ok (options.get "throwOnError") := by
    simp [readProp, orEmptyObject_neNull options hopt, orEmptyObject_get]
  have hguard : (!(Schema.plain v).truthy || !(Schema.plain v).validateIsFunction) = true := by
    simp [Schema.validateIsFunction]
  have hpass : ∀ f : JSValue → Outcome JSValue,
      (!(Schema.withValidate f).truthy || !(Schema.withValidate f).validateIsFunction)
        = false := fun _ => rfl
  refine ⟨⟨?_, ?_, ?_, ?_, ?_, ?_, ?_, ?_⟩, ⟨?_, ?_, ?_, ?_, ?_, ?_, ?_, ?_⟩⟩
  · simp only [rhfBinder, hguard, if_true]
  · simp only [formikBinder, hread, hguard, if_true]
  · simp only [felteBinder, hguard, if_true]
  · simp only [mantineBinder, hguard, if_true]
  · simp only [tanstackBinder, hguard, if_true]
  · simp only [veeBinder, hguard, if_true]
  · simp only [solidBinder, hguard, if_true]
  · simp only [svelteBinder, hguard, if_true]
  · exact ⟨_, rfl⟩
  · simp only [formikBinder, hread, hpass, Bool.false_eq_true, if_false]
    exact ⟨_, rfl⟩
  · exact ⟨_, rfl⟩
  · exact ⟨_, rfl⟩
  · exact ⟨_, rfl⟩
  · exact ⟨_, rfl⟩
  · exact ⟨_, rfl⟩
  · exact ⟨_, rfl⟩

theorem binders_require_schema_witness :
    JSValue.undefined ≠ JSValue.null
    ∧ rhfBinder (Schema.plain (obj [("validate", str "not a function")]))
      = Except.error (Thrown.error
        (newError "rhfBinder requires a mold schema with a validate method"))
    ∧ formikBinder (Schema.plain (obj [("validate", str "not a function")]))
        JSValue.undefined
      = Except.error (Thrown.error
        (newError "formikBinder requires a mold schema with a validate method"))
    ∧ (∃ r, formikBinder (Schema.withValidate fun _ : JSValue =>
        Except.ok (obj [("valid", bool true)])) JSValue.undefined = Except.ok r) :=
  ⟨fun h => JSValue.noConfusion h,
    (binders_require_schema (obj [("validate", str "not a function")]) JSValue.undefined
      JSValue.undefined (fun _ => Except.ok (obj [("valid", bool true)]))
      (fun h => JSValue.noConfusion h)).1.1,
    (binders_require_schema (obj [("validate", str "not a function")]) JSValue.undefined
      JSValue.undefined (fun _ => Except.ok (obj [("valid", bool true)]))
      (fun h => JSValue.noConfusion h)).1.2.1,
    (binders_require_schema (obj [("validate", str "not a function")]) JSValue.undefined
      JSValue.undefined (fun _ => Except.ok (obj [("valid", bool true)]))
      (fun h => JSValue.noConfusion h)).2.2.1⟩

/-- Claim C25. For the handler returned by `handleSubmit(fn)` of `useForm`, run
on any form state with a schema whose `validate` is callable: `fn` is invoked if
and only if `schema.validate` resolves with a result whose `valid` is truthy, and
then once, with `result.value`; and whenever `validate` resolves with a result
object, afterwards `errors` is `{}` when the result is valid and `result.errors`
(or `{}` when that is absent) when it is not, and `isValid` holds
`result.valid`. -/
theorem useForm_submit_contract (validate fn : JSValue → Outcome JSValue) (s : FormState) :
    ((useForm.handleSubmit (Schema.withValidate validate) fn s).calls ≠ []
      ↔ ∃ result : JSValue, validate s.values = Except.ok result ∧ result.neNull = true
          ∧ (result.get "valid").truthy = true)
    ∧ ∀ result : JSValue, validate s.values = Except.ok result → result.neNull = true →
        (useForm.handleSubmit (Schema.withValidate validate) fn s).calls
          = (if (result.get "valid").truthy = true then [result.get "value"] else [])
        ∧ (useForm.handleSubmit (Schema.withValidate validate) fn s).state.errors
          = (if (result.get "valid").truthy = true then obj []
            else if (result.get "errors").truthy = true then result.get "errors" else obj [])
        ∧ (useForm.handleSubmit (Schema.withValidate validate) fn s).state.isValid
          = result.get "valid" := by
  have hrun : ∀ result : JSValue, validate s.values = Except.ok result →
      result.neNull = true →
      (useForm.handleSubmit (Schema.withValidate validate) fn s).calls
          = (if (result.get "valid").truthy = true then [result.get "value"] else [])
        ∧ (useForm.handleSubmit (Schema.withValidate validate) fn s).state.errors
          = (if (result.get "valid").truthy = true then obj []
            else if (result.get "errors").truthy = true then result.get "errors" else obj [])
        ∧ (useForm.handleSubmit (Schema.withValidate validate) fn s).state.isValid
          = result.get "valid" := by
    intro result hres hobj
    by_cases hvalid : (result.get "valid").truthy = true
    · cases hfn : fn (result.get "value") <;>
        simp [useForm.handleSubmit, useForm.validate, Schema.callValidate, hres, readProp,
          hobj, hvalid, hfn]
    · simp [useForm.handleSubmit, useForm.validate, Schema.callValidate, hres, readProp,
        hobj, hvalid]
  refine ⟨⟨fun hcalls => ?_, ?_⟩, hrun⟩
  · cases hres : validate s.values with
    | error e =>
      simp [useForm.handleSubmit, useForm.validate, Schema.callValidate, hres] at hcalls
    | ok result =>
      by_cases hobj : result.neNull = true
      · refine ⟨result, rfl, hobj, ?_⟩
        by_contra hvalid
        rw [(hrun result hres hobj).1] at hcalls
        simp [hvalid] at hcalls
      · simp [useForm.handleSubmit, useForm.validate, Schema.callValidate, hres, readProp,
          hobj] at hcalls
  · rintro ⟨result, hres, hobj, hvalid⟩
    rw [(hrun result hres hobj).1]
    simp [hvalid]

theorem useForm_submit_contract_witness :
    (fun _ : JSValue => (Except.ok (obj [("valid", bool true),
        ("value", obj [("age", num 20)])]) : Outcome JSValue))
      (useForm (Schema.withValidate fun _ : JSValue => Except.ok (obj [("valid", bool true),
        ("value", obj [("age", num 20)])])) (obj [("age", num 20)])).values
      = Except.ok (obj [("valid", bool true), ("value", obj [("age", num 20)])])
    ∧ (obj [("valid", bool true), ("value", obj [("age", num 20)])]).neNull = true
    ∧ (useForm.handleSubmit
        (Schema.withValidate fun _ : JSValue => Except.ok (obj [("valid", bool true),
          ("value", obj [("age", num 20)])]))
        (fun _ : JSValue => Except.ok JSValue.undefined)
        (useForm (Schema.withValidate fun _ : JSValue => Except.ok (obj [("valid", bool true),
          ("value", obj [("age", num 20)])])) (obj [("age", num 20)]))).calls
      = (if ((obj [("valid", bool true), ("value", obj [("age", num 20)])]).get
            "valid").truthy = true
          then [(obj [("valid", bool true), ("value", obj [("age", num 20)])]).get "value"]
          else []) :=
  ⟨rfl, rfl,
    ((useForm_submit_contract
      (fun _ : JSValue => Except.ok (obj [("valid", bool true),
        ("value", obj [("age", num 20)])]))
      (fun _ : JSValue => Except.ok JSValue.undefined)
      (useForm (Schema.withValidate fun _ : JSValue => Except.ok (obj [("valid", bool true),
        ("value", obj [("age", num 20)])])) (obj [("age", num 20)]))).2
      (obj [("valid", bool true), ("value", obj [("age", num 20)])]) rfl rfl).1⟩

/-! ## Claims C31 to C33 and C37 -/

/-- Claim C31. When the error tree itself is an array whose first element has
truthy `rule` and `message`, `transformMoldErrorsToFormik` returns that element's
`message` itself (not a mapping) and `flattenMoldErrorsToRHF` returns the single
entry `"" ↦ {type: rule, message}`. -/
theorem root_leaf_group (e : JSValue) (es : List JSValue) (items : Option JSValue)
    (hleaf : isLeaf e = true) :
    transformMoldErrorsToFormik (arr (e :: es) items) = e.get "message"
    ∧ flattenMoldErrorsToRHF (arr (e :: es) items) = obj [("", leafRecord e)] := by
  have hparts : e.truthy = true ∧ (e.get "rule").truthy = true
      ∧ (e.get "message").truthy = true := by
    simpa [isLeaf, and_assoc] using hleaf
  constructor
  · rw [transform_of_truthy _ (truthy_arr _ _), mirror_eq,
      convertStep_leafGroup _ e es items hparts.1 hparts.2.1 hparts.2.2]
    simp [hparts.2.2]
  · rw [flatten_of_truthy _ (truthy_arr _ _), walkNode_eq,
      walkStep_leafGroup _ e es items "" [] hparts.1 hparts.2.1 hparts.2.2]
    rfl

theorem root_leaf_group_witness :
    isLeaf (obj [("rule", str "validateRequired"), ("message", str "Required")]) = true
    ∧ transformMoldErrorsToFormik
        (arr [obj [("rule", str "validateRequired"), ("message", str "Required")]] none)
      = str "Required"
    ∧ flattenMoldErrorsToRHF
        (arr [obj [("rule", str "validateRequired"), ("message", str "Required")]] none)
      = obj [("", obj [("type", str "validateRequired"), ("message", str "Required")])] :=
  ⟨by decide,
    root_leaf_group (obj [("rule", str "validateRequired"), ("message", str "Required")]) []
      none (by decide)⟩

/-- Claim C32. For every schema with a callable `validate`: the validators
returned by `felteBinder(schema)`, `mantineBinder(schema)` and
`formikBinder(schema)` (options omitted) have the same outcome on every input; and
on every input on which `validate` resolves with a result object they resolve with
`{}` when `result.valid` is truthy, whatever `result.errors` holds, and with
`transformMoldErrorsToFormik(result.errors)` otherwise. -/
theorem mirror_binders_coincide (validate : JSValue → Outcome JSValue) :
    ∃ felte mantine formik : JSValue → Outcome JSValue,
      felteBinder (Schema.withValidate validate) = Except.ok felte
      ∧ mantineBinder (Schema.withValidate validate) = Except.ok mantine
      ∧ formikBinder (Schema.withValidate validate) JSValue.undefined = Except.ok formik
      ∧ (∀ values : JSValue, felte values = mantine values ∧ mantine values = formik values)
      ∧ ∀ values result : JSValue, validate values = Except.ok result →
          result.neNull = true →
          felte values = Except.ok
            (if (result.get "valid").truthy = true then obj []
              else transformMoldErrorsToFormik (result.get "errors")) := by
  refine ⟨_, _, _, rfl, rfl, rfl, fun values => ⟨rfl, ?_⟩, ?_⟩
  · simp only [Schema.callValidate]
    cases validate values with
    | error e => rfl
    | ok result =>
      cases hn : result.neNull
      · simp [readProp, hn, bind, Except.bind]
      · by_cases hv : (result.get "valid").truthy = true
        · simp [readProp, hn, hv, bind, Except.bind, pure, Except.pure]
        · simp [readProp, hn, hv, bind, Except.bind, pure, Except.pure, orFalse,
            orEmptyObject, JSValue.get, JSValue.truthy]
  · intro values result hres hobj
    simp only [Schema.callValidate, hres, readProp, hobj, if_true, bind, Except.bind, pure,
      Except.pure]
    split_ifs <;> rfl

theorem mirror_binders_coincide_witness :
    ∃ felte : JSValue → Outcome JSValue,
      felteBinder (Schema.withValidate fun _ : JSValue =>
        Except.ok (obj [("valid", bool false),
          ("errors", obj [("name", arr [obj [("rule", str "validateNotEmpty"),
            ("message", str "Required")]] none)])])) = Except.ok felte
      ∧ felte (obj [("name", str "")]) = Except.ok (obj [("name", str "Required")]) := by
  obtain ⟨felte, _, _, hf, _, _, _, h⟩ := mirror_binders_coincide fun _ : JSValue =>
    Except.ok (obj [("valid", bool false),
      ("errors", obj [("name", arr [obj [("rule", str "validateNotEmpty"),
        ("message", str "Required")]] none)])])
  exact ⟨felte, hf, h (obj [("name", str "")])
    (obj [("valid", bool false),
      ("errors", obj [("name", arr [obj [("rule", str "validateNotEmpty"),
        ("message", str "Required")]] none)])]) rfl rfl⟩

/-- Claim C33 is violated by the code: `useForm` has no schema guard. For every
schema value without a callable `validate` (`null` included) the call returns the
form state, and the failure comes only with the first call of `validate`, as a
TypeError; the binders `solidBinder` and `svelteBinder` raise their configuration
error at the call. -/
theorem useForm_accepts_any_schema (v initialValues : JSValue) (s : FormState) :
    useForm (Schema.plain v) initialValues
      = FormState.mk (obj (orEmptyObject initialValues).ownProps) (obj []) false (bool true)
    ∧ useForm.validate (Schema.plain v) s = (s, Except.error Thrown.typeError)
    ∧ solidBinder (Schema.plain v) initialValues = Except.error (Thrown.error
        (newError "solidBinder requires a mold schema with a validate method"))
    ∧ svelteBinder (Schema.plain v) initialValues = Except.error (Thrown.error
        (newError "svelteBinder requires a mold schema with a validate method")) := by
  have hguard : (!(Schema.plain v).truthy || !(Schema.plain v).validateIsFunction) = true := by
    simp [Schema.validateIsFunction]
  refine ⟨rfl, rfl, ?_, ?_⟩
  · simp only [solidBinder, hguard, if_true]
  · simp only [svelteBinder, hguard, if_true]

/-- In `svelteBinder` the `finally` clause resets `isSubmitting` on every way out
of the handler. -/
theorem svelte_handleSubmit_resets (schema : Schema) (onSubmit : JSValue → Outcome JSValue)
    (s : FormState) : (svelteBinder.handleSubmit schema onSubmit s).state.isSubmitting = false := by
  unfold svelteBinder.handleSubmit
  simp only
  split
  · rfl
  · split_ifs
    · split <;> rfl
    · rfl

/-- Claim C37 is violated by the code: the handler of `useForm` sets
`isSubmitting` back to `false` only as its last statement, with no `finally`
clause, so after every run `isSubmitting` is `true` exactly when the handler
raised; with a valid result and a callback `fn` that raises, `isSubmitting` stays
`true`. -/
theorem useForm_isSubmitting_stuck :
    (∀ (schema : Schema) (fn : JSValue → Outcome JSValue) (s : FormState),
      (useForm.handleSubmit schema fn s).state.isSubmitting
        = match (useForm.handleSubmit schema fn s).outcome with
          | Except.ok _ => false
          | Except.error _ => true)
    ∧ (useForm.handleSubmit
        (Schema.withValidate fun _ : JSValue =>
          Except.ok (obj [("valid", bool true), ("value", obj [("age", num 20)])]))
        (fun _ : JSValue => Except.error (Thrown.value (str "submit failed")))
        (useForm (Schema.withValidate fun _ : JSValue =>
          Except.ok (obj [("valid", bool true), ("value", obj [("age", num 20)])]))
          (obj [("age", num 20)]))).state.isSubmitting = true
    ∧ (svelteBinder.handleSubmit
        (Schema.withValidate fun _ : JSValue =>
          Except.ok (obj [("valid", bool true), ("value", obj [("age", num 20)])]))
        (fun _ : JSValue => Except.error (Thrown.value (str "submit failed")))
        (FormState.mk (obj [("age", num 20)]) (obj []) false (bool true))).state.isSubmitting
      = false := by
  refine ⟨?_, rfl, rfl⟩
  intro schema fn s
  unfold useForm.handleSubmit useForm.validate
  simp only
  cases schema.callValidate s.values with
  | error e => rfl
  | ok result =>
    simp only
    cases hn : result.neNull
    · simp [readProp, hn]
    · simp only [readProp, hn, if_true]
      by_cases hv : (result.get "valid").truthy = true
      · simp only [hv, if_true]
        cases fn (result.get "value") <;> rfl
      · simp only [hv, if_false]
        rfl

/-! ## Claim C36: an `items` entry and a direct entry at the same index -/

/-- Claim C36. In a hybrid array under a non-empty field `f` (two or more
elements, the first not a leaf) whose `items` object holds a leaf group at index
`i`: the value found at key `"f.i"` in the output of `flattenMoldErrorsToRHF` is
the record of `items[i][0]`, whatever the element loop has written there before,
in particular when the direct element `a[i]` is a leaf that produced an entry
`"f.i"` of its own. -/
theorem items_entry_overwrites_direct (f : String) (es : List JSValue) (its : Props)
    (i : Nat) (g : JSValue) (hf : f ≠ "") (hlen : 2 ≤ es.length)
    (hfirst : isLeaf (es.getD 0 JSValue.undefined) = false)
    (hnd : (its.map Prod.fst).Nodup) (hitem : (toString i, g) ∈ its)
    (hg : isLeafGroup g = true) :
    (flattenMoldErrorsToRHF (obj [(f, arr es (some (obj its)))])).get (f ++ "." ++ toString i)
      = obj [("type", (g.index 0).get "rule"), ("message", (g.index 0).get "message")] := by
  have hkey : joinPath f (toString i) = f ++ "." ++ toString i := joinPath_of_ne hf _
  have hgparts : g.isArray = true ∧ (g.index 0).truthy = true
      ∧ ((g.index 0).get "rule").truthy = true := by
    cases g with
    | arr ges gitems =>
      cases ges with
      | nil => simp [isLeafGroup] at hg
      | cons e rest =>
        simp only [isLeafGroup, Bool.and_eq_true] at hg
        exact ⟨rfl, hg.1.1, hg.1.2⟩
    | _ => simp [isLeafGroup] at hg
  have hloop : ∀ out, (walkItems walkNode (obj its) f out).lookup (joinPath f (toString i))
      = some (leafRecord (g.index 0)) := by
    intro out
    unfold walkItems
    apply foldl_sets_key _ _ _ (toString i) _
      (by rw [keys_obj]; exact List.mem_map.mpr ⟨_, hitem, rfl⟩)
    · intro acc
      have hget : (obj its).get (toString i) = g := get_obj_of_mem its hnd _ _ hitem
      have hc : (g.isArray && (g.index 0).truthy && ((g.index 0).get "rule").truthy) = true := by
        simp [hgparts.1, hgparts.2.1, hgparts.2.2]
      simp only [hget, hc, if_true]
      exact lookup_setProp_self _ _ _
    · intro acc idx _ hidx
      have hnu : ¬ underPath (joinPath f idx) (joinPath f (toString i)) :=
        not_underPath_sibling f idx i hf hidx
      have hne : joinPath f idx ≠ "" := joinPath_ne_empty hf idx
      simp only
      split_ifs
      · exact lookup_setProp_ne _ _ _ _ fun h => hnu (h ▸ underPath_self _)
      · exact walkNode_footprint _ _ _ _ hne hnu
      · exact walkNode_footprint _ _ _ _ hne hnu
      · rfl
  rw [flatten_hybrid f es (some (obj its)) hlen hfirst, get_obj, ← hkey]
  simp only [Option.getD_some, truthy_obj, if_true]
  rw [hloop]
  rfl

theorem items_entry_overwrites_direct_witness :
    "data" ≠ ""
    ∧ 2 ≤ [obj [("someData", str "value")],
        obj [("rule", str "validateRequired"), ("message", str "Required")]].length
    ∧ isLeaf ([obj [("someData", str "value")],
        obj [("rule", str "validateRequired"), ("message", str "Required")]].getD 0
          JSValue.undefined) = false
    ∧ ([(toString 1, arr [obj [("rule", str "isEmpty"), ("message", str "Empty")]]
        none)].map Prod.fst).Nodup
    ∧ isLeafGroup (arr [obj [("rule", str "isEmpty"), ("message", str "Empty")]] none) = true
    ∧ (flattenMoldErrorsToRHF (obj [("data",
        arr [obj [("someData", str "value")],
          obj [("rule", str "validateRequired"), ("message", str "Required")]]
        (some (obj [(toString 1, arr [obj [("rule", str "isEmpty"), ("message", str "Empty")]]
          none)])))])).get ("data" ++ "." ++ toString 1)
      = obj [("type", str "isEmpty"), ("message", str "Empty")] :=
  ⟨by decide, by decide, by decide, by decide, by decide,
    items_entry_overwrites_direct "data"
      [obj [("someData", str "value")],
        obj [("rule", str "validateRequired"), ("message", str "Required")]]
      [(toString 1, arr [obj [("rule", str "isEmpty"), ("message", str "Empty")]] none)]
      1 (arr [obj [("rule", str "isEmpty"), ("message", str "Empty")]] none)
      (by decide) (by decide) (by decide) (by decide) (List.mem_singleton.mpr rfl)
      (by decide)⟩

/-! ## Claim C34: the prefix law of `flattenMoldErrorsToRHF` -/

theorem toDigitsCore_ne_nil (fuel : Nat) :
    ∀ (n : Nat) (ds : List Char), ds ≠ [] → Nat.toDigitsCore 10 fuel n ds ≠ [] := by
  induction fuel with
  | zero => intro n ds h; simpa [Nat.toDigitsCore] using h
  | succ f ih =>
    intro n ds _
    simp only [Nat.toDigitsCore]
    split_ifs
    · exact List.cons_ne_nil _ _
    · exact ih _ _ (List.cons_ne_nil _ _)

/-- The rendering `String(i)` of an index is never empty. -/
theorem toString_nat_ne_empty (i : Nat) : toString i ≠ "" := by
  intro h
  have hd : (toString i).data = [] := by rw [h]
  have hc : Nat.toDigitsCore 10 (i + 1) i [] = [] := hd
  simp only [Nat.toDigitsCore] at hc
  split_ifs at hc
  · exact toDigitsCore_ne_nil _ _ _ (List.cons_ne_nil _ _) hc

theorem indexed_keys (es : List JSValue) :
    ∀ (j : Nat), ∀ q ∈ indexed j es, ∃ n : Nat, q.1 = toString n := by
  induction es with
  | nil => intro j q hq; simp [indexed] at hq
  | cons e rest ih =>
    intro j q hq
    simp only [indexed, List.mem_cons] at hq
    rcases hq with h | h
    · exact ⟨j, by rw [h]⟩
    · exact ih _ q h

/-- In a value without empty keys, `Object.keys` lists no empty string. -/
theorem keys_ne_empty (v : JSValue) (h : 0 < v.height → noEmptyKeys v = true) :
    ∀ idx ∈ v.keys, idx ≠ "" := by
  intro idx hidx
  cases v with
  | obj props =>
    have hp := everywhere_self _ _ (h (by simp [height]))
    simp only [List.all_eq_true] at hp
    simp only [keys_obj, List.mem_map] at hidx
    obtain ⟨q, hq, rfl⟩ := hidx
    simpa using hp q hq
  | arr es items =>
    simp only [JSValue.keys, JSValue.ownProps, List.map_append, List.mem_append,
      List.mem_map] at hidx
    rcases hidx with ⟨q, hq, rfl⟩ | ⟨q, hq, rfl⟩
    · obtain ⟨n, hn⟩ := indexed_keys es 0 q hq
      rw [hn]
      exact toString_nat_ne_empty n
    · cases items with
      | none => simp at hq
      | some it =>
        simp only [List.mem_singleton] at hq
        rw [hq]
        show "items" ≠ ""
        decide
  | str s =>
    simp only [JSValue.keys, JSValue.ownProps, List.mem_map] at hidx
    obtain ⟨q, hq, rfl⟩ := hidx
    obtain ⟨n, hn⟩ := indexed_keys _ 0 q hq
    rw [hn]
    exact toString_nat_ne_empty n
  | undefined => simp [JSValue.keys, JSValue.ownProps] at hidx
  | null => simp [JSValue.keys, JSValue.ownProps] at hidx
  | bool b => simp [JSValue.keys, JSValue.ownProps] at hidx
  | num n => simp [JSValue.keys, JSValue.ownProps] at hidx

theorem noEmptyKeys_get (v : JSValue) (k : String)
    (h : 0 < v.height → noEmptyKeys v = true) :
    0 < (v.get k).height → noEmptyKeys (v.get k) = true := fun hpos =>
  everywhere_get _ v k (h (lt_of_lt_of_le hpos (height_get_le v k))) hpos

theorem noEmptyKeys_index (v : JSValue) (i : Nat) (ha : v.isArray = true)
    (h : 0 < v.height → noEmptyKeys v = true) :
    0 < (v.index i).height → noEmptyKeys (v.index i) = true := fun hpos =>
  everywhere_index _ v i (h (height_pos_of_isArray ha)) ha (truthy_of_height_pos hpos)

theorem prefixKey_injective (k a b : String) (h : prefixKey k a = prefixKey k b) : a = b := by
  have hlen : ∀ c : String, c ≠ "" → k ≠ k ++ "." ++ c := by
    intro c _ hc
    have := congrArg String.length hc
    simp only [String.length_append] at this
    have h1 : ".".length = 1 := rfl
    omega
  unfold prefixKey at h
  by_cases ha : a = "" <;> by_cases hb : b = ""
  · rw [ha, hb]
  · simp only [ha, hb, if_true, if_false] at h
    exact absurd h (hlen b hb)
  · simp only [ha, hb, if_true, if_false] at h
    exact absurd h.symm (hlen a ha)
  · simp only [ha, hb, if_false, String.append_assoc] at h
    exact string_append_right_cancel "." _ _ (string_append_right_cancel k _ _ h)

theorem prefixKey_joinPath (k base key : String) (hk : k ≠ "") (hkey : key ≠ "") :
    joinPath (prefixKey k base) key = prefixKey k (joinPath base key) := by
  by_cases hb : base = ""
  · subst hb
    simp only [prefixKey, if_true, joinPath_empty, hkey, if_false]
    exact joinPath_of_ne hk key
  · have h1 : prefixKey k base = k ++ "." ++ base := by simp [prefixKey, hb]
    have h2 : prefixKey k base ≠ "" := by
      rw [h1]
      exact append_ne_empty_left (append_ne_empty_left hk _) _
    rw [joinPath_of_ne h2, joinPath_of_ne hb, h1]
    have h3 : base ++ "." ++ key ≠ "" := append_ne_empty_left (append_ne_empty_left hb _) _
    unfold prefixKey
    rw [if_neg h3]
    simp [String.append_assoc]

/-- Assigning a key and renaming all keys by an injective map commute. -/
theorem setProp_map_keys (ren : String → String) (hinj : ∀ a b, ren a = ren b → a = b)
    (out : Props) (p : String) (v : JSValue) :
    (setProp out p v).map (fun q => (ren q.1, q.2))
      = setProp (out.map fun q => (ren q.1, q.2)) (ren p) v := by
  induction out with
  | nil => rfl
  | cons r rest ih =>
    obtain ⟨k', v'⟩ := r
    by_cases hk : k' = p
    · subst hk
      simp [setProp]
    · have hk2 : ¬ ren k' = ren p := fun h => hk (hinj _ _ h)
      simp only [setProp, hk, if_false, List.map_cons, hk2, ih]

theorem foldl_map_commute {α β : Type} (R : β → β) (f g : β → α → β) (l : List α)
    (h : ∀ acc, ∀ x ∈ l, g (R acc) x = R (f acc x)) :
    ∀ init, l.foldl g (R init) = R (l.foldl f init) := by
  induction l with
  | nil => intro init; rfl
  | cons x xs ih =>
    intro init
    rw [List.foldl_cons, List.foldl_cons, h init x (List.mem_cons_self _ _)]
    exact ih (fun acc y hy => h acc y (List.mem_cons_of_mem _ hy)) _

theorem walkItems_prefixed (k : String) (hk : k ≠ "") (w : JSValue → String → Props → Props)
    (hw : ∀ c b o, (0 < c.height → noEmptyKeys c = true) →
      w c (prefixKey k b) (o.map fun q => (prefixKey k q.1, q.2))
        = (w c b o).map fun q => (prefixKey k q.1, q.2))
    (items : JSValue) (base : String) (out : Props)
    (hi : 0 < items.height → noEmptyKeys items = true) :
    walkItems w items (prefixKey k base) (out.map fun q => (prefixKey k q.1, q.2))
      = (walkItems w items base out).map fun q => (prefixKey k q.1, q.2) := by
  unfold walkItems
  apply foldl_map_commute (fun o : Props => o.map fun q => (prefixKey k q.1, q.2))
  intro acc idx hidx
  have hne : idx ≠ "" := keys_ne_empty items hi idx hidx
  have ha := noEmptyKeys_get items idx hi
  simp only [prefixKey_joinPath k base idx hk hne]
  split_ifs with c1 c2 c3
  · exact (setProp_map_keys _ (prefixKey_injective k) _ _ _).symm
  · simp only [Bool.and_eq_true] at c2
    exact hw _ _ _ (noEmptyKeys_index _ 0 c2.1.1.1.1 ha)
  · exact hw _ _ _ ha
  · rfl

theorem walkElements_prefixed (k : String) (hk : k ≠ "") (w : JSValue → String → Props → Props)
    (hw : ∀ c b o, (0 < c.height → noEmptyKeys c = true) →
      w c (prefixKey k b) (o.map fun q => (prefixKey k q.1, q.2))
        = (w c b o).map fun q => (prefixKey k q.1, q.2))
    (node : JSValue) (base : String) (out : Props) (ha : node.isArray = true)
    (hn : 0 < node.height → noEmptyKeys node = true) :
    walkElements w node (prefixKey k base) (out.map fun q => (prefixKey k q.1, q.2))
      = (walkElements w node base out).map fun q => (prefixKey k q.1, q.2) := by
  unfold walkElements
  apply foldl_map_commute (fun o : Props => o.map fun q => (prefixKey k q.1, q.2))
  intro acc i _
  have hi := noEmptyKeys_index node i ha hn
  simp only [prefixKey_joinPath k base (toString i) hk (toString_nat_ne_empty i)]
  split_ifs with c1 c2
  · exact (setProp_map_keys _ (prefixKey_injective k) _ _ _).symm
  · exact hw _ _ _ hi
  · rfl

theorem walkStep_prefixed (k : String) (hk : k ≠ "") (w : JSValue → String → Props → Props)
    (hw : ∀ c b o, (0 < c.height → noEmptyKeys c = true) →
      w c (prefixKey k b) (o.map fun q => (prefixKey k q.1, q.2))
        = (w c b o).map fun q => (prefixKey k q.1, q.2))
    (node : JSValue) (base : String) (out : Props)
    (hn : 0 < node.height → noEmptyKeys node = true) :
    walkStep w node (prefixKey k base) (out.map fun q => (prefixKey k q.1, q.2))
      = (walkStep w node base out).map fun q => (prefixKey k q.1, q.2) := by
  simp only [walkStep]
  split_ifs with c0 c1 c2 c3 c4 c5 c6 c7
  · rfl
  · exact walkItems_prefixed k hk w hw _ base out (noEmptyKeys_get node "items" hn)
  · rfl
  · exact (setProp_map_keys _ (prefixKey_injective k) _ _ _).symm
  · exact hw _ _ _ (noEmptyKeys_index node 0 c1 hn)
  · rw [walkElements_prefixed k hk w hw node base out c1 hn]
    exact walkItems_prefixed k hk w hw _ base _ (noEmptyKeys_get node "items" hn)
  · exact walkElements_prefixed k hk w hw node base out c1 hn
  · apply foldl_map_commute (fun o : Props => o.map fun q => (prefixKey k q.1, q.2))
    intro acc key hkey
    simp only [prefixKey_joinPath k base key hk (keys_ne_empty node hn key hkey)]
    exact hw _ _ _ (noEmptyKeys_get node key hn)
  · rfl

/-- Walking a subtree from the path `k.base` writes what walking it from `base`
writes, each key moved below `k`. -/
theorem walk_prefixed (k : String) (hk : k ≠ "") (fuel : Nat) :
    ∀ (node : JSValue) (base : String) (out : Props),
      (0 < node.height → noEmptyKeys node = true) →
      walk fuel node (prefixKey k base) (out.map fun q => (prefixKey k q.1, q.2))
        = (walk fuel node base out).map fun q => (prefixKey k q.1, q.2) := by
  induction fuel with
  | zero => intro node base out _; rfl
  | succ n ih =>
    intro node base out hn
    rw [walk_succ]
    exact walkStep_prefixed k hk _ ih node base out hn

/-- Claim C34. For every non-empty key `k` and every tree `t` in which no object
holds the empty string as a key (field names and `items` indices):
`flattenMoldErrorsToRHF({k: t})` is the mapping obtained from
`flattenMoldErrorsToRHF(t)` by replacing each key `q` with `k + "." + q`, and the
key `""` with `k`, in the same order and with the values unchanged. -/
theorem flatten_prefix_law (k : String) (t : JSValue) (hk : k ≠ "")
    (hkeys : noEmptyKeys t = true) :
    flattenMoldErrorsToRHF (obj [(k, t)])
      = obj ((flattenMoldErrorsToRHF t).ownProps.map fun q => (prefixKey k q.1, q.2)) := by
  rw [flatten_of_truthy _ (truthy_obj _), walkNode_eq, walkStep_obj]
  simp only [List.map_cons, List.map_nil, List.foldl_cons, List.foldl_nil,
    get_obj_cons_self, joinPath_empty]
  by_cases ht : t.truthy = true
  · rw [flatten_of_truthy t ht]
    have h := walk_prefixed k hk (t.height + 1) t "" [] (fun _ => hkeys)
    have hroot : prefixKey k "" = k := by simp [prefixKey]
    rw [hroot] at h
    exact congrArg obj h
  · have hf : flattenMoldErrorsToRHF t = obj [] := by simp [flattenMoldErrorsToRHF, ht]
    rw [hf, walkNode_eq]
    simp [walkStep, ht, JSValue.ownProps]

theorem flatten_prefix_law_witness :
    "user" ≠ ""
    ∧ noEmptyKeys (obj [("name", arr [obj [("rule", str "min"), ("message", str "Too short")]]
        none),
      ("tags", arr [] (some (obj [("1", arr [obj [("rule", str "isEmpty"),
        ("message", str "Empty")]] none)])))]) = true
    ∧ flattenMoldErrorsToRHF (obj [("user",
        obj [("name", arr [obj [("rule", str "min"), ("message", str "Too short")]] none),
          ("tags", arr [] (some (obj [("1", arr [obj [("rule", str "isEmpty"),
            ("message", str "Empty")]] none)])))])])
      = obj ((flattenMoldErrorsToRHF
          (obj [("name", arr [obj [("rule", str "min"), ("message", str "Too short")]] none),
            ("tags", arr [] (some (obj [("1", arr [obj [("rule", str "isEmpty"),
              ("message", str "Empty")]] none)])))])).ownProps.map
          fun q => (prefixKey "user" q.1, q.2)) :=
  ⟨by decide, by decide,
    flatten_prefix_law "user" _ (by decide) (by decide)⟩

/-! ## Claim C35: the flat map and the mirrored structure name the same leaves -/

theorem lookup_map_values (props : Props) (g : JSValue → JSValue) (k : String) :
    (props.map fun q => (q.1, g q.2)).lookup k = (props.lookup k).map g := by
  induction props with
  | nil => rfl
  | cons q rest ih =>
    obtain ⟨k', v'⟩ := q
    simp only [List.map_cons, List.lookup]
    cases k == k' <;> simp [ih]

theorem mem_of_lookup (props : Props) (k : String) (v : JSValue)
    (h : props.lookup k = some v) : (k, v) ∈ props := by
  induction props with
  | nil => simp [List.lookup] at h
  | cons q rest ih =>
    obtain ⟨k', v'⟩ := q
    simp only [List.lookup] at h
    cases hk : k == k' with
    | true =>
      rw [hk] at h
      simp only [Option.some.injEq] at h
      have : k = k' := by simpa using hk
      rw [this, h]
      exact List.mem_cons_self _ _
    | false =>
      rw [hk] at h
      exact List.mem_cons_of_mem _ (ih h)

theorem lookup_of_mem (props : Props) (hnd : (props.map Prod.fst).Nodup)
    (k : String) (v : JSValue) (hm : (k, v) ∈ props) : props.lookup k = some v := by
  have hk : k ∈ props.map Prod.fst := List.mem_map.mpr ⟨(k, v), hm, rfl⟩
  cases hl : props.lookup k with
  | none =>
    have hg := get_obj_of_mem props hnd k v hm
    induction props with
    | nil => simp at hm
    | cons q rest ih =>
      obtain ⟨k', v'⟩ := q
      simp only [List.lookup] at hl
      cases hkk : k == k' with
      | true => rw [hkk] at hl; simp at hl
      | false =>
        rw [hkk] at hl
        have hne : k ≠ k' := by simpa using hkk
        simp only [List.map_cons, List.nodup_cons] at hnd
        rcases List.mem_cons.mp hm with heq | hrest
        · simp only [Prod.mk.injEq] at heq
          exact absurd heq.1 hne
        · have hk2 : k ∈ rest.map Prod.fst := List.mem_map.mpr ⟨(k, v), hrest, rfl⟩
          rw [get_obj_cons_ne k k' v' rest hne] at hg
          exact ih hnd.2 hrest hk2 hl hg
  | some w =>
    have hw := mem_of_lookup props k w hl
    have h1 := get_obj_of_mem props hnd k w hw
    have h2 := get_obj_of_mem props hnd k v hm
    rw [← h1, h2]

theorem mem_leafPathsProps_of (props : Props) (r : String × JSValue) (hr : r ∈ props)
    (s : List String × JSValue) (hs : s ∈ leafPaths r.2) :
    (r.1 :: s.1, s.2) ∈ leafPathsProps props := by
  induction props with
  | nil => simp at hr
  | cons q rest ih =>
    obtain ⟨k, v⟩ := q
    simp only [leafPathsProps, List.mem_append, List.mem_map]
    rcases List.mem_cons.mp hr with heq | hrest
    · left
      rw [heq] at hs
      exact ⟨s, hs, by rw [heq]⟩
    · right
      exact ih hrest

/-- Following the field names of a leaf group through the mirrored shape reaches
the `message` of its first element. -/
theorem followPath_leafPaths : ∀ t : JSValue, t.wellFormed = true →
    ∀ q ∈ leafPaths t, followPath q.1 (mirrorShape t) = some (q.2.get "message") := by
  apply fieldTree_induction
  · intro props ih hwf q hq
    simp only [wellFormed, Bool.and_eq_true, decide_eq_true_eq, wellFormedProps_iff] at hwf
    simp only [leafPaths] at hq
    obtain ⟨r, hr, s, hs, rfl⟩ := mem_leafPathsProps props q hq
    simp only [mirrorShape, followPath, mirrorShapeProps_eq_map, lookup_map_values,
      lookup_of_mem props hwf.1 r.1 r.2 hr, Option.map_some', Option.some_bind]
    exact ih r hr (hwf.2 r hr) s hs
  · intro v hv _ q hq
    cases v with
    | obj props => exact absurd rfl (hv props)
    | arr es items =>
      cases es with
      | nil => simp [leafPaths] at hq
      | cons e es =>
        simp only [leafPaths, List.mem_singleton] at hq
        rw [hq]
        rfl
    | undefined => simp [leafPaths] at hq
    | null => simp [leafPaths] at hq
    | bool b => simp [leafPaths] at hq
    | num n => simp [leafPaths] at hq
    | str s => simp [leafPaths] at hq

/-- A list of segments that leads to a string in the mirrored shape is the list
of field names of a leaf group. -/
theorem leafPaths_of_followPath : ∀ t : JSValue, isFieldTree t = true →
    (∀ q ∈ leafPaths t, isString (q.2.get "message") = true) →
    ∀ (ks : List String) (s : String), followPath ks (mirrorShape t) = some (str s) →
      ∃ e : JSValue, (ks, e) ∈ leafPaths t := by
  apply fieldTree_induction
  · intro props ih hft hstr ks s hfol
    simp only [isFieldTree, isFieldTreeProps_iff] at hft
    cases ks with
    | nil => simp [followPath, mirrorShape] at hfol
    | cons k ks =>
      simp only [mirrorShape, followPath, mirrorShapeProps_eq_map, lookup_map_values] at hfol
      cases hl : props.lookup k with
      | none => simp [hl] at hfol
      | some v =>
        simp only [hl, Option.map_some', Option.some_bind] at hfol
        have hmem := mem_of_lookup props k v hl
        obtain ⟨e, he⟩ := ih (k, v) hmem (hft (k, v) hmem)
          (fun q hq => hstr (k :: q.1, q.2)
            (mem_leafPathsProps_of props (k, v) hmem q hq)) ks s hfol
        exact ⟨e, mem_leafPathsProps_of props (k, v) hmem (ks, e) he⟩
  · intro v hv hft hstr ks s hfol
    cases v with
    | obj props => exact absurd rfl (hv props)
    | arr es items =>
      cases es with
      | nil => simp [isFieldTree] at hft
      | cons e es =>
        have hm := hstr ([], e) (by simp [leafPaths])
        simp only [mirrorShape] at hfol
        cases ks with
        | nil => exact ⟨e, by simp [leafPaths]⟩
        | cons k ks =>
          cases hmsg : e.get "message" with
          | str m =>
            rw [hmsg] at hfol
            simp [followPath] at hfol
          | undefined => simp [hmsg, isString] at hm
          | null => simp [hmsg, isString] at hm
          | bool b => simp [hmsg, isString] at hm
          | num n => simp [hmsg, isString] at hm
          | obj p => simp [hmsg, isString] at hm
          | arr a b => simp [hmsg, isString] at hm
    | undefined => simp [isFieldTree] at hft
    | null => simp [isFieldTree] at hft
    | bool b => simp [isFieldTree] at hft
    | num n => simp [isFieldTree] at hft
    | str s => simp [isFieldTree] at hft

theorem intercalate_ne_empty (a : String) (l : List String) (ha : plainName a = true) :
    String.intercalate "." (a :: l) ≠ "" := by
  intro hh
  have hd := congrArg String.data hh
  rw [String.intercalate, intercalate_go_data] at hd
  have : a.data = [] := (List.append_eq_nil.mp hd).1
  exact ((plainName_iff a).mp ha).1 (String.ext this)

/-- Splitting the join of plain names at `'.'` gives the names back. -/
theorem pathSegments_intercalate (ks : List String) (hplain : ∀ k ∈ ks, plainName k = true) :
    pathSegments (String.intercalate "." ks) = ks := by
  cases ks with
  | nil => rfl
  | cons a l =>
    have hne := intercalate_ne_empty a l (hplain a (List.mem_cons_self _ _))
    have hdx : ∀ x ∈ (a :: l).map String.data, '.' ∉ x := by
      intro x hx
      obtain ⟨k, hk, rfl⟩ := List.mem_map.mp hx
      exact ((plainName_iff k).mp (hplain k hk)).2
    have hs := List.splitOn_intercalate _ '.' hdx (by simp)
    unfold pathSegments
    rw [if_neg hne, intercalate_data_cons, hs, List.map_map]
    simp [Function.comp_def]

/-- Joining the segments of a path with `"."` gives the path back. -/
theorem intercalate_pathSegments (p : String) :
    String.intercalate "." (pathSegments p) = p := by
  unfold pathSegments
  by_cases hp : p = ""
  · rw [if_pos hp, hp]
    rfl
  · rw [if_neg hp]
    have hj : ['.'].intercalate (p.data.splitOn '.') = p.data := List.intercalate_splitOn p.data '.'
    cases hsp : p.data.splitOn '.' with
    | nil => exact absurd hsp (List.splitOnP_ne_nil _ _)
    | cons a l =>
      apply String.ext
      rw [hsp] at hj
      rw [List.map_cons, intercalate_data_cons, ← List.map_cons, List.map_map]
      simpa [Function.comp_def] using hj

/-- Claim C35. For every tree built only from field maps and leaf groups, with
each key held once, all field names non-empty and free of `'.'`, and every leaf
message a string: a key `p` is in `flattenMoldErrorsToRHF(tree)` exactly when
following the `'.'`-separated segments of `p` through
`transformMoldErrorsToFormik(tree)` reaches a string, and for such a key that
string is `flatten[p].message`. -/
theorem flatten_mirror_same_leaves (t : JSValue) (hft : isFieldTree t = true)
    (hwf : t.wellFormed = true) (hnames : plainNames t = true)
    (hstr : ∀ q ∈ leafPaths t, isString (q.2.get "message") = true) (p : String) :
    (p ∈ (flattenMoldErrorsToRHF t).keys
      ↔ ∃ s : String,
          followPath (pathSegments p) (transformMoldErrorsToFormik t) = some (str s))
    ∧ (p ∈ (flattenMoldErrorsToRHF t).keys →
        followPath (pathSegments p) (transformMoldErrorsToFormik t)
          = some (((flattenMoldErrorsToRHF t).get p).get "message")) := by
  obtain ⟨hflat, hnd⟩ := flatten_fieldTree t hft hwf hnames
  have hplain := leafPaths_plain t hnames
  have hm : mirror t = mirrorShape t :=
    convert_fieldTree (t.height + 1) t hft hwf (Nat.lt_succ_self _)
  have ht : t.truthy = true := by
    cases t with
    | obj props => rfl
    | arr es items => rfl
    | _ => simp [isFieldTree] at hft
  have hmirror : transformMoldErrorsToFormik t = mirrorShape t := by
    simp [transformMoldErrorsToFormik, ht, hm, mirrorShape_truthy t hft]
  have hkeys : ∀ p : String, p ∈ (flattenMoldErrorsToRHF t).keys
      ↔ ∃ q ∈ leafPaths t, String.intercalate "." q.1 = p := by
    intro p
    rw [hflat, keys_obj]
    constructor
    · intro h
      obtain ⟨x, hx, rfl⟩ := List.mem_map.mp h
      obtain ⟨q, hq, rfl⟩ := List.mem_map.mp hx
      exact ⟨q, hq, rfl⟩
    · rintro ⟨q, hq, rfl⟩
      exact List.mem_map.mpr ⟨_, List.mem_map.mpr ⟨q, hq, rfl⟩, rfl⟩
  have hreach : ∀ q ∈ leafPaths t,
      followPath (pathSegments (String.intercalate "." q.1)) (mirrorShape t)
        = some (q.2.get "message") := by
    intro q hq
    rw [pathSegments_intercalate q.1 (hplain q hq)]
    exact followPath_leafPaths t hwf q hq
  rw [hmirror]
  constructor
  · constructor
    · intro hp
      obtain ⟨q, hq, rfl⟩ := (hkeys p).mp hp
      rw [hreach q hq]
      have hs := hstr q hq
      cases hmsg : q.2.get "message" with
      | str m => exact ⟨m, rfl⟩
      | undefined => simp [hmsg, isString] at hs
      | null => simp [hmsg, isString] at hs
      | bool b => simp [hmsg, isString] at hs
      | num n => simp [hmsg, isString] at hs
      | obj props => simp [hmsg, isString] at hs
      | arr a b => simp [hmsg, isString] at hs
    · rintro ⟨s, hs⟩
      obtain ⟨e, he⟩ := leafPaths_of_followPath t hft hstr _ s hs
      exact (hkeys p).mpr ⟨(pathSegments p, e), he, intercalate_pathSegments p⟩
  · intro hp
    obtain ⟨q, hq, rfl⟩ := (hkeys _).mp hp
    rw [hreach q hq, hflat]
    have hmem : (String.intercalate "." q.1, leafRecord q.2)
        ∈ (leafPaths t).map fun r => (String.intercalate "." r.1, leafRecord r.2) :=
      List.mem_map.mpr ⟨q, hq, rfl⟩
    rw [get_obj_of_mem _ (by simpa [List.map_map, Function.comp_def] using hnd) _ _ hmem]
    simp [leafRecord, get_obj, List.lookup]

theorem flatten_mirror_same_leaves_witness :
    isFieldTree (obj [("user", obj [("email",
        arr [obj [("rule", str "email"), ("message", str "Invalid email")]] none)]),
      ("age", arr [obj [("rule", str "range"), ("message", str "Too young")]] none)]) = true
    ∧ (obj [("user", obj [("email",
        arr [obj [("rule", str "email"), ("message", str "Invalid email")]] none)]),
      ("age", arr [obj [("rule", str "range"), ("message", str "Too young")]]
        none)]).wellFormed = true
    ∧ plainNames (obj [("user", obj [("email",
        arr [obj [("rule", str "email"), ("message", str "Invalid email")]] none)]),
      ("age", arr [obj [("rule", str "range"), ("message", str "Too young")]] none)]) = true
    ∧ (∀ q ∈ leafPaths (obj [("user", obj [("email",
        arr [obj [("rule", str "email"), ("message", str "Invalid email")]] none)]),
      ("age", arr [obj [("rule", str "range"), ("message", str "Too young")]] none)]),
        isString (q.2.get "message") = true)
    ∧ ("user.email" ∈ (flattenMoldErrorsToRHF (obj [("user", obj [("email",
          arr [obj [("rule", str "email"), ("message", str "Invalid email")]] none)]),
        ("age", arr [obj [("rule", str "range"), ("message", str "Too young")]]
          none)])).keys
      ↔ ∃ s : String,
          followPath (pathSegments "user.email")
            (transformMoldErrorsToFormik (obj [("user", obj [("email",
                arr [obj [("rule", str "email"), ("message", str "Invalid email")]] none)]),
              ("age", arr [obj [("rule", str "range"), ("message", str "Too young")]]
                none)])) = some (str s)) :=
  ⟨by decide, by decide, by decide, by decide,
    (flatten_mirror_same_leaves _ (by decide) (by decide) (by decide) (by decide)
      "user.email").1⟩

/-! ## Claim C30: key order of a field map

`walk` never reads the accumulator, it only assigns to it; so two runs that start
from accumulators denoting the same mapping and perform the same assignments end
with the same mapping, and two subtrees whose assignments go to disjoint sets of
keys can be walked in either order. -/

theorem foldl_rel {α : Type} (R : Props → Props → Prop) (f g : Props → α → Props)
    (l : List α) (h : ∀ a1 a2, ∀ x ∈ l, R a1 a2 → R (f a1 x) (g a2 x)) :
    ∀ i1 i2, R i1 i2 → R (l.foldl f i1) (l.foldl g i2) := by
  induction l with
  | nil => intro i1 i2 hi; exact hi
  | cons x xs ih =>
    intro i1 i2 hi
    rw [List.foldl_cons, List.foldl_cons]
    exact ih (fun a1 a2 y hy => h a1 a2 y (List.mem_cons_of_mem _ hy)) _ _
      (h i1 i2 x (List.mem_cons_self _ _) hi)

theorem walkItems_rel (R : Props → Props → Prop)
    (hset : ∀ o1 o2 k v, R o1 o2 → R (setProp o1 k v) (setProp o2 k v))
    (w : JSValue → String → Props → Props)
    (hw : ∀ c b o1 o2, R o1 o2 → R (w c b o1) (w c b o2))
    (items : JSValue) (base : String) (o1 o2 : Props) (h : R o1 o2) :
    R (walkItems w items base o1) (walkItems w items base o2) := by
  unfold walkItems
  apply foldl_rel R _ _ _ _ o1 o2 h
  intro a1 a2 idx _ ha
  simp only
  split_ifs
  · exact hset _ _ _ _ ha
  · exact hw _ _ _ _ ha
  · exact hw _ _ _ _ ha
  · exact ha

theorem walkElements_rel (R : Props → Props → Prop)
    (hset : ∀ o1 o2 k v, R o1 o2 → R (setProp o1 k v) (setProp o2 k v))
    (w : JSValue → String → Props → Props)
    (hw : ∀ c b o1 o2, R o1 o2 → R (w c b o1) (w c b o2))
    (node : JSValue) (base : String) (o1 o2 : Props) (h : R o1 o2) :
    R (walkElements w node base o1) (walkElements w node base o2) := by
  unfold walkElements
  apply foldl_rel R _ _ _ _ o1 o2 h
  intro a1 a2 i _ ha
  simp only
  split_ifs
  · exact hset _ _ _ _ ha
  · exact hw _ _ _ _ ha
  · exact ha

theorem walkStep_rel (R : Props → Props → Prop)
    (hset : ∀ o1 o2 k v, R o1 o2 → R (setProp o1 k v) (setProp o2 k v))
    (w : JSValue → String → Props → Props)
    (hw : ∀ c b o1 o2, R o1 o2 → R (w c b o1) (w c b o2))
    (node : JSValue) (base : String) (o1 o2 : Props) (h : R o1 o2) :
    R (walkStep w node base o1) (walkStep w node base o2) := by
  simp only [walkStep]
  split_ifs
  · exact h
  · exact walkItems_rel R hset w hw _ _ _ _ h
  · exact h
  · exact hset _ _ _ _ h
  · exact hw _ _ _ _ h
  · exact walkItems_rel R hset w hw _ _ _ _ (walkElements_rel R hset w hw _ _ _ _ h)
  · exact walkElements_rel R hset w hw _ _ _ _ h
  · apply foldl_rel R _ _ _ _ o1 o2 h
    intro a1 a2 k _ ha
    exact hw _ _ _ _ ha
  · exact h

/-- A relation between accumulators that every assignment keeps is kept by
`walk`. -/
theorem walk_rel (R : Props → Props → Prop)
    (hset : ∀ o1 o2 k v, R o1 o2 → R (setProp o1 k v) (setProp o2 k v)) (fuel : Nat) :
    ∀ (node : JSValue) (base : String) (o1 o2 : Props), R o1 o2 →
      R (walk fuel node base o1) (walk fuel node base o2) := by
  induction fuel with
  | zero => intro node base o1 o2 h; exact h
  | succ n ih =>
    intro node base o1 o2 h
    rw [walk_succ]
    exact walkStep_rel R hset _ ih node base o1 o2 h

theorem lookup_setProp_congr (key : String) (o1 o2 : Props) (k : String) (v : JSValue)
    (h : o1.lookup key = o2.lookup key) :
    (setProp o1 k v).lookup key = (setProp o2 k v).lookup key := by
  by_cases hk : key = k
  · subst hk
    rw [lookup_setProp_self, lookup_setProp_self]
  · rw [lookup_setProp_ne _ _ _ _ hk, lookup_setProp_ne _ _ _ _ hk, h]

/-- What `walk` leaves under a key depends on the accumulator only through what
it held under that key. -/
theorem walkNode_lookup_congr (key : String) (node : JSValue) (base : String)
    (o1 o2 : Props) (h : o1.lookup key = o2.lookup key) :
    (walkNode node base o1).lookup key = (walkNode node base o2).lookup key :=
  walk_rel (fun a b => a.lookup key = b.lookup key) (lookup_setProp_congr key) _ node base
    o1 o2 h

theorem walkItems_lookup_congr (key : String) (items : JSValue) (base : String)
    (o1 o2 : Props) (h : o1.lookup key = o2.lookup key) :
    (walkItems walkNode items base o1).lookup key
      = (walkItems walkNode items base o2).lookup key :=
  walkItems_rel (fun a b => a.lookup key = b.lookup key) (lookup_setProp_congr key) walkNode
    (fun c b a1 a2 ha => walkNode_lookup_congr key c b a1 a2 ha) items base o1 o2 h

theorem walkElements_lookup_congr (key : String) (node : JSValue) (base : String)
    (o1 o2 : Props) (h : o1.lookup key = o2.lookup key) :
    (walkElements walkNode node base o1).lookup key
      = (walkElements walkNode node base o2).lookup key :=
  walkElements_rel (fun a b => a.lookup key = b.lookup key) (lookup_setProp_congr key)
    walkNode (fun c b a1 a2 ha => walkNode_lookup_congr key c b a1 a2 ha) node base o1 o2 h

theorem walkSame_refl (a : JSValue) : walkSame a a :=
  fun base o1 o2 h key => walkNode_lookup_congr key a base o1 o2 (h key)

theorem itemsSame_refl (a : JSValue) : itemsSame a a :=
  fun base o1 o2 h key => walkItems_lookup_congr key a base o1 o2 (h key)

theorem sameMapping_setProp (o1 o2 : Props) (k : String) (v : JSValue)
    (h : sameMapping o1 o2) : sameMapping (setProp o1 k v) (setProp o2 k v) :=
  fun key => lookup_setProp_congr key o1 o2 k v (h key)

theorem walkItems_eq_itemStep (w : JSValue → String → Props → Props) (items : JSValue)
    (base : String) (out : Props) :
    walkItems w items base out
      = items.keys.foldl (fun o idx => itemStep w (items.get idx) (joinPath base idx) o) out :=
  rfl

theorem walkElements_eq_elemStep (w : JSValue → String → Props → Props) (node : JSValue)
    (base : String) (out : Props) :
    walkElements w node base out
      = (List.range node.length).foldl
          (fun o i => elemStep w (node.index i) (joinPath base (toString i)) o) out :=
  rfl

theorem itemStep_lookup_congr (key : String) (a : JSValue) (p : String) (o1 o2 : Props)
    (h : o1.lookup key = o2.lookup key) :
    (itemStep walkNode a p o1).lookup key = (itemStep walkNode a p o2).lookup key := by
  unfold itemStep
  split_ifs
  · exact lookup_setProp_congr key _ _ _ _ h
  · exact walkNode_lookup_congr key _ _ _ _ h
  · exact walkNode_lookup_congr key _ _ _ _ h
  · exact h

theorem itemStep_footprint (key : String) (a : JSValue) (p : String) (o : Props)
    (hp : p ≠ "") (hkey : ¬ underPath p key) :
    (itemStep walkNode a p o).lookup key = o.lookup key := by
  unfold itemStep
  split_ifs
  · exact lookup_setProp_ne _ _ _ _ fun h => hkey (h ▸ underPath_self _)
  · exact walkNode_footprint _ _ _ _ hp hkey
  · exact walkNode_footprint _ _ _ _ hp hkey
  · rfl

/-- Two dot-free names followed by nothing or by `'.'` and more characters agree
when the two strings agree. -/
theorem dotfree_head_unique : ∀ (a b s1 s2 : List Char), '.' ∉ a → '.' ∉ b →
    (s1 = [] ∨ ∃ r, s1 = '.' :: r) → (s2 = [] ∨ ∃ r, s2 = '.' :: r) →
    a ++ s1 = b ++ s2 → a = b := by
  intro a
  induction a with
  | nil =>
    intro b s1 s2 _ hb h1 _ h
    cases b with
    | nil => rfl
    | cons c b' =>
      exfalso
      simp only [List.nil_append, List.cons_append] at h
      rcases h1 with h1 | ⟨r, h1⟩
      · rw [h1] at h
        cases h
      · rw [h1] at h
        have hc : '.' = c := (List.cons.inj h).1
        exact hb (hc ▸ List.mem_cons_self _ _)
  | cons x a' ih =>
    intro b s1 s2 ha hb h1 h2 h
    cases b with
    | nil =>
      exfalso
      simp only [List.nil_append, List.cons_append] at h
      rcases h2 with h2 | ⟨r, h2⟩
      · rw [h2] at h
        cases h
      · rw [h2] at h
        have hc : x = '.' := (List.cons.inj h).1
        exact ha (hc ▸ List.mem_cons_self _ _)
    | cons y b' =>
      simp only [List.cons_append] at h
      have hxy := (List.cons.inj h).1
      have ht := (List.cons.inj h).2
      rw [hxy, ih b' s1 s2 (fun hm => ha (List.mem_cons_of_mem _ hm))
        (fun hm => hb (List.mem_cons_of_mem _ hm)) h1 h2 ht]

theorem joinPath_as_append (base : String) :
    ∃ pre : String, ∀ k : String, joinPath base k = pre ++ k := by
  by_cases hb : base = ""
  · refine ⟨"", fun k => ?_⟩
    rw [hb, joinPath_empty]
    apply String.ext
    simp
  · exact ⟨base ++ ".", fun k => joinPath_of_ne hb k⟩

theorem underPath_split (p key : String) (h : underPath p key) :
    ∃ s : List Char, key.data = p.data ++ s ∧ (s = [] ∨ ∃ r, s = '.' :: r) := by
  rcases h with h | ⟨rest, h⟩
  · exact ⟨[], by rw [h]; simp, Or.inl rfl⟩
  · refine ⟨'.' :: rest.data, ?_, Or.inr ⟨_, rfl⟩⟩
    rw [h]
    simp [String.data_append]

/-- Under the same path, the subtrees of two different dot-free field names
assign disjoint sets of keys. -/
theorem siblings_disjoint (base k1 k2 key : String) (h1 : plainName k1 = true)
    (h2 : plainName k2 = true) (hne : k1 ≠ k2) :
    ¬ (underPath (joinPath base k1) key ∧ underPath (joinPath base k2) key) := by
  rintro ⟨hu1, hu2⟩
  obtain ⟨pre, hpre⟩ := joinPath_as_append base
  rw [hpre] at hu1 hu2
  obtain ⟨s1, hs1, hd1⟩ := underPath_split _ _ hu1
  obtain ⟨s2, hs2, hd2⟩ := underPath_split _ _ hu2
  rw [hs1, String.data_append, String.data_append, List.append_assoc, List.append_assoc] at hs2
  have hcancel := List.append_cancel_left hs2
  have := dotfree_head_unique k1.data k2.data s1 s2 ((plainName_iff k1).mp h1).2
    ((plainName_iff k2).mp h2).2 hd1 hd2 hcancel
  exact hne (String.ext this)

theorem joinPath_plain_ne_empty (base k : String) (hk : plainName k = true) :
    joinPath base k ≠ "" := by
  have hne := ((plainName_iff k).mp hk).1
  by_cases hb : base = ""
  · rw [hb, joinPath_empty]
    exact hne
  · exact joinPath_ne_empty hb k

theorem sameMapping_trans {o1 o2 o3 : Props} (h1 : sameMapping o1 o2)
    (h2 : sameMapping o2 o3) : sameMapping o1 o3 :=
  fun key => (h1 key).trans (h2 key)

/-- Two steps that assign to disjoint sets of keys can be run in either
order. -/
theorem commute_of_disjoint (F G : Props → Props) (bf bg : String)
    (hFfoot : ∀ key o, ¬ underPath bf key → (F o).lookup key = o.lookup key)
    (hGfoot : ∀ key o, ¬ underPath bg key → (G o).lookup key = o.lookup key)
    (hFpt : ∀ key o1 o2, o1.lookup key = o2.lookup key →
      (F o1).lookup key = (F o2).lookup key)
    (hGpt : ∀ key o1 o2, o1.lookup key = o2.lookup key →
      (G o1).lookup key = (G o2).lookup key)
    (hdisj : ∀ key, ¬ (underPath bf key ∧ underPath bg key)) (o : Props) :
    sameMapping (F (G o)) (G (F o)) := by
  intro key
  by_cases hf : underPath bf key
  · have hg : ¬ underPath bg key := fun hg => hdisj key ⟨hf, hg⟩
    rw [hGfoot key (F o) hg]
    exact hFpt key _ _ (hGfoot key o hg)
  · rw [hFfoot key (G o) hf]
    exact (hGpt key _ _ (hFfoot key o hf)).symm

/-- A loop whose steps respect the mapping held by the accumulator and commute
pairwise gives the same mapping in whatever order it visits its entries. -/
theorem foldl_perm_same (F : String × JSValue → Props → Props)
    (hresp : ∀ q o1 o2, sameMapping o1 o2 → sameMapping (F q o1) (F q o2))
    (l1 l2 : List (String × JSValue)) (hp : l1.Perm l2) :
    (l1.map Prod.fst).Nodup →
    (∀ q1 ∈ l1, ∀ q2 ∈ l1, q1.1 ≠ q2.1 →
      ∀ o, sameMapping (F q1 (F q2 o)) (F q2 (F q1 o))) →
    ∀ o1 o2, sameMapping o1 o2 →
      sameMapping (l1.foldl (fun acc q => F q acc) o1) (l2.foldl (fun acc q => F q acc) o2) := by
  induction hp with
  | nil => intro _ _ o1 o2 hs; exact hs
  | cons x _ ih =>
    intro hnd hcomm o1 o2 hs
    simp only [List.map_cons, List.nodup_cons] at hnd
    rw [List.foldl_cons, List.foldl_cons]
    exact ih hnd.2
      (fun q1 h1 q2 h2 => hcomm q1 (List.mem_cons_of_mem _ h1) q2 (List.mem_cons_of_mem _ h2))
      _ _ (hresp x o1 o2 hs)
  | swap x y l =>
    intro hnd hcomm o1 o2 hs
    simp only [List.map_cons, List.nodup_cons, List.mem_cons, not_or] at hnd
    simp only [List.foldl_cons]
    apply foldl_rel sameMapping _ _ l (fun a1 a2 q _ ha => hresp q a1 a2 ha)
    have hxy : x.1 ≠ y.1 := fun h => hnd.1.1 h.symm
    exact sameMapping_trans
      (hcomm x (List.mem_cons_of_mem _ (List.mem_cons_self _ _)) y (List.mem_cons_self _ _)
        hxy o1)
      (hresp y _ _ (hresp x o1 o2 hs))
  | trans hp1 _ ih1 ih2 =>
    intro hnd hcomm o1 o2 hs
    have hnd2 := ((hp1.map Prod.fst).nodup_iff).mp hnd
    exact sameMapping_trans (ih1 hnd hcomm o1 o2 hs)
      (ih2 hnd2
        (fun q1 h1 q2 h2 => hcomm q1 (hp1.mem_iff.mpr h1) q2 (hp1.mem_iff.mpr h2))
        o2 o2 (fun _ => rfl))

theorem get_obj_update (pre post : Props) (k : String) (v1 v2 : JSValue) (key : String) :
    (obj (pre ++ (k, v1) :: post)).get key = (obj (pre ++ (k, v2) :: post)).get key
    ∨ ((obj (pre ++ (k, v1) :: post)).get key = v1
      ∧ (obj (pre ++ (k, v2) :: post)).get key = v2) := by
  induction pre with
  | nil =>
    by_cases hk : key = k
    · subst hk
      exact Or.inr ⟨get_obj_cons_self _ _ _, get_obj_cons_self _ _ _⟩
    · left
      simp only [List.nil_append]
      rw [get_obj_cons_ne key k _ _ hk, get_obj_cons_ne key k _ _ hk]
  | cons q rest ih =>
    obtain ⟨k', v'⟩ := q
    by_cases hk : key = k'
    · subst hk
      left
      simp only [List.cons_append]
      rw [get_obj_cons_self, get_obj_cons_self]
    · simp only [List.cons_append]
      rw [get_obj_cons_ne key k' _ _ hk, get_obj_cons_ne key k' _ _ hk]
      exact ih

theorem getD_update (pre post : List JSValue) (v1 v2 : JSValue) :
    ∀ j : Nat,
      (pre ++ v1 :: post).getD j JSValue.undefined
        = (pre ++ v2 :: post).getD j JSValue.undefined
      ∨ ((pre ++ v1 :: post).getD j JSValue.undefined = v1
        ∧ (pre ++ v2 :: post).getD j JSValue.undefined = v2) := by
  induction pre with
  | nil =>
    intro j
    cases j with
    | zero => exact Or.inr ⟨rfl, rfl⟩
    | succ n => exact Or.inl rfl
  | cons x rest ih =>
    intro j
    cases j with
    | zero => exact Or.inl rfl
    | succ n => exact ih n

theorem indexed_lookup_update (pre post : List JSValue) (v1 v2 : JSValue) (k : String) :
    ∀ j : Nat,
      (indexed j (pre ++ v1 :: post)).lookup k = (indexed j (pre ++ v2 :: post)).lookup k
      ∨ ((indexed j (pre ++ v1 :: post)).lookup k = some v1
        ∧ (indexed j (pre ++ v2 :: post)).lookup k = some v2) := by
  induction pre with
  | nil =>
    intro j
    simp only [List.nil_append, indexed, List.lookup]
    cases k == toString j
    · exact Or.inl rfl
    · exact Or.inr ⟨rfl, rfl⟩
  | cons x rest ih =>
    intro j
    simp only [List.cons_append, indexed, List.lookup]
    cases k == toString j
    · exact ih (j + 1)
    · exact Or.inl rfl

theorem indexed_keys_update (pre post : List JSValue) (v1 v2 : JSValue) :
    ∀ j : Nat, (indexed j (pre ++ v1 :: post)).map Prod.fst
      = (indexed j (pre ++ v2 :: post)).map Prod.fst := by
  induction pre with
  | nil => intro j; rfl
  | cons x rest ih =>
    intro j
    show (toString j, x).1 :: (indexed (j + 1) (rest ++ v1 :: post)).map Prod.fst
      = (toString j, x).1 :: (indexed (j + 1) (rest ++ v2 :: post)).map Prod.fst
    rw [ih (j + 1)]

theorem get_arr_update (pre post : List JSValue) (items : Option JSValue)
    (v1 v2 : JSValue) (key : String) :
    (arr (pre ++ v1 :: post) items).get key = (arr (pre ++ v2 :: post) items).get key
    ∨ ((arr (pre ++ v1 :: post) items).get key = v1
      ∧ (arr (pre ++ v2 :: post) items).get key = v2) := by
  simp only [JSValue.get]
  split_ifs
  · exact Or.inl rfl
  · left
    simp
  · rcases indexed_lookup_update pre post v1 v2 key 0 with h | ⟨h1, h2⟩
    · left
      rw [h]
    · right
      rw [h1, h2]
      exact ⟨rfl, rfl⟩

theorem get_arr_items_update (es : List JSValue) (v1 v2 : JSValue) (key : String) :
    (arr es (some v1)).get key = (arr es (some v2)).get key
    ∨ ((arr es (some v1)).get key = v1 ∧ (arr es (some v2)).get key = v2) := by
  simp only [JSValue.get]
  split_ifs
  · exact Or.inr ⟨rfl, rfl⟩
  · exact Or.inl rfl
  · exact Or.inl rfl

theorem itemStep_same (a : JSValue) (p : String) (o1 o2 : Props)
    (hs : sameMapping o1 o2) :
    sameMapping (itemStep walkNode a p o1) (itemStep walkNode a p o2) :=
  fun key => itemStep_lookup_congr key a p o1 o2 (hs key)

/-- The loop body of the `items` loop treats two entries alike when they are
walked alike and agree in what the tests of the body look at. -/
theorem itemStep_related (a1 a2 : JSValue) (p : String) (o1 o2 : Props)
    (hs : sameMapping o1 o2) (hwalk : walkSame a1 a2) (harr : a1.isArray = a2.isArray)
    (hlen : a1.length = a2.length) (htr : a1.truthy = a2.truthy)
    (hot : a1.isObjectType = a2.isObjectType)
    (h0 : a1.isArray = true → walkSame (a1.index 0) (a2.index 0)
      ∧ (a1.index 0 = a2.index 0
        ∨ (((a1.index 0).get "rule").truthy = false
          ∧ ((a2.index 0).get "rule").truthy = false
          ∧ (a1.index 0).truthy = (a2.index 0).truthy
          ∧ (a1.index 0).isObjectType = (a2.index 0).isObjectType
          ∧ (a1.index 0).isArray = (a2.index 0).isArray))) :
    sameMapping (itemStep walkNode a1 p o1) (itemStep walkNode a2 p o2) := by
  by_cases ha : a1.isArray = true
  · have ha2 : a2.isArray = true := harr ▸ ha
    obtain ⟨hw0, hc⟩ := h0 ha
    rcases hc with heq | ⟨r1, r2, ht0, ho0, _⟩
    · unfold itemStep
      simp only [ha, ha2, ← heq, ← hlen, ← htr, ← hot, Bool.true_and]
      split_ifs
      · exact sameMapping_setProp _ _ _ _ hs
      · exact walkSame_refl _ _ _ _ hs
      · exact hwalk _ _ _ hs
      · exact hs
    · unfold itemStep
      simp only [ha, ha2, r1, r2, ← hlen, ← ht0, ← ho0, ← htr, ← hot, Bool.true_and,
        Bool.and_false, Bool.false_eq_true, if_false, Bool.not_false, Bool.and_true]
      split_ifs
      · exact hw0 _ _ _ hs
      · exact hwalk _ _ _ hs
      · exact hs
  · have ha1 : a1.isArray = false := by simpa using ha
    have ha2 : a2.isArray = false := harr ▸ ha1
    unfold itemStep
    simp only [ha1, ha2, ← htr, ← hot, Bool.false_and, Bool.false_eq_true, if_false]
    split_ifs
    · exact hwalk _ _ _ hs
    · exact hs

theorem elemStep_same (e : JSValue) (p : String) (o1 o2 : Props)
    (hs : sameMapping o1 o2) :
    sameMapping (elemStep walkNode e p o1) (elemStep walkNode e p o2) := by
  unfold elemStep
  split_ifs
  · exact sameMapping_setProp _ _ _ _ hs
  · exact walkSame_refl _ _ _ _ hs
  · exact hs

/-- The body of the element loop treats two elements alike when they are equal,
or carry no truthy `rule`, are walked alike and agree in the tests of the body. -/
theorem elemStep_related (e1 e2 : JSValue) (p : String) (o1 o2 : Props)
    (hs : sameMapping o1 o2) (hwalk : walkSame e1 e2)
    (hc : e1 = e2
      ∨ ((e1.get "rule").truthy = false ∧ (e2.get "rule").truthy = false
        ∧ e1.truthy = e2.truthy ∧ e1.isObjectType = e2.isObjectType
        ∧ e1.isArray = e2.isArray)) :
    sameMapping (elemStep walkNode e1 p o1) (elemStep walkNode e2 p o2) := by
  rcases hc with heq | ⟨r1, r2, ht, ho, ha⟩
  · rw [← heq]
    exact elemStep_same e1 p o1 o2 hs
  · unfold elemStep
    simp only [r1, r2, ← ht, ← ho, ← ha, Bool.and_false, Bool.false_and, Bool.false_eq_true,
      if_false, Bool.not_false, Bool.and_true]
    split_ifs
    · exact hwalk _ _ _ hs
    · exact hs

/-- Two array nodes are walked alike when they have the same length, their
elements at each position are walked alike (being equal, or without a truthy
`rule` and alike in the tests of the loops), and their `items` are alike. -/
theorem walkSame_arrays (n1 n2 : JSValue) (ha1 : n1.isArray = true)
    (ha2 : n2.isArray = true) (hlen : n1.length = n2.length)
    (helem : ∀ j : Nat, walkSame (n1.index j) (n2.index j)
      ∧ (n1.index j = n2.index j
        ∨ (((n1.index j).get "rule").truthy = false
          ∧ ((n2.index j).get "rule").truthy = false
          ∧ (n1.index j).truthy = (n2.index j).truthy
          ∧ (n1.index j).isObjectType = (n2.index j).isObjectType
          ∧ (n1.index j).isArray = (n2.index j).isArray)))
    (hit : (n1.get "items").truthy = (n2.get "items").truthy)
    (hitems : itemsSame (n1.get "items") (n2.get "items")) : walkSame n1 n2 := by
  intro base o1 o2 hs
  have ht1 : n1.truthy = true := by cases n1 <;> simp_all [JSValue.isArray, JSValue.truthy]
  have ht2 : n2.truthy = true := by cases n2 <;> simp_all [JSValue.isArray, JSValue.truthy]
  have hloop : ∀ a1 a2, sameMapping a1 a2 →
      sameMapping (walkElements walkNode n1 base a1) (walkElements walkNode n2 base a2) := by
    intro a1 a2 ha
    rw [walkElements_eq_elemStep, walkElements_eq_elemStep, ← hlen]
    apply foldl_rel sameMapping _ _ _ _ a1 a2 ha
    intro b1 b2 i _ hb
    exact elemStep_related _ _ _ _ _ hb (helem i).1 (helem i).2
  obtain ⟨hw0, hc0⟩ := helem 0
  rw [walkNode_eq, walkNode_eq]
  rcases hc0 with heq | ⟨r1, r2, ht0, ho0, _⟩
  · simp only [walkStep, ht1, ht2, ha1, ha2, ← hlen, ← hit, ← heq, Bool.not_true,
      Bool.false_eq_true, if_false, if_true]
    split_ifs
    · exact hitems _ _ _ hs
    · exact hs
    · exact sameMapping_setProp _ _ _ _ hs
    · exact walkSame_refl _ _ _ _ hs
    · exact hitems _ _ _ (hloop _ _ hs)
    · exact hloop _ _ hs
  · simp only [walkStep, ht1, ht2, ha1, ha2, ← hlen, ← hit, r1, r2, ← ht0, ← ho0,
      Bool.not_true, Bool.false_eq_true, if_false, if_true, Bool.and_false, Bool.false_and,
      Bool.not_false, Bool.and_true]
    split_ifs
    · exact hitems _ _ _ hs
    · exact hs
    · exact hw0 _ _ _ hs
    · exact hitems _ _ _ (hloop _ _ hs)
    · exact hloop _ _ hs

/-- Reordering the keys of one field map with distinct, non-empty, dot-free names
changes neither what `walk` nor what the `items` loop leaves in the accumulator,
nor any of the tests that the loops make on the node. -/
theorem keyReorder_walkSame (p1 p2 : Props) (hplain : ∀ q ∈ p1, plainName q.1 = true)
    (hnd : (p1.map Prod.fst).Nodup) (t1 t2 : JSValue) (h : KeyReorder p1 p2 t1 t2) :
    walkSame t1 t2 ∧ itemsSame t1 t2
    ∧ t1.truthy = true ∧ t2.truthy = true
    ∧ t1.isObjectType = true ∧ t2.isObjectType = true
    ∧ t1.isArray = t2.isArray ∧ t1.length = t2.length
    ∧ (t1.get "rule").truthy = (t2.get "rule").truthy
    ∧ (t1.isArray = true → walkSame (t1.index 0) (t2.index 0)
      ∧ (t1.index 0 = t2.index 0
        ∨ (((t1.index 0).get "rule").truthy = false
          ∧ ((t2.index 0).get "rule").truthy = false
          ∧ (t1.index 0).truthy = (t2.index 0).truthy
          ∧ (t1.index 0).isObjectType = (t2.index 0).isObjectType
          ∧ (t1.index 0).isArray = (t2.index 0).isArray))) := by
  induction h with
  | atRoot hperm =>
    have hnd2 : (p2.map Prod.fst).Nodup := ((hperm.map Prod.fst).nodup_iff).mp hnd
    refine ⟨?_, ?_, rfl, rfl, rfl, rfl, rfl, rfl, ?_, fun ha => by simp at ha⟩
    · intro base o1 o2 hs
      rw [walkNode_eq, walkNode_eq, walkStep_obj, walkStep_obj,
        foldl_keys_eq_foldl_entries p1 hnd (fun acc k v => walkNode v (joinPath base k) acc),
        foldl_keys_eq_foldl_entries p2 hnd2 (fun acc k v => walkNode v (joinPath base k) acc)]
      apply foldl_perm_same (fun q o => walkNode q.2 (joinPath base q.1) o)
        (fun q a1 a2 ha => walkSame_refl q.2 _ a1 a2 ha) p1 p2 hperm hnd _ o1 o2 hs
      intro q1 hq1 q2 hq2 hne o
      exact commute_of_disjoint (fun a => walkNode q1.2 (joinPath base q1.1) a)
        (fun a => walkNode q2.2 (joinPath base q2.1) a) (joinPath base q1.1)
        (joinPath base q2.1)
        (fun key a hk => walkNode_footprint key _ _ a
          (joinPath_plain_ne_empty base _ (hplain q1 hq1)) hk)
        (fun key a hk => walkNode_footprint key _ _ a
          (joinPath_plain_ne_empty base _ (hplain q2 hq2)) hk)
        (fun key a1 a2 ha => walkNode_lookup_congr key _ _ a1 a2 ha)
        (fun key a1 a2 ha => walkNode_lookup_congr key _ _ a1 a2 ha)
        (fun key => siblings_disjoint base q1.1 q2.1 key (hplain q1 hq1) (hplain q2 hq2) hne) o
    · intro base o1 o2 hs
      rw [walkItems_eq_itemStep, walkItems_eq_itemStep, keys_obj, keys_obj,
        foldl_keys_eq_foldl_entries p1 hnd
          (fun acc k v => itemStep walkNode v (joinPath base k) acc),
        foldl_keys_eq_foldl_entries p2 hnd2
          (fun acc k v => itemStep walkNode v (joinPath base k) acc)]
      apply foldl_perm_same (fun q o => itemStep walkNode q.2 (joinPath base q.1) o)
        (fun q a1 a2 ha => itemStep_same q.2 _ a1 a2 ha) p1 p2 hperm hnd _ o1 o2 hs
      intro q1 hq1 q2 hq2 hne o
      exact commute_of_disjoint (fun a => itemStep walkNode q1.2 (joinPath base q1.1) a)
        (fun a => itemStep walkNode q2.2 (joinPath base q2.1) a) (joinPath base q1.1)
        (joinPath base q2.1)
        (fun key a hk => itemStep_footprint key _ _ a
          (joinPath_plain_ne_empty base _ (hplain q1 hq1)) hk)
        (fun key a hk => itemStep_footprint key _ _ a
          (joinPath_plain_ne_empty base _ (hplain q2 hq2)) hk)
        (fun key a1 a2 ha => itemStep_lookup_congr key _ _ a1 a2 ha)
        (fun key a1 a2 ha => itemStep_lookup_congr key _ _ a1 a2 ha)
        (fun key => siblings_disjoint base q1.1 q2.1 key (hplain q1 hq1) (hplain q2 hq2) hne) o
    · rw [get_obj_of_perm p1 p2 hperm hnd "rule"]
  | atKey pre post k v1 v2 _ ih =>
    obtain ⟨ihw, _, iht1, iht2, iho1, iho2, iha, ihl, _, ih0⟩ := ih
    have hkeys : (pre ++ (k, v1) :: post).map Prod.fst = (pre ++ (k, v2) :: post).map Prod.fst := by
      simp
    refine ⟨?_, ?_, rfl, rfl, rfl, rfl, rfl, rfl, ?_, fun ha => by simp at ha⟩
    · intro base o1 o2 hs
      rw [walkNode_eq, walkNode_eq, walkStep_obj, walkStep_obj, hkeys]
      apply foldl_rel sameMapping _ _ _ _ o1 o2 hs
      intro a1 a2 key _ ha
      rcases get_obj_update pre post k v1 v2 key with heq | ⟨h1, h2⟩
      · rw [heq]
        exact walkSame_refl _ _ _ _ ha
      · rw [h1, h2]
        exact ihw _ _ _ ha
    · intro base o1 o2 hs
      rw [walkItems_eq_itemStep, walkItems_eq_itemStep, keys_obj, keys_obj, hkeys]
      apply foldl_rel sameMapping _ _ _ _ o1 o2 hs
      intro a1 a2 key _ ha
      rcases get_obj_update pre post k v1 v2 key with heq | ⟨h1, h2⟩
      · rw [heq]
        exact itemStep_same _ _ _ _ ha
      · rw [h1, h2]
        exact itemStep_related v1 v2 _ a1 a2 ha ihw iha ihl (iht1.trans iht2.symm)
          (iho1.trans iho2.symm) ih0
    · rcases get_obj_update pre post k v1 v2 "rule" with heq | ⟨h1, h2⟩
      · rw [heq]
      · rw [h1, h2, iht1, iht2]
  | atElement pre post items v1 v2 _ hrule ih =>
    obtain ⟨ihw, _, iht1, iht2, iho1, iho2, iha, ihl, ihr, ih0⟩ := ih
    have hrule2 : (v2.get "rule").truthy = false := by rw [← ihr]; exact hrule
    have hlen : (arr (pre ++ v1 :: post) items).length
        = (arr (pre ++ v2 :: post) items).length := by
      simp [length_arr]
    have helem : ∀ j : Nat,
        walkSame ((arr (pre ++ v1 :: post) items).index j)
          ((arr (pre ++ v2 :: post) items).index j)
        ∧ ((arr (pre ++ v1 :: post) items).index j = (arr (pre ++ v2 :: post) items).index j
          ∨ ((((arr (pre ++ v1 :: post) items).index j).get "rule").truthy = false
            ∧ (((arr (pre ++ v2 :: post) items).index j).get "rule").truthy = false
            ∧ ((arr (pre ++ v1 :: post) items).index j).truthy
              = ((arr (pre ++ v2 :: post) items).index j).truthy
            ∧ ((arr (pre ++ v1 :: post) items).index j).isObjectType
              = ((arr (pre ++ v2 :: post) items).index j).isObjectType
            ∧ ((arr (pre ++ v1 :: post) items).index j).isArray
              = ((arr (pre ++ v2 :: post) items).index j).isArray)) := by
      intro j
      simp only [JSValue.index]
      rcases getD_update pre post v1 v2 j with heq | ⟨h1, h2⟩
      · rw [heq]
        exact ⟨walkSame_refl _, Or.inl rfl⟩
      · rw [h1, h2]
        exact ⟨ihw, Or.inr ⟨hrule, hrule2, iht1.trans iht2.symm, iho1.trans iho2.symm, iha⟩⟩
    have hrule_arr : ∀ (es : List JSValue) (it : Option JSValue),
        (arr es it).get "rule" = JSValue.undefined :=
      fun es it => get_rule_of_not_obj _ (fun p hp => by cases hp)
    refine ⟨?_, ?_, rfl, rfl, rfl, rfl, rfl, hlen, ?_, fun _ => helem 0⟩
    · exact walkSame_arrays (arr (pre ++ v1 :: post) items) (arr (pre ++ v2 :: post) items)
        rfl rfl hlen helem (by simp) (by
        rw [get_arr_items, get_arr_items]
        exact itemsSame_refl _)
    · intro base o1 o2 hs
      have hk : (arr (pre ++ v1 :: post) items).keys = (arr (pre ++ v2 :: post) items).keys := by
        simp only [JSValue.keys, JSValue.ownProps, List.map_append,
          indexed_keys_update pre post v1 v2 0]
      rw [walkItems_eq_itemStep, walkItems_eq_itemStep, hk]
      apply foldl_rel sameMapping _ _ _ _ o1 o2 hs
      intro a1 a2 key _ ha
      rcases get_arr_update pre post items v1 v2 key with heq | ⟨h1, h2⟩
      · rw [heq]
        exact itemStep_same _ _ _ _ ha
      · rw [h1, h2]
        exact itemStep_related v1 v2 _ a1 a2 ha ihw iha ihl (iht1.trans iht2.symm)
          (iho1.trans iho2.symm) ih0
    · rw [hrule_arr, hrule_arr]
  | atItems es v1 v2 _ ih =>
    obtain ⟨ihw, ihi, iht1, iht2, iho1, iho2, iha, ihl, _, ih0⟩ := ih
    have hrule_arr : ∀ (l : List JSValue) (it : Option JSValue),
        (arr l it).get "rule" = JSValue.undefined :=
      fun l it => get_rule_of_not_obj _ (fun p hp => by cases hp)
    refine ⟨?_, ?_, rfl, rfl, rfl, rfl, rfl, rfl, ?_,
      fun _ => ⟨walkSame_refl _, Or.inl rfl⟩⟩
    · apply walkSame_arrays (arr es (some v1)) (arr es (some v2)) rfl rfl rfl
        (fun j => ⟨walkSame_refl _, Or.inl rfl⟩)
      · rw [get_arr_items, get_arr_items]
        simp only [Option.getD_some]
        rw [iht1, iht2]
      · rw [get_arr_items, get_arr_items]
        exact ihi
    · intro base o1 o2 hs
      have hk : (arr es (some v1)).keys = (arr es (some v2)).keys := by
        simp [JSValue.keys, JSValue.ownProps]
      rw [walkItems_eq_itemStep, walkItems_eq_itemStep, hk]
      apply foldl_rel sameMapping _ _ _ _ o1 o2 hs
      intro a1 a2 key _ ha
      rcases get_arr_items_update es v1 v2 key with heq | ⟨h1, h2⟩
      · rw [heq]
        exact itemStep_same _ _ _ _ ha
      · rw [h1, h2]
        exact itemStep_related v1 v2 _ a1 a2 ha ihw iha ihl (iht1.trans iht2.symm)
          (iho1.trans iho2.symm) ih0
    · rw [hrule_arr, hrule_arr]

/-- Two property lists that hold each key once and denote the same mapping hold
the same entries. -/
theorem perm_of_sameMapping (l1 l2 : Props) (hn1 : (l1.map Prod.fst).Nodup)
    (hn2 : (l2.map Prod.fst).Nodup) (h : sameMapping l1 l2) : l1.Perm l2 := by
  apply (List.perm_ext_iff_of_nodup (List.Nodup.of_map _ hn1) (List.Nodup.of_map _ hn2)).mpr
  intro q
  constructor
  · intro hq
    exact mem_of_lookup l2 q.1 q.2 ((h q.1).symm.trans (lookup_of_mem l1 hn1 q.1 q.2 hq))
  · intro hq
    exact mem_of_lookup l1 q.1 q.2 ((h q.1).trans (lookup_of_mem l2 hn2 q.1 q.2 hq))

/-- Claim C30 fails when two paths collide: with a field named `"a.b"` next to a
field `a` holding `b`, both leaf groups are written to the key `"a.b"` and the
later one wins, so exchanging the two keys of the root changes the value found
under `"a.b"`. -/
theorem key_order_counterexample :
    KeyReorder
      [("a.b", arr [obj [("rule", str "r1"), ("message", str "m1")]] none),
        ("a", obj [("b", arr [obj [("rule", str "r2"), ("message", str "m2")]] none)])]
      [("a", obj [("b", arr [obj [("rule", str "r2"), ("message", str "m2")]] none)]),
        ("a.b", arr [obj [("rule", str "r1"), ("message", str "m1")]] none)]
      (obj [("a.b", arr [obj [("rule", str "r1"), ("message", str "m1")]] none),
        ("a", obj [("b", arr [obj [("rule", str "r2"), ("message", str "m2")]] none)])])
      (obj [("a", obj [("b", arr [obj [("rule", str "r2"), ("message", str "m2")]] none)]),
        ("a.b", arr [obj [("rule", str "r1"), ("message", str "m1")]] none)])
    ∧ flattenMoldErrorsToRHF
        (obj [("a.b", arr [obj [("rule", str "r1"), ("message", str "m1")]] none),
          ("a", obj [("b", arr [obj [("rule", str "r2"), ("message", str "m2")]] none)])])
      = obj [("a.b", obj [("type", str "r2"), ("message", str "m2")])]
    ∧ flattenMoldErrorsToRHF
        (obj [("a", obj [("b", arr [obj [("rule", str "r2"), ("message", str "m2")]] none)]),
          ("a.b", arr [obj [("rule", str "r1"), ("message", str "m1")]] none)])
      = obj [("a.b", obj [("type", str "r1"), ("message", str "m1")])]
    ∧ (flattenMoldErrorsToRHF
        (obj [("a.b", arr [obj [("rule", str "r1"), ("message", str "m1")]] none),
          ("a", obj [("b", arr [obj [("rule", str "r2"), ("message", str "m2")]] none)])])).get
          "a.b"
      ≠ (flattenMoldErrorsToRHF
        (obj [("a", obj [("b", arr [obj [("rule", str "r2"), ("message", str "m2")]] none)]),
          ("a.b", arr [obj [("rule", str "r1"), ("message", str "m1")]] none)])).get "a.b" := by
  have h1 : flattenMoldErrorsToRHF
        (obj [("a.b", arr [obj [("rule", str "r1"), ("message", str "m1")]] none),
          ("a", obj [("b", arr [obj [("rule", str "r2"), ("message", str "m2")]] none)])])
      = obj [("a.b", obj [("type", str "r2"), ("message", str "m2")])] := by rfl
  have h2 : flattenMoldErrorsToRHF
        (obj [("a", obj [("b", arr [obj [("rule", str "r2"), ("message", str "m2")]] none)]),
          ("a.b", arr [obj [("rule", str "r1"), ("message", str "m1")]] none)])
      = obj [("a.b", obj [("type", str "r1"), ("message", str "m1")])] := by rfl
  refine ⟨KeyReorder.atRoot (List.Perm.swap _ _ _), h1, h2, ?_⟩
  rw [h1, h2, get_obj_cons_self, get_obj_cons_self]
  intro hc
  simp only [JSValue.obj.injEq, List.cons.injEq, Prod.mk.injEq, JSValue.str.injEq] at hc
  exact absurd hc.1.2 (by decide)

/-- Claim C30, amended. For every two trees that differ only in the iteration
order of the keys of one field map, provided the names of that field map are
non-empty, free of `'.'` and pairwise distinct: `flattenMoldErrorsToRHF` returns
the same mapping for both; the entries of one result are a rearrangement of the
entries of the other, and every key reads the same value in both. The rest of the
trees is arbitrary: the field map may sit at the root, below fields, inside array
elements that are not leaves, or in an `items` side-channel, and its values may be
arrays with `items`. -/
theorem flatten_key_order_irrelevant (p1 p2 : Props) (t1 t2 : JSValue)
    (h : KeyReorder p1 p2 t1 t2) (hplain : ∀ q ∈ p1, plainName q.1 = true)
    (hnd : (p1.map Prod.fst).Nodup) :
    (flattenMoldErrorsToRHF t1).ownProps.Perm (flattenMoldErrorsToRHF t2).ownProps
    ∧ ∀ key : String,
        (flattenMoldErrorsToRHF t1).get key = (flattenMoldErrorsToRHF t2).get key := by
  obtain ⟨hw, _, ht1, ht2, _⟩ := keyReorder_walkSame p1 p2 hplain hnd t1 t2 h
  have hsame : sameMapping (walkNode t1 "" []) (walkNode t2 "" []) :=
    hw "" [] [] (fun _ => rfl)
  obtain ⟨props1, hf1, hn1, _⟩ := flatten_records t1
  obtain ⟨props2, hf2, hn2, _⟩ := flatten_records t2
  have e1 : props1 = walkNode t1 "" [] := by
    rw [flatten_of_truthy t1 ht1] at hf1
    exact (JSValue.obj.inj hf1).symm
  have e2 : props2 = walkNode t2 "" [] := by
    rw [flatten_of_truthy t2 ht2] at hf2
    exact (JSValue.obj.inj hf2).symm
  rw [flatten_of_truthy t1 ht1, flatten_of_truthy t2 ht2]
  refine ⟨perm_of_sameMapping _ _ (e1 ▸ hn1) (e2 ▸ hn2) hsame, fun key => ?_⟩
  rw [get_obj, get_obj, hsame key]

theorem flatten_key_order_irrelevant_witness :
    KeyReorder
      [("name", arr [obj [("rule", str "min"), ("message", str "Too short")]] none),
        ("tags", arr [] (some (obj [("1", arr [obj [("rule", str "isEmpty"),
          ("message", str "Empty")]] none)])))]
      [("tags", arr [] (some (obj [("1", arr [obj [("rule", str "isEmpty"),
          ("message", str "Empty")]] none)]))),
        ("name", arr [obj [("rule", str "min"), ("message", str "Too short")]] none)]
      (obj [("users", arr [] (some (obj [("0", obj
        [("name", arr [obj [("rule", str "min"), ("message", str "Too short")]] none),
          ("tags", arr [] (some (obj [("1", arr [obj [("rule", str "isEmpty"),
            ("message", str "Empty")]] none)])))])])))])
      (obj [("users", arr [] (some (obj [("0", obj
        [("tags", arr [] (some (obj [("1", arr [obj [("rule", str "isEmpty"),
            ("message", str "Empty")]] none)]))),
          ("name", arr [obj [("rule", str "min"), ("message", str "Too short")]]
            none)])])))])
    ∧ (∀ q ∈ [("name", arr [obj [("rule", str "min"), ("message", str "Too short")]] none),
        ("tags", arr [] (some (obj [("1", arr [obj [("rule", str "isEmpty"),
          ("message", str "Empty")]] none)])))], plainName q.1 = true)
    ∧ ([("name", arr [obj [("rule", str "min"), ("message", str "Too short")]] none),
        ("tags", arr [] (some (obj [("1", arr [obj [("rule", str "isEmpty"),
          ("message", str "Empty")]] none)])))].map Prod.fst).Nodup
    ∧ ∀ key : String,
        (flattenMoldErrorsToRHF (obj [("users", arr [] (some (obj [("0", obj
          [("name", arr [obj [("rule", str "min"), ("message", str "Too short")]] none),
            ("tags", arr [] (some (obj [("1", arr [obj [("rule", str "isEmpty"),
              ("message", str "Empty")]] none)])))])])))])).get key
        = (flattenMoldErrorsToRHF (obj [("users", arr [] (some (obj [("0", obj
          [("tags", arr [] (some (obj [("1", arr [obj [("rule", str "isEmpty"),
              ("message", str "Empty")]] none)]))),
            ("name", arr [obj [("rule", str "min"), ("message", str "Too short")]]
              none)])])))])).get key :=
  ⟨KeyReorder.atKey [] [] "users" _ _
      (KeyReorder.atItems [] _ _
        (KeyReorder.atKey [] [] "0" _ _ (KeyReorder.atRoot (List.Perm.swap _ _ _)))),
    by decide, by decide,
    (flatten_key_order_irrelevant _ _ _ _
      (KeyReorder.atKey [] [] "users" _ _
        (KeyReorder.atItems [] _ _
          (KeyReorder.atKey [] [] "0" _ _ (KeyReorder.atRoot (List.Perm.swap _ _ _)))))
      (by decide) (by decide)).2⟩

end FormaBind
